import Mathlib

/-!
# Crinkler: hash-size search, call transform, image finalizer and size estimator

A shallow embedding of parts of `source/Crinkler/Crinkler.cpp`,
`source/Crinkler/CallTransform.cpp`, `source/Crinkler/StringMisc.cpp` and
`source/Compressor/aritcode.h`.

Conventions of the embedding:

* a C `int` is an `Int`; where a value is stored into memory it is reduced
  modulo `2 ^ 32` (or `2 ^ 16` for a `short`) explicitly, and where a claim
  ranges over all 32-bit values an `int` expression is reduced with `wrapInt`;
* a byte buffer is a `List Nat`, every store writes a value below `256`;
* a loop is a function that recurses on a fuel argument and answers `none`
  when the fuel is used up; the caller passes enough fuel and this is proved;
* dereferencing the result of a failed `FindSymbol` is `none`;
* an operation that can raise an error on the log ends in an `Outcome`: it
  returns a value, or the error aborts it;
* what a header outside the sources declares is a parameter (`Externals`, the
  table `LogTable`, the `_BitScanReverse` in use), or a definition whose
  comment starts with `Modelled from the spec:`.
-/

namespace Crinkler

/-! ## Machine arithmetic -/

/-- The C expression `x | 1` on a two's complement `int`: sets the lowest bit. -/
def orOne (x : Int) : Int :=
  if x % 2 = 0 then x + 1 else x

/-- The constant `INT_MAX` of `<climits>` for a 32-bit `int`. -/
def INT_MAX : Int := 2147483647

/-- The constant `INT_MIN` of `<climits>` for a 32-bit `int`. -/
def INT_MIN : Int := -2147483648

/-! ## `PreviousPrime` (Crinkler.cpp, lines 41-48) -/

/-- The loop `for (int i = 3; i * i < n; i += 2) if (n / i * i == n) goto in;`
entered with loop variable `i`. The answer is `some true` when the loop leaves
through `goto in`, `some false` when it runs to its end. -/
def PreviousPrime.divisorLoop (n : Int) : Nat → Int → Option Bool
  | 0, _ => none
  | fuel + 1, i =>
    if i * i < n then
      if n.tdiv i * i = n then some true
      else PreviousPrime.divisorLoop n fuel (i + 2)
    else some false

/-- The body of `PreviousPrime` from the label `in:` on; every `goto in`
uses one unit of fuel. -/
def PreviousPrime.fromLabel : Nat → Int → Option Int
  | 0, _ => none
  | fuel + 1, n =>
    let n := orOne (n - 2)
    match PreviousPrime.divisorLoop n (n.toNat + 1) 3 with
    | some true => PreviousPrime.fromLabel fuel n
    | some false => some n
    | none => none

/-- The function `static int PreviousPrime(int n)`. -/
def PreviousPrime (n : Int) : Option Int :=
  PreviousPrime.fromLabel (n.toNat + 1) n

/-! ## `Crinkler::OptimizeHashsize` (Crinkler.cpp, lines 300-347)

The compression of the cached hash bits with one candidate table size,
`CompressFromHashBits4k(hashbits, ..., hashsizes[i], nullptr)`, is a parameter
`compress` of the embedding: a function from the candidate to the coded size.
The array `hashsizes` holds `uint32_t`; the `int` stored into it and read back
into the `int best_hashsize` is the same `int`, so the array is modelled with
the `int` values themselves. -/

/-- The loop that fills the array `hashsizes`:
`for (i = 0; i < tries; i++) { hashsize = PreviousPrime(hashsize / 2) * 2; hashsizes[i] = hashsize; }`. -/
def OptimizeHashsize.enumerate : Nat → Int → Option (List Int)
  | 0, _ => some []
  | tries + 1, hashsize => do
    let p ← PreviousPrime (hashsize.tdiv 2)
    let hashsize := p * 2
    let rest ← OptimizeHashsize.enumerate tries hashsize
    pure (hashsize :: rest)

/-- One round of the serial merge:
`if (sizes[i] <= bestsize) { bestsize = sizes[i]; best_hashsize = hashsizes[i]; }`.
The state is the pair `(bestsize, best_hashsize)`, the entry the pair
`(hashsizes[i], sizes[i])`. -/
def OptimizeHashsize.mergeStep (best : Int × Int) (entry : Int × Int) : Int × Int :=
  if entry.2 ≤ best.1 then (entry.2, entry.1) else best

/-- What one call of `OptimizeHashsize` does: the candidates it handed to the
compressor (by array index), the coded sizes it got back, and its result. -/
structure HashsizeSearch where
  /-- The array `hashsizes`. -/
  hashsizes : List Int
  /-- The array `sizes`, written by the `parallel_for`. -/
  sizes : List Int
  /-- The returned value. -/
  best_hashsize : Int
deriving DecidableEq, Repr

/-- The method `Crinkler::OptimizeHashsize` with its trace. -/
def OptimizeHashsize.run (compress : Int → Int) (hashsize : Int) (tries : Nat) :
    Option HashsizeSearch :=
  if tries = 0 then
    some { hashsizes := [], sizes := [], best_hashsize := hashsize }
  else do
    let hashsizes ← OptimizeHashsize.enumerate tries hashsize
    let sizes := hashsizes.map compress
    let best := (hashsizes.zip sizes).foldl OptimizeHashsize.mergeStep (INT_MAX, hashsize)
    pure { hashsizes := hashsizes, sizes := sizes, best_hashsize := best.2 }

/-- The method `int Crinkler::OptimizeHashsize(data, datasize, hashsize, splittingPoint, tries)`. -/
def OptimizeHashsize (compress : Int → Int) (hashsize : Int) (tries : Nat) : Option Int :=
  (OptimizeHashsize.run compress hashsize tries).map HashsizeSearch.best_hashsize

/-- The candidate sequence in the words of the specification:
`S_0` is the starting size and `S_i = previous_prime(S_(i-1) / 2) * 2`. -/
def candidateS (S0 : Int) : Nat → Option Int
  | 0 => some S0
  | i + 1 => do
    let prev ← candidateS S0 i
    let p ← PreviousPrime (prev.tdiv 2)
    pure (p * 2)

/-! ## Memory access -/

/-- The store `*(int *)(data + p) = v` (also used for `unsigned int`): four
bytes, least significant first, of `v` reduced modulo `2 ^ 32`. -/
def storeInt (data : List Nat) (p : Nat) (v : Int) : List Nat :=
  let u := (v % 4294967296).toNat
  (((data.set p (u % 256)).set (p + 1) (u / 256 % 256)).set (p + 2) (u / 65536 % 256)).set
    (p + 3) (u / 16777216 % 256)

/-- The unsigned 32-bit word at `data + p`, least significant byte first. -/
def loadWord (data : List Nat) (p : Nat) : Nat :=
  data.getD p 0 + 256 * data.getD (p + 1) 0 + 65536 * data.getD (p + 2) 0
    + 16777216 * data.getD (p + 3) 0

/-- The load `*(int *)(data + p)`: the word at `p` read as a signed `int`. -/
def loadInt (data : List Nat) (p : Nat) : Int :=
  if loadWord data p < 2147483648 then (loadWord data p : Int)
  else (loadWord data p : Int) - 4294967296

/-- The cast `(int)(short)x`: `x` truncated to 16 bits and sign-extended. -/
def toShort (x : Int) : Int :=
  if x % 65536 < 32768 then x % 65536 else x % 65536 - 65536

/-- The call `memset(data + start, c, n)`, one byte store after the other. -/
def memset (data : List Nat) (start : Nat) (c : Nat) (n : Nat) : List Nat :=
  (List.range n).foldl (fun d k => d.set (start + k) (c % 256)) data

/-! ## Data model: symbols, hunks, the log -/

/-- The class `Symbol`, with the fields that the constructor in `Symbol.cpp`
initialises. The back-reference `hunk` is the name of the owning hunk. -/
structure Symbol where
  /-- Field `name`. -/
  name : String
  /-- Field `value`. -/
  value : Int
  /-- Field `flags`. -/
  flags : Nat
  /-- Field `hunk`: the owning hunk, `none` for a null pointer. -/
  hunk : Option String
  /-- Field `fromLibrary`. -/
  fromLibrary : Bool
  /-- Field `hunk_offset`. -/
  hunk_offset : Int
  /-- Field `miscString`. -/
  miscString : String
deriving DecidableEq, Repr

/-- The constructor `Symbol::Symbol(name, value, flags, hunk, miscString)` of
`Symbol.cpp`: `fromLibrary` is `false`, `hunk_offset` is `0`, and `miscString`
is taken over when one is given. -/
def Symbol.new (name : String) (value : Int) (flags : Nat) (hunk : Option String)
    (miscString : Option String) : Symbol :=
  { name := name, value := value, flags := flags, hunk := hunk, fromLibrary := false,
    hunk_offset := 0, miscString := miscString.getD "" }

/-- Modelled from the spec: the flag `SYMBOL_IS_RELOCATEABLE` of `Symbol.h`, which is
not among the sources; the specification distinguishes relocatable from absolute
symbols. Only the name of the bit matters here. -/
def SYMBOL_IS_RELOCATEABLE : Nat := 1

/-- Modelled from the spec: the type of a relocation, 32-bit absolute or 32-bit
PC-relative (`Hunk.h` is not among the sources). -/
inductive RelocationType where
  | RELOCTYPE_ABS32
  | RELOCTYPE_REL32
deriving DecidableEq, Repr

/-- Modelled from the spec: a relocation: the offset within the source hunk, the name
of the target symbol, and the type. -/
structure Relocation where
  /-- Field `offset`. -/
  offset : Int
  /-- Field `symbolname`. -/
  symbolname : String
  /-- Field `type`. -/
  type : RelocationType
deriving DecidableEq, Repr

/-- Modelled from the spec: the class `Hunk` (`Hunk.h` is not among the sources): a
named relocatable unit with flags, alignment in bits, raw size, virtual size, a
byte buffer of length raw size, the symbols it owns and its sequence of
relocations. -/
structure Hunk where
  /-- The name of the hunk. -/
  name : String
  /-- The flags of the hunk. -/
  flags : Nat
  /-- The alignment, in bits. -/
  alignmentBits : Int
  /-- The number of initialised bytes. -/
  rawsize : Int
  /-- The virtual size. -/
  virtualsize : Int
  /-- The byte buffer, what `GetPtr()` points to. -/
  data : List Nat
  /-- The owned symbols, latest first. -/
  symbols : List Symbol
  /-- The relocations, in the order in which they were added. -/
  relocations : List Relocation := []
deriving DecidableEq, Repr

/-- Modelled from the spec: the constructor
`Hunk(name, data, flags, alignmentBits, rawsize, virtualsize)` called with a null
`data` pointer: a buffer of `rawsize` zero bytes and no symbols. -/
def Hunk.new (name : String) (flags : Nat) (alignmentBits rawsize virtualsize : Int) : Hunk :=
  { name := name, flags := flags, alignmentBits := alignmentBits, rawsize := rawsize,
    virtualsize := virtualsize, data := List.replicate rawsize.toNat 0, symbols := [] }

/-- Modelled from the spec: `Hunk::AddSymbol`, the hunk takes ownership of the symbol. -/
def Hunk.AddSymbol (h : Hunk) (s : Symbol) : Hunk :=
  { h with symbols := s :: h.symbols }

/-- Modelled from the spec: `Hunk::FindSymbol`, lookup of an owned symbol by name;
`none` stands for the null pointer. -/
def Hunk.FindSymbol (h : Hunk) (name : String) : Option Symbol :=
  h.symbols.find? (fun s => s.name == name)

/-- Modelled from the spec: the three streams of the process-global logger. -/
inductive LogLevel where
  | error
  | warning
  | info
deriving DecidableEq, Repr

/-- One line on the log: the stream, the source and the message. -/
structure LogEntry where
  /-- The stream. -/
  level : LogLevel
  /-- The source (a file name or empty). -/
  source : String
  /-- The message. -/
  message : String
deriving DecidableEq, Repr

/-- Modelled from the spec: `Log::Warning(from, msg)` appends one warning line. -/
def Log.Warning (log : List LogEntry) (source message : String) : List LogEntry :=
  log ++ [{ level := LogLevel.warning, source := source, message := message }]

/-! ## `CallTransform::DoTransform` (CallTransform.cpp, lines 18-48) -/

/-- The state of the transform object that `DoTransform` touches. -/
structure CallTransform where
  /-- Whether the transform runs in the next pass. -/
  m_enabled : Bool
deriving DecidableEq, Repr

/-- Modelled from the spec: `Transform::Disable()` (`Transform.h` is not among the
sources): the transform disables itself for subsequent passes. -/
def CallTransform.Disable (self : CallTransform) : CallTransform :=
  { self with m_enabled := false }

/-- The rewriting loop
`for (int i = 0; i < size-4; i++) { if (data[i] == 0xe8) { ... } }`
entered with loop variable `i`, buffer `data` and counter `num`; the result is
the buffer and the counter when the loop is left. -/
def DoTransform.loop (size : Int) : Nat → Nat → List Nat → Int → Option (List Nat × Int)
  | 0, _, _, _ => none
  | fuel + 1, i, data, num =>
    if (i : Int) < size - 4 then
      if data.getD i 0 = 0xe8 then
        let offset := loadInt data (i + 1)
        if -32768 ≤ offset ∧ offset ≤ 32767 then
          DoTransform.loop size fuel (i + 4 + 1)
            (storeInt data (i + 1) (toShort (offset + i + 1))) (num + 1)
        else DoTransform.loop size fuel (i + 1) data num
      else DoTransform.loop size fuel (i + 1) data num
    else some (data, num)

/-- The rewrite of `DoTransform`: the loop from `i = 0` and `num = 0` over the
buffer of the hunk, with `size = splittingPoint`. -/
def DoTransform.rewrite (splittingPoint : Int) (data : List Nat) : Option (List Nat × Int) :=
  DoTransform.loop splittingPoint (splittingPoint.toNat + 1) 0 data 0

/-- What a call of `DoTransform` leaves behind: the returned flag, the hunk, the
transform object, the lines put on the log and the text printed. -/
structure DoTransformResult where
  /-- The returned `bool`. -/
  ret : Bool
  /-- The hunk after the call. -/
  hunk : Hunk
  /-- The transform object after the call. -/
  self : CallTransform
  /-- The lines the call put on the log. -/
  log : List LogEntry
  /-- The text the call printed with `printf`. -/
  printed : List String
deriving DecidableEq, Repr

/-- The method `bool CallTransform::DoTransform(Hunk* hunk, int splittingPoint, bool verbose)`. -/
def CallTransform.DoTransform (self : CallTransform) (hunk : Hunk) (splittingPoint : Int)
    (verbose : Bool) : Option DoTransformResult := do
  let (data, num) ← DoTransform.rewrite splittingPoint hunk.data
  let hunk := { hunk with data := data }
  if num > 0 then
    let callTrans ← hunk.FindSymbol "_CallTrans"
    let hunk := { hunk with data := storeInt hunk.data (callTrans.value + 2).toNat num }
    pure { ret := true, hunk := hunk, self := self, log := [],
           printed := if verbose then ["\nCalls transformed: " ++ toString num ++ "\n"] else [] }
  else
    let callTrans ← hunk.FindSymbol "_CallTrans"
    let start := callTrans.value
    let callTransSize ← hunk.FindSymbol "_CallTransSize"
    let size := callTransSize.value
    let hunk := { hunk with data := memset hunk.data start.toNat 0x90 size.toNat }
    pure { ret := false, hunk := hunk, self := self.Disable,
           log := if verbose then Log.Warning [] "" "No calls - call transformation not applied"
                  else [],
           printed := [] }

/-! ### The rewrite rule in the words of the specification -/

/-- The signed 32-bit little-endian displacement that follows position `i`. -/
def displacementAt (data : List Nat) (i : Nat) : Int :=
  loadInt data (i + 1)

/-- The four bytes of `d + i + 1` truncated to 16 bits and sign-extended to 32
bits, least significant byte first. -/
def rewrittenDisplacement (d : Int) (i : Nat) : List Nat :=
  let t := ((d + i + 1) % 65536).toNat
  let s := if t < 32768 then 0 else 255
  [t % 256, t / 256, s, s]

/-- Whether position `i` holds a call that the rule rewrites: the byte `0xE8`
followed by a displacement that fits in 16 bits. -/
def eligibleCall (data : List Nat) (i : Nat) : Prop :=
  data.getD i 0 = 0xE8 ∧ -32768 ≤ displacementAt data i ∧ displacementAt data i ≤ 32767

instance (data : List Nat) (i : Nat) : Decidable (eligibleCall data i) := by
  unfold eligibleCall; infer_instance

/-- The reference scan: from position `i`, while `i < splittingPoint - 4`, an
eligible call has its displacement replaced and the scan resumes at `i + 5`;
any other position is left alone and the scan resumes at `i + 1`. -/
def referenceScan (splittingPoint : Int) (data : List Nat) (i : Nat) : List Nat :=
  if (i : Int) < splittingPoint - 4 then
    if eligibleCall data i then
      referenceScan splittingPoint
        (data.take (i + 1) ++ rewrittenDisplacement (displacementAt data i) i ++ data.drop (i + 5))
        (i + 5)
    else referenceScan splittingPoint data (i + 1)
  else data
termination_by (splittingPoint - 4 - i).toNat
decreasing_by
  all_goals simp_wf
  all_goals omega

/-- The calls that the reference scan rewrites, by position: from position `i`,
while `i < splittingPoint - 4`, an eligible call is a rewritten call, its
displacement is replaced and the scan resumes at `i + 5`; any other position is
left alone and the scan resumes at `i + 1`. -/
def referenceCalls (splittingPoint : Int) (data : List Nat) (i : Nat) : List Nat :=
  if (i : Int) < splittingPoint - 4 then
    if eligibleCall data i then
      i :: referenceCalls splittingPoint
        (data.take (i + 1) ++ rewrittenDisplacement (displacementAt data i) i ++ data.drop (i + 5))
        (i + 5)
    else referenceCalls splittingPoint data (i + 1)
  else []
termination_by (splittingPoint - 4 - i).toNat
decreasing_by
  all_goals simp_wf
  all_goals omega

/-! ## `Crinkler::CreateModelHunk` (Crinkler.cpp, lines 279-298) -/

/-- The struct `Model` of `ModelList.h`. -/
structure Model where
  /-- Field `weight`. -/
  weight : Nat
  /-- Field `mask`. -/
  mask : Nat
deriving DecidableEq, Repr

/-- The class `ModelList4k` of `ModelList.h`. -/
structure ModelList4k where
  /-- Field `m_models`. -/
  m_models : List Model
  /-- Field `nmodels`. -/
  nmodels : Nat
  /-- Field `size`. -/
  size : Int
deriving DecidableEq, Repr

/-- What a call `GetMaskList(masks, terminate)` yields: the returned weightmask
and the contents of the array `masks` after the call. `ModelList.h` only
declares the method, so the embedding of `CreateModelHunk` takes it as a
parameter. -/
structure MaskList where
  /-- The returned `unsigned int`. -/
  weightmask : Nat
  /-- The entry `masks[m]` after the call. -/
  masks : Nat → Nat

/-- Modelled from the spec: the constant `CRINKLER_CODEBASE` (`Crinkler.h` is not among
the sources): the code base, by default `0x410000`. -/
def CRINKLER_CODEBASE : Int := 0x410000

/-- The loop `for (int m = 0; m < nmodels; m++) *ptr++ = masks[m];`: the state is
the buffer and the offset `ptr`. -/
def CreateModelHunk.copyMasks (masks : Nat → Nat) (nmodels : Nat) (st : List Nat × Nat) :
    List Nat × Nat :=
  (List.range nmodels).foldl (fun st m => (st.1.set st.2 (masks m % 256), st.2 + 1)) st

/-- The method `Hunk* Crinkler::CreateModelHunk(int splittingPoint, int rawsize)`; the
members `m_modellist1` and `m_modellist2` are arguments. -/
def CreateModelHunk (GetMaskList : ModelList4k → Bool → MaskList)
    (m_modellist1 m_modellist2 : ModelList4k) (splittingPoint rawsize : Int) : Hunk :=
  let modelsSize : Int := 16 + m_modellist1.nmodels + m_modellist2.nmodels
  let l1 := GetMaskList m_modellist1 false
  let l2 := GetMaskList m_modellist2 true
  let models := Hunk.new "models" 0 0 modelsSize modelsSize
  let models := models.AddSymbol
    (Symbol.new "_Models" 0 SYMBOL_IS_RELOCATEABLE (some models.name) none)
  let ptr := 0
  let data := storeInt models.data ptr (-(CRINKLER_CODEBASE + splittingPoint))
  let ptr := ptr + 4
  let data := storeInt data ptr l1.weightmask
  let ptr := ptr + 4
  let st := CreateModelHunk.copyMasks l1.masks m_modellist1.nmodels (data, ptr)
  let data := st.1
  let ptr := st.2
  let data := storeInt data ptr (-(CRINKLER_CODEBASE + rawsize))
  let ptr := ptr + 4
  let data := storeInt data ptr l2.weightmask
  let ptr := ptr + 4
  let st := CreateModelHunk.copyMasks l2.masks m_modellist2.nmodels (data, ptr)
  { models with data := st.1 }

/-- The four bytes of a 32-bit word, least significant first. -/
def wordBytes (w : Nat) : List Nat :=
  [w % 256, w / 256 % 256, w / 65536 % 256, w / 16777216 % 256]

/-! ## Errors on the log -/

/-- Modelled from the spec: `Log::Error(from, msg)` appends one error line; an error
aborts the current operation (`Log.h` is not among the sources). -/
def Log.Error (log : List LogEntry) (source message : String) : List LogEntry :=
  log ++ [{ level := LogLevel.error, source := source, message := message }]

/-- How an operation that writes to the log ends: it returns a value, or an
error aborts it. In both cases `log` holds the lines it put on the log. -/
inductive Outcome (α : Type) where
  | done (value : α) (log : List LogEntry)
  | aborted (log : List LogEntry)
deriving DecidableEq, Repr

/-- The lines an operation put on the log. -/
def Outcome.log {α : Type} : Outcome α → List LogEntry
  | Outcome.done _ log => log
  | Outcome.aborted log => log

/-! ## `Crinkler::LoadImportCode` (Crinkler.cpp, lines 252-277) -/

/-- The pre-assembled import loaders of `data.h` that `LoadImportCode` names. -/
inductive ImportObj where
  | import1KObj
  | importSafeFallbackRangeObj
  | importSafeFallbackObj
  | importSafeRangeObj
  | importSafeObj
  | importRangeObj
  | importObj
deriving DecidableEq, Repr

/-- One call `Load(data, size, module)`: the blob and the module name. -/
structure LoadCall where
  /-- The blob that is loaded. -/
  blob : ImportObj
  /-- The module name. -/
  module : String
deriving DecidableEq, Repr

/-- The method `void Crinkler::LoadImportCode(bool use1kMode, bool useSafeImporting,
bool useDllFallback, bool useRangeImport)`; the value is the list of the calls of
`Load` it makes. -/
def LoadImportCode (use1kMode useSafeImporting useDllFallback useRangeImport : Bool) :
    Outcome (List LoadCall) :=
  if use1kMode then
    Outcome.done [{ blob := ImportObj.import1KObj, module := "Crinkler import" }] []
  else
    if useSafeImporting then
      if useDllFallback then
        if useRangeImport then
          Outcome.done
            [{ blob := ImportObj.importSafeFallbackRangeObj, module := "Crinkler import" }] []
        else
          Outcome.done [{ blob := ImportObj.importSafeFallbackObj, module := "Crinkler import" }] []
      else
        if useRangeImport then
          Outcome.done [{ blob := ImportObj.importSafeRangeObj, module := "Crinkler import" }] []
        else
          Outcome.done [{ blob := ImportObj.importSafeObj, module := "Crinkler import" }] []
    else
      if useDllFallback then
        Outcome.aborted (Log.Error [] "" "DLL fallback cannot be used with unsafe importing")
      else
        if useRangeImport then
          Outcome.done [{ blob := ImportObj.importRangeObj, module := "Crinkler import" }] []
        else
          Outcome.done [{ blob := ImportObj.importObj, module := "Crinkler import" }] []

/-! ## `Crinkler::Recompress`, the detection of the header (Crinkler.cpp, lines 495-532)

The body of `Recompress` is compiled only with `WIN32` defined; this is the
embedding of that branch. -/

/-- The conversion of a byte to `char`, which is signed on the `WIN32` targets. -/
def toChar (b : Nat) : Int :=
  if b % 256 < 128 then (b % 256 : Nat) else (b % 256 : Nat) - 256

/-- The locals that the detection of the header sets. -/
structure HeaderKind where
  /-- The local `is_compatibility_header`. -/
  is_compatibility_header : Bool
  /-- The local `is_tiny_header`. -/
  is_tiny_header : Bool
  /-- The local `majorlv`. -/
  majorlv : Int
  /-- The local `minorlv`. -/
  minorlv : Int
deriving DecidableEq, Repr

/-- The function `NotCrinklerFileError()`. -/
def NotCrinklerFileError {α : Type} (log : List LogEntry) : Outcome α :=
  Outcome.aborted (Log.Error log "" "Input file is not a Crinkler compressed executable")

/-- The part of `Recompress` from `int length = file.GetSize();` to the check of
the version digits: `indata` is the content of the input file. The character
constants are written as their codes: `'0'` is `0x30`, `'2'` is `0x32`, `'9'`
is `0x39`. -/
def Recompress.detectHeader (indata : List Nat) : Outcome HeaderKind :=
  let length : Int := indata.length
  if length < 200 then NotCrinklerFileError []
  else
    let pe_header_offset := loadWord indata 0x3C
    if pe_header_offset = 4 then
      let majorlv := toChar (indata.getD 2 0)
      let minorlv := toChar (indata.getD 3 0)
      let is_tiny_header : Bool :=
        if majorlv ≥ 0x32 ∧ indata.getD 0xC 0 = 0x0F ∧ indata.getD 0xD 0 = 0xA3 ∧
            indata.getD 0xE 0 = 0x2D then true
        else false
      if majorlv < 0x30 ∨ majorlv > 0x39 ∨ minorlv < 0x30 ∨ minorlv > 0x39 then
        NotCrinklerFileError []
      else
        Outcome.done { is_compatibility_header := false, is_tiny_header := is_tiny_header,
                       majorlv := majorlv, minorlv := minorlv } []
    else if pe_header_offset = 12 then
      let majorlv := toChar (indata.getD 38 0)
      let minorlv := toChar (indata.getD 39 0)
      if majorlv < 0x30 ∨ majorlv > 0x39 ∨ minorlv < 0x30 ∨ minorlv > 0x39 then
        NotCrinklerFileError []
      else
        Outcome.done { is_compatibility_header := true, is_tiny_header := false,
                       majorlv := majorlv, minorlv := minorlv } []
    else NotCrinklerFileError []

/-! ## `Crinkler::Link`, from the write of the output file on (Crinkler.cpp, lines 1403-1443) -/

/-- The stream `outfile`, opened with mode `wb` at the start of `Link`: the
bytes written to it and whether it was closed. -/
structure OutFile where
  /-- The bytes written so far. -/
  written : List Nat
  /-- Whether `fclose` was called. -/
  closed : Bool
deriving DecidableEq, Repr

/-- The statements `fwrite(phase2->GetPtr(), 1, phase2->GetRawSize(), outfile);
fclose(outfile);`. -/
def Link.writeOutput (outfile : OutFile) (phase2 : Hunk) : OutFile :=
  { written := outfile.written ++ phase2.data.take phase2.rawsize.toNat, closed := true }

/-- The statement `if (phase2->GetRawSize() > 128*1024) Log::Error(filename, ...)`. -/
def Link.checkSize (filename : String) (phase2 : Hunk) (log : List LogEntry) : Outcome Unit :=
  if phase2.rawsize > 128 * 1024 then
    Outcome.aborted (Log.Error log filename
      "Output file too big. Crinkler does not support final file sizes of more than 128k.")
  else Outcome.done () log

/-- The end of `Link`: the output file is written and closed, then the size of
the image is checked. The statements in between, which print the sizes and
handle the reuse file, are not part of the embedding. -/
def Link.finish (filename : String) (outfile : OutFile) (phase2 : Hunk) (log : List LogEntry) :
    OutFile × Outcome Unit :=
  let outfile := Link.writeOutput outfile phase2
  (outfile, Link.checkSize filename phase2 log)

/-- The line that the size check of `Link` puts on the log. -/
def Link.tooBigError (filename : String) : LogEntry :=
  { level := LogLevel.error, source := filename,
    message := "Output file too big. Crinkler does not support final file sizes of more than 128k." }

/-- The line that `LoadImportCode` puts on the log. -/
def LoadImportCode.fallbackError : LogEntry :=
  { level := LogLevel.error, source := "",
    message := "DLL fallback cannot be used with unsafe importing" }

/-! ## The members of the class `Crinkler` and what its headers declare -/

/-- The class `ModelList1k` of `ModelList.h`. -/
structure ModelList1k where
  /-- Field `modelmask`. -/
  modelmask : Nat
  /-- Field `boost`. -/
  boost : Nat
  /-- Field `baseprob0`. -/
  baseprob0 : Nat
  /-- Field `baseprob1`. -/
  baseprob1 : Nat
deriving DecidableEq, Repr

/-- Modelled from the spec: one entry of the export list, `name=value`, `name=symbol` or
`name` (`Export.h` is not among the sources). -/
structure Export where
  /-- What `GetName()` returns. -/
  name : String
  /-- What `GetSymbol()` returns. -/
  symbol : String
  /-- The integer value, when the export carries one. -/
  value : Option Int
deriving DecidableEq, Repr

/-- Modelled from the spec: `Export::HasValue()`. -/
def Export.HasValue (e : Export) : Bool := e.value.isSome

/-- Modelled from the spec: `Export::GetName()`. -/
def Export.GetName (e : Export) : String := e.name

/-- Modelled from the spec: `Export::GetSymbol()`. -/
def Export.GetSymbol (e : Export) : String := e.symbol

/-- The values of the member `m_subsystem`. -/
inductive SubsystemType where
  | SUBSYSTEM_CONSOLE
  | SUBSYSTEM_WINDOWS
deriving DecidableEq, Repr

/-- The macro `IMAGE_SUBSYSTEM_WINDOWS_GUI` (Crinkler.cpp, line 29). -/
def IMAGE_SUBSYSTEM_WINDOWS_GUI : Int := 2

/-- The macro `IMAGE_SUBSYSTEM_WINDOWS_CUI` (Crinkler.cpp, line 30). -/
def IMAGE_SUBSYSTEM_WINDOWS_CUI : Int := 1

/-- The members of the class `Crinkler` that the embedded methods read. -/
structure Members where
  /-- Member `m_hunkPool`. -/
  m_hunkPool : List Hunk
  /-- Member `m_exports`. -/
  m_exports : List Export
  /-- Member `m_useTinyHeader`. -/
  m_useTinyHeader : Bool
  /-- Member `m_useTinyImport`. -/
  m_useTinyImport : Bool
  /-- Member `m_useSafeImporting`. -/
  m_useSafeImporting : Bool
  /-- Member `m_largeAddressAware`, an `int` used as a condition. -/
  m_largeAddressAware : Int
  /-- Member `m_subsystem`. -/
  m_subsystem : SubsystemType
  /-- Member `m_modellist1`. -/
  m_modellist1 : ModelList4k
  /-- Member `m_modellist2`. -/
  m_modellist2 : ModelList4k
  /-- Member `m_modellist1k`. -/
  m_modellist1k : ModelList1k

/-- Constants and functions that the embedded methods use and that are only
declared in headers outside the sources; they are parameters of the embedding. -/
structure Externals where
  /-- The constant `CRINKLER_SECTIONSIZE`. -/
  CRINKLER_SECTIONSIZE : Int
  /-- The constant `CRINKLER_BASEPROB`. -/
  CRINKLER_BASEPROB : Int
  /-- The constant `CRINKLER_LINKER_VERSION`. -/
  CRINKLER_LINKER_VERSION : Int
  /-- The function `Align(value, alignmentBits)` of `misc.h`. -/
  Align : Int → Int → Int
  /-- The method `ModelList4k::GetMaskList`. -/
  GetMaskList : ModelList4k → Bool → MaskList
  /-- The method `HunkList::ToHunk(name, baseAddress)`. -/
  ToHunk : List Hunk → String → Int → Hunk
  /-- The method `Hunk::Relocate(imageBase)`. -/
  Relocate : Hunk → Int → Hunk
  /-- The method `HunkList::RemoveUnreferencedHunks(startHunks)`; the start hunks
  are given by their positions in the list. -/
  RemoveUnreferencedHunks : List Hunk → List Nat → List Hunk

/-- Modelled from the spec: the constant `CRINKLER_IMAGEBASE` (`Crinkler.h` is not among
the sources): the image base, by default `0x400000`. -/
def CRINKLER_IMAGEBASE : Int := 0x400000

/-- The conversion of an `unsigned int` to `int`. -/
def toInt (u : Nat) : Int :=
  if u % 4294967296 < 2147483648 then (u % 4294967296 : Nat)
  else (u % 4294967296 : Nat) - 4294967296

/-- The store `*(data + p) = v` of one `char`. -/
def storeByte (data : List Nat) (p : Nat) (v : Int) : List Nat :=
  data.set p (v % 256).toNat

/-- The store `*(short *)(data + p) = v` (also used for `unsigned short`): two
bytes, least significant first, of `v` reduced modulo `2 ^ 16`. -/
def storeShort (data : List Nat) (p : Nat) (v : Int) : List Nat :=
  (data.set p ((v % 65536).toNat % 256)).set (p + 1) ((v % 65536).toNat / 256)

/-- The unsigned 16-bit word at `data + p`, least significant byte first. -/
def loadShort (data : List Nat) (p : Nat) : Nat :=
  data.getD p 0 + 256 * data.getD (p + 1) 0

/-- The statement pattern `*(h->GetPtr() + h->FindSymbol(name)->value) = v`. -/
def Hunk.storeByteAt (h : Hunk) (name : String) (v : Int) : Option Hunk := do
  let s ← h.FindSymbol name
  pure { h with data := storeByte h.data s.value.toNat v }

/-- The statement pattern `*(short *)(h->GetPtr() + h->FindSymbol(name)->value) = v`. -/
def Hunk.storeShortAt (h : Hunk) (name : String) (v : Int) : Option Hunk := do
  let s ← h.FindSymbol name
  pure { h with data := storeShort h.data s.value.toNat v }

/-- The statement pattern `*(int *)(h->GetPtr() + h->FindSymbol(name)->value) = v`. -/
def Hunk.storeIntAt (h : Hunk) (name : String) (v : Int) : Option Hunk := do
  let s ← h.FindSymbol name
  pure { h with data := storeInt h.data s.value.toNat v }

/-- Modelled from the spec: the constructor
`Hunk(name, data, flags, alignmentBits, rawsize, virtualsize)` called with a
buffer: the hunk holds a copy of its first `rawsize` bytes. -/
def Hunk.ofData (name : String) (data : List Nat) (flags : Nat)
    (alignmentBits rawsize virtualsize : Int) : Hunk :=
  { name := name, flags := flags, alignmentBits := alignmentBits, rawsize := rawsize,
    virtualsize := virtualsize, data := data.take rawsize.toNat, symbols := [] }

/-! ## `Crinkler::SetHeaderConstants` (Crinkler.cpp, lines 434-477) -/

/-- The four `AddSymbol` statements at the start of `SetHeaderConstants`. -/
def SetHeaderConstants.addConstants (header : Hunk) (hashsize : Int) (modelmask : Nat) : Hunk :=
  let header := header.AddSymbol
    (Symbol.new "_HashTableSize" (hashsize.tdiv 2) 0 (some header.name) none)
  let header := header.AddSymbol
    (Symbol.new "_UnpackedData" CRINKLER_CODEBASE 0 (some header.name) none)
  let header := header.AddSymbol
    (Symbol.new "_ImageBase" CRINKLER_IMAGEBASE 0 (some header.name) none)
  header.AddSymbol (Symbol.new "_ModelMask" (toInt modelmask) 0 (some header.name) none)

/-- The branch `if (use1kHeader) { ... }`. -/
def SetHeaderConstants.tinyHeader (header phase1 : Hunk) (boostfactor baseprob0 baseprob1 : Int) :
    Option Hunk := do
  let highByte ← header.FindSymbol "_VirtualSizeHighBytePtr"
  let virtualSizeHighByteOffset := highByte.value
  let lowBytes := loadInt header.data (virtualSizeHighByteOffset - 3).toNat % 16777216
  let virtualSize := phase1.virtualsize + 65536 * 2
  let header ← header.storeByteAt "_BaseProbPtr0" baseprob0
  let header ← header.storeByteAt "_BaseProbPtr1" baseprob1
  let header ← header.storeByteAt "_BoostFactorPtr" boostfactor
  let header ← header.storeShortAt "_DepackEndPositionPtr" (phase1.rawsize + CRINKLER_CODEBASE)
  pure { header with
    data := (storeByte header.data virtualSizeHighByteOffset.toNat
      ((virtualSize - lowBytes + 0xFFFFFF) / 16777216)) }

/-- The branch `else { ... }` for the 4k header. -/
def SetHeaderConstants.compatHeader (self : Members) (ext : Externals) (header phase1 : Hunk)
    (hashsize exports_rva : Int) : Option Hunk := do
  let virtualSize := ext.Align (max phase1.virtualsize (phase1.rawsize + hashsize)) 16
  let header := header.AddSymbol (Symbol.new "_VirtualSize" virtualSize 0 (some header.name) none)
  let header ← header.storeByteAt "_BaseProbPtr" ext.CRINKLER_BASEPROB
  let header ← header.storeByteAt "_ModelSkipPtr" (self.m_modellist1.nmodels + 8)
  if exports_rva ≠ 0 then
    let header ← header.storeIntAt "_ExportTableRVAPtr" exports_rva
    header.storeIntAt "_NumberOfDataDirectoriesPtr" 1
  else
    pure header

/-- The statement
`if (phase1->GetRawSize() >= 2 && (phase1->GetPtr()[0] == 0x5F || phase1->GetPtr()[2] == 0x5F))
*(header->GetPtr() + header->FindSymbol("_SpareNopPtr")->value) = 0x57;`. -/
def SetHeaderConstants.spareNop (header phase1 : Hunk) : Option Hunk :=
  if phase1.rawsize ≥ 2 ∧ (phase1.data.getD 0 0 = 0x5F ∨ phase1.data.getD 2 0 = 0x5F) then
    header.storeByteAt "_SpareNopPtr" 0x57
  else some header

/-- The statement
`if (m_largeAddressAware) *((short*)(header->GetPtr() + ...("_CharacteristicsPtr")->value)) |= 0x0020;`. -/
def SetHeaderConstants.largeAddressAware (self : Members) (header : Hunk) : Option Hunk :=
  if self.m_largeAddressAware ≠ 0 then do
    let s ← header.FindSymbol "_CharacteristicsPtr"
    pure { header with
      data := (storeShort header.data s.value.toNat
        (Nat.lor (loadShort header.data s.value.toNat) 0x0020 : Nat)) }
  else some header

/-- The method `void Crinkler::SetHeaderConstants(Hunk* header, Hunk* phase1, int hashsize,
int boostfactor, int baseprob0, int baseprob1, unsigned int modelmask, int subsystem_version,
int exports_rva, bool use1kHeader)`; the result is the header after the call. -/
def SetHeaderConstants (self : Members) (ext : Externals) (header phase1 : Hunk)
    (hashsize boostfactor baseprob0 baseprob1 : Int) (modelmask : Nat)
    (subsystem_version exports_rva : Int) (use1kHeader : Bool) : Option Hunk := do
  let header := SetHeaderConstants.addConstants header hashsize modelmask
  let header ←
    if use1kHeader then SetHeaderConstants.tinyHeader header phase1 boostfactor baseprob0 baseprob1
    else SetHeaderConstants.compatHeader self ext header phase1 hashsize exports_rva
  let header ← header.storeByteAt "_SubsystemTypePtr" subsystem_version
  let header ← header.storeShortAt "_LinkerVersionPtr" ext.CRINKLER_LINKER_VERSION
  let header ← SetHeaderConstants.spareNop header phase1
  SetHeaderConstants.largeAddressAware self header

/-! ## `Crinkler::FinalLink` (Crinkler.cpp, lines 1451-1478) -/

/-- The hunk `phase1Compressed`: the `size` compressed bytes with the symbol
`_PackedData`. -/
def FinalLink.phase1Compressed (data : List Nat) (size : Int) : Hunk :=
  let phase1Compressed := Hunk.ofData "compressed data" data 0 0 size size
  phase1Compressed.AddSymbol
    (Symbol.new "_PackedData" 0 SYMBOL_IS_RELOCATEABLE (some phase1Compressed.name) none)

/-- The header after the statement
`if (!m_useTinyHeader) header->AddSymbol(new Symbol("_HashTable", ...));`. -/
def FinalLink.header (self : Members) (ext : Externals) (header phase1 : Hunk) : Hunk :=
  if !self.m_useTinyHeader then
    header.AddSymbol (Symbol.new "_HashTable" (ext.CRINKLER_SECTIONSIZE * 2 + phase1.rawsize)
      SYMBOL_IS_RELOCATEABLE (some header.name) none)
  else header

/-- The pointer `modelHunk`: null with the tiny header, else the hunk that
`CreateModelHunk(splittingPoint, phase1->GetRawSize())` returns. -/
def FinalLink.modelHunk (self : Members) (ext : Externals) (phase1 : Hunk)
    (splittingPoint : Int) : Option Hunk :=
  if !self.m_useTinyHeader then
    some (CreateModelHunk ext.GetMaskList self.m_modellist1 self.m_modellist2 splittingPoint
      phase1.rawsize)
  else none

/-- The list `phase2list` when `ToHunk` is called on it: one `AddHunkBack` after
the other; a null pointer adds nothing. -/
def FinalLink.phase2list (self : Members) (ext : Externals) (header : Hunk)
    (depacker hashHunk : Option Hunk) (phase1 : Hunk) (data : List Nat)
    (size splittingPoint : Int) : List Hunk :=
  let phase2list : List Hunk := []
  let phase2list := phase2list ++ [FinalLink.header self ext header phase1]
  let phase2list := match depacker with
    | some d => phase2list ++ [d]
    | none => phase2list
  let phase2list := match hashHunk with
    | some h => phase2list ++ [h]
    | none => phase2list
  let phase2list := match FinalLink.modelHunk self ext phase1 splittingPoint with
    | some m => phase2list ++ [m]
    | none => phase2list
  phase2list ++ [FinalLink.phase1Compressed data size]

/-- The local `exports_rva`:
`m_useTinyHeader || m_exports.empty() ? 0
 : phase1->FindSymbol("_ExportTable")->value + CRINKLER_CODEBASE - CRINKLER_IMAGEBASE`. -/
def FinalLink.exports_rva (self : Members) (phase1 : Hunk) : Option Int :=
  if self.m_useTinyHeader || self.m_exports.isEmpty then some 0
  else
    match phase1.FindSymbol "_ExportTable" with
    | some s => some (s.value + CRINKLER_CODEBASE - CRINKLER_IMAGEBASE)
    | none => none

/-- The method `Hunk *Crinkler::FinalLink(Hunk *header, Hunk *depacker, Hunk *hashHunk,
Hunk *phase1, unsigned char *data, int size, int splittingPoint, int hashsize)`. -/
def FinalLink (self : Members) (ext : Externals) (header : Hunk) (depacker hashHunk : Option Hunk)
    (phase1 : Hunk) (data : List Nat) (size splittingPoint hashsize : Int) : Option Hunk := do
  let phase2list :=
    FinalLink.phase2list self ext header depacker hashHunk phase1 data size splittingPoint
  let phase2 := ext.ToHunk phase2list "final" CRINKLER_IMAGEBASE
  let exports_rva ← FinalLink.exports_rva self phase1
  let phase2 ← SetHeaderConstants self ext phase2 phase1 hashsize self.m_modellist1k.boost
    self.m_modellist1k.baseprob0 self.m_modellist1k.baseprob1 self.m_modellist1k.modelmask
    (if self.m_subsystem = SubsystemType.SUBSYSTEM_WINDOWS then IMAGE_SUBSYSTEM_WINDOWS_GUI
     else IMAGE_SUBSYSTEM_WINDOWS_CUI)
    exports_rva self.m_useTinyHeader
  pure (ext.Relocate phase2 CRINKLER_IMAGEBASE)

/-! ## `Crinkler::RemoveUnreferencedHunks` (Crinkler.cpp, lines 211-250) -/

/-- Modelled from the spec: `HunkList::FindSymbol`, the lookup of a symbol by name across
the member hunks in list order; the result is the symbol and the position of
the hunk that owns it (what `sym->hunk` points to). -/
def HunkList.FindSymbol : List Hunk → String → Option (Nat × Symbol)
  | [], _ => none
  | h :: hs, name =>
    match h.FindSymbol name with
    | some s => some (0, s)
    | none => (HunkList.FindSymbol hs name).map (fun r => (r.1 + 1, r.2))

/-- Modelled from the spec: `Hunk::SetRawSize`: the raw size and the length of the byte
buffer become `size`, new bytes are zero. -/
def Hunk.SetRawSize (h : Hunk) (size : Int) : Hunk :=
  { h with rawsize := size,
           data := h.data.take size.toNat ++ List.replicate (size.toNat - h.data.length) 0 }

/-- The text of the error for an export with a value whose name is taken. -/
def RemoveUnreferencedHunks.integerSymbolError (name : String) : LogEntry :=
  { level := LogLevel.error, source := "",
    message := "Cannot create integer symbol '" ++ name ++
      "' for export: symbol already exists." }

/-- The state of the loop over the exports: the pool, the list `startHunks`
(positions in the pool) and the log. -/
structure ExportLoopState where
  /-- The member `m_hunkPool`. -/
  pool : List Hunk
  /-- The local `startHunks`. -/
  startHunks : List Nat
  /-- The lines put on the log so far. -/
  log : List LogEntry
deriving DecidableEq, Repr

/-- The body of the loop `for (const Export& e : m_exports)`; `Except.error` is an
error, which aborts, with the log it leaves. -/
def RemoveUnreferencedHunks.keepExport (st : ExportLoopState) (e : Export) :
    Except (List LogEntry) ExportLoopState :=
  if e.HasValue then
    match HunkList.FindSymbol st.pool e.GetName with
    | some (_, sym) =>
      if !sym.fromLibrary then
        Except.error (st.log ++ [RemoveUnreferencedHunks.integerSymbolError e.GetName])
      else Except.ok st
    | none => Except.ok st
  else
    match HunkList.FindSymbol st.pool e.GetSymbol with
    | some (i, _) =>
      let hunk := st.pool.getD i (Hunk.new "" 0 0 0 0)
      let st :=
        if hunk.rawsize = 0 then
          { st with
            pool := st.pool.set i (hunk.SetRawSize hunk.virtualsize),
            log := Log.Warning st.log "" ("Uninitialized hunk '" ++ hunk.name ++
              "' forced to data section because of exported symbol '" ++ e.GetSymbol ++ "'.") }
        else st
      Except.ok { st with startHunks := st.startHunks ++ [i] }
    | none =>
      Except.error (Log.Error st.log "" ("Cannot find symbol '" ++ e.GetSymbol ++
        "' to be exported under name '" ++ e.GetName ++ "'."))

/-- The loop `for (const Export& e : m_exports) { ... }`. -/
def RemoveUnreferencedHunks.keepExports :
    List Export → ExportLoopState → Except (List LogEntry) ExportLoopState
  | [], st => Except.ok st
  | e :: es, st =>
    match RemoveUnreferencedHunks.keepExport st e with
    | Except.ok st => RemoveUnreferencedHunks.keepExports es st
    | Except.error log => Except.error log

/-- The statement pattern `if (sym != NULL) startHunks.push_back(sym->hunk);` for
the symbol of the pool with the given name. -/
def RemoveUnreferencedHunks.keepSymbol (pool : List Hunk) (name : String) (cond : Bool)
    (startHunks : List Nat) : List Nat :=
  match HunkList.FindSymbol pool name with
  | some (i, _) => if cond then startHunks ++ [i] else startHunks
  | none => startHunks

/-- The method `void Crinkler::RemoveUnreferencedHunks(Hunk* base)`; `base` is the
position of the base hunk in the pool. The value is the pool after the call. -/
def RemoveUnreferencedHunks (self : Members) (ext : Externals) (base : Nat) :
    Outcome (List Hunk) :=
  match RemoveUnreferencedHunks.keepExports self.m_exports
      { pool := self.m_hunkPool, startHunks := [base], log := [] } with
  | Except.error log => Outcome.aborted log
  | Except.ok st =>
    let startHunks := RemoveUnreferencedHunks.keepSymbol st.pool "__imp__LoadLibraryA@4" true
      st.startHunks
    let startHunks := RemoveUnreferencedHunks.keepSymbol st.pool "__imp__MessageBoxA@16"
      (self.m_useSafeImporting && !self.m_useTinyImport) startHunks
    let startHunks := RemoveUnreferencedHunks.keepSymbol st.pool "__DynamicInitializers" true
      startHunks
    Outcome.done (ext.RemoveUnreferencedHunks st.pool startHunks) st.log

/-! ## `AritSize2` and `_BitScanReverse` (aritcode.h)

With `WIN32` defined, `_BitScanReverse` is the compiler intrinsic of
`<intrin.h>`; otherwise it is the replacement that `aritcode.h` defines on top
of `__builtin_clz`. `AritSize2` is embedded with the `_BitScanReverse` in use
as a parameter. -/

/-- The constant `TABLE_BIT_PRECISION_BITS`. -/
def TABLE_BIT_PRECISION_BITS : Nat := 12

/-- The constant `TABLE_BIT_PRECISION = 1 << TABLE_BIT_PRECISION_BITS`. -/
def TABLE_BIT_PRECISION : Int := 2 ^ TABLE_BIT_PRECISION_BITS

/-- The number of binary digits of `x`, for `x` below `2 ^ fuel`. -/
def bitLength : Nat → Nat → Nat
  | 0, _ => 0
  | fuel + 1, x => if x = 0 then 0 else bitLength fuel (x / 2) + 1

/-- The compiler builtin `__builtin_clz(mask)` for a 32-bit `mask` that is not
zero: the number of leading zero bits. It is not code of the repository and is
modelled from its documentation. -/
def __builtin_clz (mask : Nat) : Nat :=
  32 - bitLength 32 (mask % 4294967296)

/-- The replacement `_BitScanReverse(uint32_t *index, uint32_t mask)` of
`aritcode.h` for builds without `WIN32`; the value is what it stores in
`*index`: `1 << (32 - leading_bits)`. -/
def _BitScanReverse (mask : Nat) : Nat :=
  let leading_bits := __builtin_clz mask
  (1 <<< (32 - leading_bits)) % 4294967296

/-- The intrinsic `_BitScanReverse` of `<intrin.h>` that is used with `WIN32`
defined, for a `mask` that is not zero: the bit position of the most
significant set bit. It is not code of the repository and is modelled from its
documentation. -/
def intrinsicBitScanReverse (mask : Nat) : Nat :=
  bitLength 32 (mask % 4294967296) - 1

/-- The right shift `x >> s` of an `int` (the mathematical value, also where C
leaves a shift by 32 or more undefined). -/
def shiftRight (x s : Int) : Int :=
  x / 2 ^ s.toNat

/-- What one call of `AritSize2` does: the indices with which it reads
`LogTable`, the shift amounts it uses, and the value of its `return`
expression. -/
structure AritSize2Run where
  /-- The indices with which `LogTable` is read, left to right. -/
  reads : List Int
  /-- The shift amounts, left to right. -/
  shifts : List Int
  /-- The value of the `return` expression. -/
  value : Int
deriving DecidableEq, Repr

/-- The two statements `_BitScanReverse((unsigned*)&len, prob);` and
`len = len > 12 ? (len - 12) : 0;` that `AritSize2` applies to `right_prob` and
to `total_prob`; the value is `len` after them. -/
def AritSize2.shiftAmount (bsr : Nat → Nat) (prob : Int) : Int :=
  let len := toInt (bsr (prob % 4294967296).toNat)
  if len > 12 then len - 12 else 0

/-- The function `AritSize2(right_prob, wrong_prob)` behind its two assertions,
with its trace; `bsr` is the `_BitScanReverse` in use and `LogTable` the
table, which is only declared in `aritcode.h`. -/
def AritSize2.run (bsr : Nat → Nat) (LogTable : Int → Int) (right_prob wrong_prob : Int) :
    AritSize2Run :=
  let total_prob := right_prob + wrong_prob
  if total_prob < TABLE_BIT_PRECISION then
    { reads := [total_prob, right_prob], shifts := [],
      value := LogTable total_prob - LogTable right_prob }
  else
    let right_len := AritSize2.shiftAmount bsr right_prob
    let total_len := AritSize2.shiftAmount bsr total_prob
    { reads := [shiftRight total_prob total_len, shiftRight right_prob right_len],
      shifts := [total_len, right_len, 12],
      value := LogTable (shiftRight total_prob total_len)
        - LogTable (shiftRight right_prob right_len) + (total_len - right_len) * 2 ^ 12 }

/-- The function `inline int AritSize2(int right_prob, int wrong_prob)`: `none` when
an assertion fails or a shift amount is outside `0 .. 31`, which C leaves
undefined. -/
def AritSize2 (bsr : Nat → Nat) (LogTable : Int → Int) (right_prob wrong_prob : Int) :
    Option Int :=
  if right_prob > 0 ∧ wrong_prob > 0 then
    let run := AritSize2.run bsr LogTable right_prob wrong_prob
    if run.shifts.all (fun s => decide (0 ≤ s ∧ s < 32)) then some run.value else none
  else none

/-! ## The rewriting loop of `DoTransform` with the offsets it accesses -/

/-- What the rewriting loop of `DoTransform` does: the buffer when the loop is
left, the number of calls it rewrote, the values of `i` at which it rewrote a
displacement, and the offsets of the bytes it read and wrote. -/
structure DoTransformScan where
  /-- The buffer when the loop is left. -/
  data : List Nat
  /-- What the loop added to `num`. -/
  num : Int
  /-- The values of `i` at which `*offset` was assigned, in order. -/
  sites : List Nat
  /-- The offsets of the bytes read, in order. -/
  reads : List Nat
  /-- The offsets of the bytes written, in order. -/
  writes : List Nat
deriving DecidableEq, Repr

/-- The rewriting loop
`for (int i = 0; i < size-4; i++) { if (data[i] == 0xe8) { ... } }`
entered with loop variable `i` and buffer `data`, as `DoTransform.loop`, with
the accesses: `data[i]` reads offset `i`, `*offset` reads the offsets `i+1` to
`i+4`, and the assignment to `*offset` writes them. -/
def DoTransform.scan (size : Int) : Nat → Nat → List Nat → Option DoTransformScan
  | 0, _, _ => none
  | fuel + 1, i, data =>
    if (i : Int) < size - 4 then
      if data.getD i 0 = 0xe8 then
        let offset := loadInt data (i + 1)
        if -32768 ≤ offset ∧ offset ≤ 32767 then
          (DoTransform.scan size fuel (i + 4 + 1)
            (storeInt data (i + 1) (toShort (offset + i + 1)))).map
            (fun r => { r with num := r.num + 1, sites := i :: r.sites,
                               reads := [i, i + 1, i + 2, i + 3, i + 4] ++ r.reads,
                               writes := [i + 1, i + 2, i + 3, i + 4] ++ r.writes })
        else
          (DoTransform.scan size fuel (i + 1) data).map
            (fun r => { r with reads := [i, i + 1, i + 2, i + 3, i + 4] ++ r.reads })
      else
        (DoTransform.scan size fuel (i + 1) data).map
          (fun r => { r with reads := i :: r.reads })
    else some { data := data, num := 0, sites := [], reads := [], writes := [] }

/-! ## `Crinkler::Recompress`, the reading of the model descriptor (Crinkler.cpp, lines 684-700) -/

/-- The value of an `int` expression whose exact value is `x`, in two's
complement arithmetic modulo `2 ^ 32` (C leaves the overflow of an `int`
undefined; the x86 instructions wrap). -/
def wrapInt (x : Int) : Int :=
  toInt (x % 4294967296).toNat

/-- What the part of `Recompress` that reads the model descriptor leaves in its
locals and in the two model lists. Pointers into `indata` are offsets. -/
structure DescriptorRead where
  /-- The local `weightmask1`. -/
  weightmask1 : Nat
  /-- The local `models1`, as an offset into `indata`. -/
  models1 : Int
  /-- The member `m_modellist1` after `SetFromModelsAndMask`. -/
  m_modellist1 : ModelList4k
  /-- The local `modelskip`. -/
  modelskip : Int
  /-- The local `weightmask2`. -/
  weightmask2 : Nat
  /-- The local `models2`, as an offset into `indata`. -/
  models2 : Int
  /-- The member `m_modellist2` after `SetFromModelsAndMask`. -/
  m_modellist2 : ModelList4k
  /-- The local `rawsize`. -/
  rawsize : Int
  /-- The local `splittingPoint`. -/
  splittingPoint : Int
  /-- The offsets into `indata` of the four words read, in the order of the
  statements: `weightmask1`, `weightmask2`, `rawsize`, `splittingPoint`. -/
  wordOffsets : List Int

/-- The statements of `Recompress` from `models_offset = models_address - CRINKLER_IMAGEBASE;`
to the end of `if(version >= 13) { ... } else { ... }`. The method
`ModelList4k::SetFromModelsAndMask(models, weightmask)` is only declared in
`ModelList.h` and is a parameter: it gets the list it is called on, the bytes of
`indata` from `models` on and the weightmask converted to `int`. -/
def Recompress.readModels (SetFromModelsAndMask : ModelList4k → List Nat → Int → ModelList4k)
    (m_modellist1 m_modellist2 : ModelList4k) (indata : List Nat) (models_address version : Int) :
    DescriptorRead :=
  let models_offset := models_address - CRINKLER_IMAGEBASE
  let weightmask1 := loadWord indata (models_offset + 4).toNat
  let models1 := models_offset + 8
  let m_modellist1 := SetFromModelsAndMask m_modellist1 (indata.drop models1.toNat)
    (toInt weightmask1)
  let modelskip : Int := 8 + m_modellist1.nmodels
  let weightmask2 := loadWord indata (models_offset + modelskip + 4).toNat
  let models2 := models_offset + modelskip + 8
  let m_modellist2 := SetFromModelsAndMask m_modellist2 (indata.drop models2.toNat)
    (toInt weightmask2)
  let rawsize :=
    if version ≥ 13 then
      wrapInt (-(loadInt indata (models_offset + modelskip).toNat) - CRINKLER_CODEBASE)
    else (loadInt indata (models_offset + modelskip).toNat).tdiv 8
  let splittingPoint :=
    if version ≥ 13 then wrapInt (-(loadInt indata models_offset.toNat) - CRINKLER_CODEBASE)
    else (loadInt indata models_offset.toNat).tdiv 8
  { weightmask1 := weightmask1, models1 := models1, m_modellist1 := m_modellist1,
    modelskip := modelskip, weightmask2 := weightmask2, models2 := models2,
    m_modellist2 := m_modellist2, rawsize := rawsize, splittingPoint := splittingPoint,
    wordOffsets := [models_offset + 4, models_offset + modelskip + 4,
      models_offset + modelskip, models_offset] }

/-! ## `Crinkler::EstimateModels` (Crinkler.cpp, lines 349-423)

The functions of the compressor library are declared in headers outside the
sources and are parameters of the embedding. The texts printed with `printf`
and the updates of the progress bar other than the names of its tasks are left
out. -/

/-- The enumeration `CompressionType` of `ModelList.h`. -/
inductive CompressionType where
  | COMPRESSION_INSTANT
  | COMPRESSION_FAST
  | COMPRESSION_SLOW
  | COMPRESSION_VERYSLOW
deriving DecidableEq, Repr

/-- Modelled from the spec: the constant `MAX_CONTEXT_LENGTH` (`Compressor.h` is not
among the sources): a seed context has up to 8 bytes. -/
def MAX_CONTEXT_LENGTH : Nat := 8

/-- The functions of the compressor library that `EstimateModels` calls. A
pointer argument is the list of the bytes from the pointer on; a result that
the library hands back through a pointer is a component of the value. -/
structure CompressorLibrary where
  /-- The function `ApproximateModels4k(data, datasize, context, compressionType,
  saturate, baseprob, &compsize, ...)`: the model list and `compsize`. -/
  ApproximateModels4k : List Nat → Int → List Nat → CompressionType → Bool → Int →
    ModelList4k × Int
  /-- The function `ApproximateModels1k(data, datasize, &compsize, ...)`: the model
  list and `compsize`. -/
  ApproximateModels1k : List Nat → Int → ModelList1k × Int
  /-- The function `EvaluateSize4k(data, 2, segmentSizes, compressedSizes,
  modelLists, baseprob, saturate)`: the returned size and `compressedSizes`. -/
  EvaluateSize4k : List Nat → List Int → List ModelList4k → Int → Bool → Int × List Int

/-- The arguments `data`, `datasize` and `context` of one call of
`ApproximateModels4k`. -/
structure ApproximateCall where
  /-- The bytes from the pointer `data` on. -/
  data : List Nat
  /-- The argument `datasize`. -/
  datasize : Int
  /-- The `MAX_CONTEXT_LENGTH` bytes at the pointer `context`. -/
  context : List Nat
deriving DecidableEq, Repr

/-- What a call of `EstimateModels` leaves behind: the returned value, the three
model lists of the object, the calls of `ApproximateModels4k` and the names of
the tasks of the progress bar. -/
structure EstimateModelsRun where
  /-- The returned `int`. -/
  ret : Int
  /-- The member `m_modellist1` after the call. -/
  m_modellist1 : ModelList4k
  /-- The member `m_modellist2` after the call. -/
  m_modellist2 : ModelList4k
  /-- The member `m_modellist1k` after the call. -/
  m_modellist1k : ModelList1k
  /-- The calls of `ApproximateModels4k`, in order. -/
  calls : List ApproximateCall
  /-- The names handed to `m_progressBar.BeginTask`, in order. -/
  tasks : List String

/-- The loop
`for (int i = 0; i < MAX_CONTEXT_LENGTH; i++) { int srcpos = splittingPoint - MAX_CONTEXT_LENGTH + i; contexts[1][i] = srcpos >= 0 ? data[srcpos] : 0; }`
over the zero-initialised array `contexts[1]`. -/
def EstimateModels.dataContext (data : List Nat) (splittingPoint : Int) : List Nat :=
  (List.range MAX_CONTEXT_LENGTH).foldl
    (fun (context : List Nat) (i : Nat) =>
      let srcpos : Int := splittingPoint - (MAX_CONTEXT_LENGTH : Nat) + (i : Nat)
      context.set i (if srcpos ≥ 0 then data.getD srcpos.toNat 0 else 0))
    (List.replicate MAX_CONTEXT_LENGTH 0)

/-- The method `int Crinkler::EstimateModels(unsigned char* data, int datasize,
int splittingPoint, bool reestimate, bool use1kMode, int target_size1, int target_size2)`;
the members `m_compressionType` and `m_saturate` are arguments. -/
def EstimateModels (self : Members) (ext : Externals) (lib : CompressorLibrary)
    (m_compressionType : CompressionType) (m_saturate : Int) (data : List Nat)
    (datasize splittingPoint : Int) (reestimate use1kMode : Bool)
    (target_size1 target_size2 : Int) : EstimateModelsRun :=
  if use1kMode then
    let size := target_size1
    let approx := lib.ApproximateModels1k data datasize
    let new_modellist1k := approx.1
    let new_size := approx.2
    let m_modellist1k := if new_size < size then new_modellist1k else self.m_modellist1k
    { ret := new_size, m_modellist1 := self.m_modellist1, m_modellist2 := self.m_modellist2,
      m_modellist1k := m_modellist1k, calls := [],
      tasks := [if reestimate then "Reestimating models" else "Estimating models"] }
  else
    let contexts0 := List.replicate MAX_CONTEXT_LENGTH 0
    let contexts1 := EstimateModels.dataContext data splittingPoint
    let size1 := target_size1
    let size2 := target_size2
    let approx1 := lib.ApproximateModels4k data splittingPoint contexts0 m_compressionType
      (m_saturate ≠ 0) ext.CRINKLER_BASEPROB
    let modellist1 := approx1.1
    let new_size1 := approx1.2
    let m_modellist1 := if new_size1 < size1 then modellist1 else self.m_modellist1
    let approx2 := lib.ApproximateModels4k (data.drop splittingPoint.toNat)
      (datasize - splittingPoint) contexts1 m_compressionType (m_saturate ≠ 0)
      ext.CRINKLER_BASEPROB
    let modellist2 := approx2.1
    let new_size2 := approx2.2
    let m_modellist2 := if new_size2 < size2 then modellist2 else self.m_modellist2
    let segmentSizes := [splittingPoint, datasize - splittingPoint]
    let idealsize := (lib.EvaluateSize4k data segmentSizes [m_modellist1, m_modellist2]
      ext.CRINKLER_BASEPROB (m_saturate ≠ 0)).1
    { ret := idealsize, m_modellist1 := m_modellist1, m_modellist2 := m_modellist2,
      m_modellist1k := self.m_modellist1k,
      calls := [{ data := data, datasize := splittingPoint, context := contexts0 },
                { data := data.drop splittingPoint.toNat, datasize := datasize - splittingPoint,
                  context := contexts1 }],
      tasks := [if reestimate then "Reestimating models for code" else "Estimating models for code",
                if reestimate then "Reestimating models for data" else "Estimating models for data"] }

/-! ## `Crinkler::CreateDynamicInitializerHunk` (Crinkler.cpp, lines 1110-1153) and `EndsWith` (StringMisc.cpp) -/

/-- The function `bool EndsWith(const char* str, const char* ending)` of
`StringMisc.cpp`; a `char` is a character of the string, `memcmp(...) == 0` is
the equality of the two character sequences. -/
def EndsWith (str ending : String) : Bool :=
  let slen : Int := str.length
  let elen : Int := ending.length
  if slen < elen then false
  else str.toList.drop (slen - elen).toNat == ending.toList

/-- Modelled from the spec: the flag `HUNK_IS_CODE` of `Hunk.h`, which is not among
the sources; the specification lists code among the flags of a hunk. Only the
name of the bit matters here. -/
def HUNK_IS_CODE : Nat := 1

/-- Modelled from the spec: `Hunk::AddRelocation`, the relocation is appended to the
sequence of relocations of the hunk. -/
def Hunk.AddRelocation (h : Hunk) (r : Relocation) : Hunk :=
  { h with relocations := h.relocations ++ [r] }

/-- The first loop of `CreateDynamicInitializerHunk`: for the hunks of the pool
in order, each relocation of a hunk whose name ends with `CRT$XCU` pushes
`m_hunkPool.FindSymbol(relocations[i].symbolname.c_str())` onto `symbols`;
`none` is the null pointer. -/
def CreateDynamicInitializerHunk.collect (m_hunkPool : List Hunk) : List (Option Symbol) :=
  m_hunkPool.foldl
    (fun symbols hunk =>
      if EndsWith hunk.name "CRT$XCU" then
        hunk.relocations.foldl
          (fun symbols r =>
            symbols ++ [(HunkList.FindSymbol m_hunkPool r.symbolname).map (fun f => f.2)])
          symbols
      else symbols)
    []

/-- The second loop, `for(int i = 0; i < num_symbols; i++) { ... }`, entered with
loop variable `i`, the entries `symbols[i]`, `symbols[i+1]`, ... still to be
handled, the hunk and the offset `ptr` into its buffer. Reading the name of a
null symbol is `none`. -/
def CreateDynamicInitializerHunk.emit :
    List (Option Symbol) → Nat → Hunk × Nat → Option (Hunk × Nat)
  | [], _, st => some st
  | sym :: rest, i, (hunk, ptr) => do
    let data := hunk.data.set ptr 0xE8
    let ptr := ptr + 1
    let data := data.set ptr 0x00
    let ptr := ptr + 1
    let data := data.set ptr 0x00
    let ptr := ptr + 1
    let data := data.set ptr 0x00
    let ptr := ptr + 1
    let data := data.set ptr 0x00
    let ptr := ptr + 1
    let s ← sym
    let r : Relocation :=
      { offset := (i : Int) * 5 + 1, symbolname := s.name,
        type := RelocationType.RELOCTYPE_REL32 }
    let hunk := Hunk.AddRelocation { hunk with data := data } r
    CreateDynamicInitializerHunk.emit rest (i + 1) (hunk, ptr)

/-- The method `Hunk* Crinkler::CreateDynamicInitializerHunk()`: `some none` is the
return of the null pointer, `none` the dereference of a null pointer. -/
def CreateDynamicInitializerHunk (m_hunkPool : List Hunk) : Option (Option Hunk) :=
  let symbols := CreateDynamicInitializerHunk.collect m_hunkPool
  if !symbols.isEmpty then do
    let num_symbols : Int := symbols.length
    let hunk_size := num_symbols * 5
    let hunk := Hunk.new "dynamic initializer calls" HUNK_IS_CODE 0 hunk_size hunk_size
    let st ← CreateDynamicInitializerHunk.emit symbols 0 (hunk, 0)
    let hunk := st.1
    let hunk := hunk.AddSymbol
      (Symbol.new "__DynamicInitializers" 0 SYMBOL_IS_RELOCATEABLE (some hunk.name) none)
    pure (some hunk)
  else some none

/-! ## Example inputs -/

/-- An example input of `DoTransform`: a linked hunk named `linked` over the
buffer `data` that owns the two patch-point symbols of the call detransformer,
`_CallTrans` with value `start` and `_CallTransSize` with value `size`. -/
def linkedHunk (data : List Nat) (start size : Int) : Hunk :=
  { name := "linked", flags := 0, alignmentBits := 0, rawsize := data.length,
    virtualsize := data.length, data := data,
    symbols := [Symbol.new "_CallTrans" start 0 (some "linked") none,
                Symbol.new "_CallTransSize" size 0 (some "linked") none] }

/-- An eight-byte stand-in for the detransformer followed by `call +16; ret`. -/
def bufferWithCall : List Nat :=
  [0x5F, 0xB9, 0, 0, 0, 0, 0x90, 0x90, 0xE8, 0x10, 0, 0, 0, 0xC3]

/-- An eight-byte stand-in for the detransformer followed by
`mov eax, 42; ret`: no byte `0xE8`. -/
def bufferWithoutCall : List Nat :=
  [0x5F, 0xB9, 0, 0, 0, 0, 0x90, 0x90, 0xB8, 0x2A, 0, 0, 0, 0xC3]

/-- An eight-byte stand-in for the detransformer followed by the six bytes
`E8 E8 76 FF FF FF`: at offset 8 a call whose displacement `-35096` does not
fit in 16 bits, at offset 9 a call with displacement `-138`. -/
def collidingBufferA : List Nat :=
  [0x5F, 0xB9, 0, 0, 0, 0, 0x90, 0x90, 0xE8, 0xE8, 0x76, 0xFF, 0xFF, 0xFF]

/-- An eight-byte stand-in for the detransformer followed by the six bytes
`E8 DF 80 FF FF FF`: at offset 8 a call with displacement `-32545`. -/
def collidingBufferB : List Nat :=
  [0x5F, 0xB9, 0, 0, 0, 0, 0x90, 0x90, 0xE8, 0xDF, 0x80, 0xFF, 0xFF, 0xFF]

/-- A final image of 131073 bytes, one more than the size cap. -/
def oversizedImage : Hunk :=
  { name := "final", flags := 0, alignmentBits := 0, rawsize := 131073, virtualsize := 131073,
    data := List.replicate 131073 0x90, symbols := [] }

/-- A recompress input of 200 bytes: the word at `0x3C` is 4, the version
digits at offsets 2 and 3 are `'1'` and `'4'`, and the bytes at `0xC`, `0xD`,
`0xE` are `0F A3 2D`. -/
def oldVersionInput : List Nat :=
  [0x4D, 0x5A, 0x31, 0x34, 0x50, 0x45, 0, 0, 0x4C, 0x01, 0, 0, 0x0F, 0xA3, 0x2D, 0] ++
    List.replicate 44 0 ++ [4, 0, 0, 0] ++ List.replicate 136 0

/-- A recompress input of 200 bytes as `oldVersionInput`, with the version
digits `'2'` and `'0'`. -/
def tinyHeaderInput : List Nat :=
  [0x4D, 0x5A, 0x32, 0x30, 0x50, 0x45, 0, 0, 0x4C, 0x01, 0, 0, 0x0F, 0xA3, 0x2D, 0] ++
    List.replicate 44 0 ++ [4, 0, 0, 0] ++ List.replicate 136 0

/-- Stand-ins for the functions and constants that the headers declare, for
the example inputs: `Align` rounds up to a multiple of `2 ^ alignmentBits`,
`ToHunk` concatenates the buffers, `Relocate` and the pruning change nothing. -/
def exampleExternals : Externals :=
  { CRINKLER_SECTIONSIZE := 0x10000, CRINKLER_BASEPROB := 10, CRINKLER_LINKER_VERSION := 0x3232,
    Align := fun v bits => (v + 2 ^ bits.toNat - 1) / 2 ^ bits.toNat * 2 ^ bits.toNat,
    GetMaskList := fun ml _ => { weightmask := 0, masks := fun m => (ml.m_models.getD m ⟨0, 0⟩).mask },
    ToHunk := fun hunks name _ =>
      Hunk.ofData name (hunks.foldl (fun d h => d ++ h.data) []) 0 0
        (hunks.foldl (fun n h => n + h.rawsize) 0) (hunks.foldl (fun n h => n + h.virtualsize) 0),
    Relocate := fun h _ => h,
    RemoveUnreferencedHunks := fun pool _ => pool }

/-- Example members: the 4k header, console subsystem, one code model and one
data model, no exports. -/
def exampleMembers : Members :=
  { m_hunkPool := [], m_exports := [], m_useTinyHeader := false, m_useTinyImport := false,
    m_useSafeImporting := true, m_largeAddressAware := 0,
    m_subsystem := SubsystemType.SUBSYSTEM_CONSOLE,
    m_modellist1 := { m_models := [⟨1, 0x11⟩], nmodels := 1, size := 0 },
    m_modellist2 := { m_models := [⟨1, 0x22⟩], nmodels := 1, size := 0 },
    m_modellist1k := { modelmask := 0, boost := 0, baseprob0 := 0, baseprob1 := 0 } }

/-- An example 4k header of 16 bytes `0x90` with the patch points that
`SetHeaderConstants` looks up; the spare NOP is the byte at offset 5. -/
def exampleHeader : Hunk :=
  { name := "header", flags := 0, alignmentBits := 0, rawsize := 16, virtualsize := 16,
    data := List.replicate 16 0x90,
    symbols := [Symbol.new "_BaseProbPtr" 0 0 (some "header") none,
                Symbol.new "_ModelSkipPtr" 1 0 (some "header") none,
                Symbol.new "_SubsystemTypePtr" 2 0 (some "header") none,
                Symbol.new "_LinkerVersionPtr" 3 0 (some "header") none,
                Symbol.new "_SpareNopPtr" 5 0 (some "header") none,
                Symbol.new "_CharacteristicsPtr" 6 0 (some "header") none,
                Symbol.new "_ExportTableRVAPtr" 8 0 (some "header") none,
                Symbol.new "_NumberOfDataDirectoriesPtr" 12 0 (some "header") none] }

/-- A payload of three bytes `nop; nop; pop edi`: the first byte is not `0x5F`,
the byte at offset 2 is. -/
def payloadPopAtTwo : Hunk :=
  { name := "linked", flags := 0, alignmentBits := 0, rawsize := 3, virtualsize := 3,
    data := [0x90, 0x90, 0x5F], symbols := [] }

/-- A payload of the single byte `pop edi`. -/
def payloadSinglePop : Hunk :=
  { name := "linked", flags := 0, alignmentBits := 0, rawsize := 1, virtualsize := 1,
    data := [0x5F], symbols := [] }

/-- A payload of four bytes that begins with `pop edi`. -/
def payloadPopFirst : Hunk :=
  { name := "linked", flags := 0, alignmentBits := 0, rawsize := 4, virtualsize := 4,
    data := [0x5F, 0x90, 0x90, 0xC3], symbols := [] }

/-- A pool of one hunk that owns the symbol `val`, which comes from a library. -/
def poolWithLibrarySymbol : List Hunk :=
  [{ name := "lib", flags := 0, alignmentBits := 0, rawsize := 4, virtualsize := 4,
     data := [0, 0, 0, 0],
     symbols := [{ Symbol.new "val" 0 SYMBOL_IS_RELOCATEABLE (some "lib") none with
                   fromLibrary := true }] }]

/-- A pool of one hunk that owns the symbol `val`, which does not come from a
library. -/
def poolWithOwnSymbol : List Hunk :=
  [{ name := "obj", flags := 0, alignmentBits := 0, rawsize := 4, virtualsize := 4,
     data := [0, 0, 0, 0],
     symbols := [Symbol.new "val" 0 SYMBOL_IS_RELOCATEABLE (some "obj") none] }]

/-- The export `val=0x12345678`. -/
def exportWithValue : Export :=
  { name := "val", symbol := "", value := some 0x12345678 }

/-- An example 1k header of 12 bytes with the patch points that the 1k branch of
`SetHeaderConstants` looks up; the virtual-size field is the four bytes at
offsets 4 to 7 and holds `0x1234` in its low three bytes. -/
def exampleTinyHeader : Hunk :=
  { name := "header", flags := 0, alignmentBits := 0, rawsize := 12, virtualsize := 12,
    data := [0x90, 0x90, 0x90, 0x90, 0x34, 0x12, 0x00, 0x00, 0x90, 0x90, 0x90, 0x90],
    symbols := [Symbol.new "_BaseProbPtr0" 0 0 (some "header") none,
                Symbol.new "_BaseProbPtr1" 1 0 (some "header") none,
                Symbol.new "_BoostFactorPtr" 2 0 (some "header") none,
                Symbol.new "_VirtualSizeHighBytePtr" 7 0 (some "header") none,
                Symbol.new "_DepackEndPositionPtr" 8 0 (some "header") none] }

/-- A stand-in for `ModelList4k::SetFromModelsAndMask` for the example inputs: it
reads one model, whose mask is the first byte at `models`. -/
def exampleSetFromModelsAndMask (_ : ModelList4k) (models : List Nat) (_ : Int) : ModelList4k :=
  { m_models := [⟨0, models.getD 0 0⟩], nmodels := 1, size := 0 }

/-- An example input of `Recompress`: two bytes followed by the descriptor that
`CreateModelHunk(100, 300)` builds for the model lists of `exampleMembers`. -/
def exampleDescriptorFile : List Nat :=
  [0x4D, 0x5A] ++ (CreateModelHunk exampleExternals.GetMaskList exampleMembers.m_modellist1
    exampleMembers.m_modellist2 100 300).data ++ []

/-- A stand-in for the compressor library for the example inputs: the search
yields one model per byte of the context it is given, with that byte as the
mask, and the size 0; the evaluation yields 0. -/
def echoLibrary : CompressorLibrary :=
  { ApproximateModels4k := fun _ _ context _ _ _ =>
      ({ m_models := context.map (fun b => ⟨0, b⟩), nmodels := context.length, size := 0 }, 0),
    ApproximateModels1k := fun _ _ => ({ modelmask := 0, boost := 0, baseprob0 := 0, baseprob1 := 0 }, 0),
    EvaluateSize4k := fun _ _ _ _ _ => (0, [0, 0]) }

/-- A pool of two hunks: the hunk `.CRT$XCU` with one relocation, to `_init`, and
a code hunk that owns the symbol `_init`. -/
def poolWithInitializer : List Hunk :=
  [{ name := ".CRT$XCU", flags := 0, alignmentBits := 2, rawsize := 4, virtualsize := 4,
     data := [0, 0, 0, 0], symbols := [],
     relocations := [{ offset := 0, symbolname := "_init",
                       type := RelocationType.RELOCTYPE_ABS32 }] },
   { name := ".text", flags := HUNK_IS_CODE, alignmentBits := 0, rawsize := 1, virtualsize := 1,
     data := [0xC3],
     symbols := [Symbol.new "_init" 0 SYMBOL_IS_RELOCATEABLE (some ".text") none] }]

end Crinkler

namespace Crinkler

/-! ## Termination and range of `PreviousPrime` -/

theorem lor_zero_right (m : Int) : Int.lor m 0 = m := by
  cases m with
  | ofNat n => simp [Int.lor]
  | negSucc n =>
    show Int.negSucc (Nat.ldiff n 0) = Int.negSucc n
    congr 1
    have h0 : (0 : Nat) = Nat.bit false 0 := by simp [Nat.bit]
    induction n using Nat.binaryRec with
    | z => simp [Nat.ldiff]
    | f b n ih =>
      conv_lhs => rw [h0, Nat.ldiff_bit, ih]
      simp

/-- The embedding `orOne` of `x | 1` is the bitwise or of the two's complement
integers. -/
theorem orOne_eq_lor (x : Int) : orOne x = Int.lor x 1 := by
  have h1 : (1 : Int) = Int.bit true 0 := by simp [Int.bit_val]
  conv_rhs => rw [← Int.bit_decomp x, h1, Int.lor_bit, lor_zero_right, Int.bit_val, Int.div2_val]
  unfold orOne
  simp
  split_ifs <;> omega

theorem tdiv_two_eq (a : Int) : a.tdiv 2 = if 0 ≤ a then a / 2 else -((-a) / 2) := by
  split_ifs with h
  · exact Int.tdiv_eq_ediv h (by decide)
  · have h2 : a = -(-a) := by omega
    rw [h2, Int.neg_tdiv, Int.tdiv_eq_ediv (by omega) (by decide)]
    simp

theorem orOne_le (x : Int) : orOne x ≤ x + 1 := by
  unfold orOne; split_ifs <;> omega

theorem le_orOne (x : Int) : x ≤ orOne x := by
  unfold orOne; split_ifs <;> omega

theorem orOne_odd (x : Int) : orOne x % 2 = 1 := by
  unfold orOne; split_ifs <;> omega

theorem PreviousPrime.divisorLoop_total (n : Int) :
    ∀ (fuel : Nat) (i : Int), 1 ≤ i → n < fuel + i → 1 ≤ fuel →
      ∃ b, PreviousPrime.divisorLoop n fuel i = some b := by
  intro fuel
  induction fuel with
  | zero => intro i _ _ h; omega
  | succ k ih =>
    intro i hi hn _
    simp only [PreviousPrime.divisorLoop]
    split_ifs with h1 h2
    · exact ⟨true, rfl⟩
    · have hk : 1 ≤ k := by
        have : i ≤ i * i := by nlinarith
        push_cast at hn
        omega
      exact ih (i + 2) (by omega) (by push_cast at hn ⊢; omega) hk
    · exact ⟨false, rfl⟩

theorem PreviousPrime.divisorLoop_true_entry (n : Int) (fuel : Nat) (i : Int)
    (h : PreviousPrime.divisorLoop n fuel i = some true) : i * i < n := by
  cases fuel with
  | zero => simp [PreviousPrime.divisorLoop] at h
  | succ k =>
    simp only [PreviousPrime.divisorLoop] at h
    by_contra hc
    simp [hc] at h

theorem PreviousPrime.fromLabel_total :
    ∀ (fuel : Nat) (n : Int), n.toNat < fuel →
      ∃ r, PreviousPrime.fromLabel fuel n = some r ∧ r < n := by
  intro fuel
  induction fuel with
  | zero => intro n h; omega
  | succ k ih =>
    intro n hn
    simp only [PreviousPrime.fromLabel]
    have hlt : orOne (n - 2) < n := by have := orOne_le (n - 2); omega
    obtain ⟨b, hb⟩ := PreviousPrime.divisorLoop_total (orOne (n - 2)) ((orOne (n - 2)).toNat + 1) 3
      (by decide) (by push_cast; omega) (by omega)
    rw [hb]
    cases b with
    | false => exact ⟨_, rfl, hlt⟩
    | true =>
      have h9 := PreviousPrime.divisorLoop_true_entry _ _ _ hb
      obtain ⟨r, hr, hrlt⟩ := ih (orOne (n - 2)) (by omega)
      exact ⟨r, hr, by omega⟩

theorem PreviousPrime_total (n : Int) : ∃ r, PreviousPrime n = some r ∧ r < n :=
  PreviousPrime.fromLabel_total (n.toNat + 1) n (by omega)

/-! ## The hash-size search -/

theorem OptimizeHashsize.candidateS_succ (S0 : Int) (i : Nat) :
    candidateS S0 (i + 1) =
      (PreviousPrime (S0.tdiv 2)).bind (fun p => candidateS (p * 2) i) := by
  obtain ⟨p, hp, _⟩ := PreviousPrime_total (S0.tdiv 2)
  induction i with
  | zero => simp [candidateS, hp]
  | succ k ih =>
    rw [candidateS, ih]
    simp [candidateS, hp]

theorem OptimizeHashsize.candidateS_total (S0 : Int) (i : Nat) :
    ∃ c, candidateS S0 i = some c := by
  induction i with
  | zero => exact ⟨S0, rfl⟩
  | succ k ih =>
    obtain ⟨c, hc⟩ := ih
    obtain ⟨p, hp, _⟩ := PreviousPrime_total (c.tdiv 2)
    exact ⟨p * 2, by simp [candidateS, hc, hp]⟩

theorem OptimizeHashsize.candidateS_decreasing (S0 : Int) (i : Nat) (a b : Int)
    (ha : candidateS S0 i = some a) (hb : candidateS S0 (i + 1) = some b) : b < a := by
  obtain ⟨p, hp, hlt⟩ := PreviousPrime_total (a.tdiv 2)
  simp [candidateS, ha, hp] at hb
  rw [tdiv_two_eq] at hlt
  split_ifs at hlt <;> omega

theorem OptimizeHashsize.candidateS_lt (S0 : Int) (i j : Nat) (hij : i < j) (a b : Int)
    (ha : candidateS S0 i = some a) (hb : candidateS S0 j = some b) : b < a := by
  induction j generalizing b with
  | zero => omega
  | succ k ih =>
    obtain ⟨c, hc⟩ := OptimizeHashsize.candidateS_total S0 k
    have hbc := OptimizeHashsize.candidateS_decreasing S0 k c b hc hb
    rcases Nat.lt_succ_iff_lt_or_eq.mp hij with h | h
    · have := ih h c hc
      omega
    · subst h
      rw [ha] at hc
      cases hc
      exact hbc

theorem OptimizeHashsize.enumerate_eq (tries : Nat) :
    ∀ hashsize : Int, ∃ l, OptimizeHashsize.enumerate tries hashsize = some l ∧
      l.map some = (List.range tries).map (fun i => candidateS hashsize (i + 1)) := by
  induction tries with
  | zero => intro h; exact ⟨[], rfl, rfl⟩
  | succ k ih =>
    intro h
    obtain ⟨p, hp, _⟩ := PreviousPrime_total (h.tdiv 2)
    obtain ⟨l, hl, hmap⟩ := ih (p * 2)
    refine ⟨p * 2 :: l, by simp [OptimizeHashsize.enumerate, hp, hl], ?_⟩
    rw [List.range_succ_eq_map, List.map_cons, List.map_cons, List.map_map, hmap]
    congr 1
    · simp [candidateS, hp]
    · apply List.map_congr_left
      intro i _
      simp [Function.comp, OptimizeHashsize.candidateS_succ h (i + 1), hp]

/-- The serial merge of `OptimizeHashsize` over the candidates `l`, from the
state `st`. -/
theorem OptimizeHashsize.merge_cons (compress : Int → Int) (x : Int) (xs : List Int)
    (st : Int × Int) :
    ((x :: xs).zip ((x :: xs).map compress)).foldl OptimizeHashsize.mergeStep st =
      (xs.zip (xs.map compress)).foldl OptimizeHashsize.mergeStep
        (OptimizeHashsize.mergeStep st (x, compress x)) := by
  simp

theorem OptimizeHashsize.merge_le (compress : Int → Int) (l : List Int) :
    ∀ st : Int × Int,
      ((l.zip (l.map compress)).foldl OptimizeHashsize.mergeStep st).1 ≤ st.1 ∧
      ∀ c ∈ l, ((l.zip (l.map compress)).foldl OptimizeHashsize.mergeStep st).1 ≤ compress c := by
  induction l with
  | nil => intro st; simp
  | cons x xs ih =>
    intro st
    rw [OptimizeHashsize.merge_cons]
    obtain ⟨h1, h2⟩ := ih (OptimizeHashsize.mergeStep st (x, compress x))
    have hstep : (OptimizeHashsize.mergeStep st (x, compress x)).1 ≤ st.1 ∧
        (OptimizeHashsize.mergeStep st (x, compress x)).1 ≤ compress x := by
      unfold OptimizeHashsize.mergeStep
      split_ifs with h
      · exact ⟨h, le_refl _⟩
      · simp only at h
        exact ⟨le_refl _, by omega⟩
    refine ⟨by omega, ?_⟩
    intro c hc
    rcases List.mem_cons.mp hc with rfl | hc
    · omega
    · exact h2 c hc

theorem OptimizeHashsize.merge_cases (compress : Int → Int) (l : List Int) :
    ∀ st : Int × Int,
      (l.zip (l.map compress)).foldl OptimizeHashsize.mergeStep st = st ∨
      (((l.zip (l.map compress)).foldl OptimizeHashsize.mergeStep st).2 ∈ l ∧
        ((l.zip (l.map compress)).foldl OptimizeHashsize.mergeStep st).1 =
          compress ((l.zip (l.map compress)).foldl OptimizeHashsize.mergeStep st).2) := by
  induction l with
  | nil => intro st; simp
  | cons x xs ih =>
    intro st
    rw [OptimizeHashsize.merge_cons]
    rcases ih (OptimizeHashsize.mergeStep st (x, compress x)) with h | ⟨h1, h2⟩
    · rw [h]
      unfold OptimizeHashsize.mergeStep
      split_ifs
      · right; simp
      · left; rfl
    · right
      exact ⟨List.mem_cons_of_mem _ h1, h2⟩

theorem OptimizeHashsize.merge_tie (compress : Int → Int) (l : List Int)
    (hl : l.Pairwise (fun a b => b < a)) :
    ∀ st : Int × Int, ∀ c ∈ l,
      compress c ≤ ((l.zip (l.map compress)).foldl OptimizeHashsize.mergeStep st).1 →
      ((l.zip (l.map compress)).foldl OptimizeHashsize.mergeStep st).2 ≤ c := by
  induction l with
  | nil => intro st c hc; simp at hc
  | cons x xs ih =>
    intro st c hc hle
    rw [OptimizeHashsize.merge_cons] at hle ⊢
    obtain ⟨hx, hxs⟩ := List.pairwise_cons.mp hl
    rcases List.mem_cons.mp hc with rfl | hc
    · have hfst := (OptimizeHashsize.merge_le compress xs
        (OptimizeHashsize.mergeStep st (c, compress c))).1
      rcases OptimizeHashsize.merge_cases compress xs
        (OptimizeHashsize.mergeStep st (c, compress c)) with h | ⟨h1, _⟩
      · rw [h] at hle ⊢
        unfold OptimizeHashsize.mergeStep at hle ⊢
        split_ifs at hle ⊢ with h3
        · exact le_refl _
        · simp only at h3 hle
          omega
      · exact le_of_lt (hx _ h1)
    · exact ih hxs _ c hc hle

theorem OptimizeHashsize.merge_first (compress : Int → Int) (l : List Int) (hne : l ≠ [])
    (b bh : Int) (hb : ∀ c, compress c ≤ b) :
    ((l.zip (l.map compress)).foldl OptimizeHashsize.mergeStep (b, bh)).2 ∈ l ∧
      ((l.zip (l.map compress)).foldl OptimizeHashsize.mergeStep (b, bh)).1 =
        compress ((l.zip (l.map compress)).foldl OptimizeHashsize.mergeStep (b, bh)).2 := by
  cases l with
  | nil => exact absurd rfl hne
  | cons x xs =>
    rw [OptimizeHashsize.merge_cons]
    have hstep : OptimizeHashsize.mergeStep (b, bh) (x, compress x) = (compress x, x) := by
      unfold OptimizeHashsize.mergeStep
      simp [hb x]
    rw [hstep]
    rcases OptimizeHashsize.merge_cases compress xs (compress x, x) with h | ⟨h1, h2⟩
    · rw [h]; simp
    · exact ⟨List.mem_cons_of_mem _ h1, h2⟩

theorem OptimizeHashsize.mem_of_map_eq (S0 : Int) (tries : Nat) (l : List Int)
    (hl : l.map some = (List.range tries).map (fun i => candidateS S0 (i + 1))) (c : Int) :
    c ∈ l ↔ ∃ i, 1 ≤ i ∧ i ≤ tries ∧ candidateS S0 i = some c := by
  have h1 : c ∈ l ↔ some c ∈ l.map some := by simp
  rw [h1, hl, List.mem_map]
  constructor
  · rintro ⟨i, hi, hc⟩
    exact ⟨i + 1, by omega, by have := List.mem_range.mp hi; omega, hc⟩
  · rintro ⟨i, hi1, hi2, hc⟩
    refine ⟨i - 1, List.mem_range.mpr (by omega), ?_⟩
    have : i - 1 + 1 = i := by omega
    rw [this]
    exact hc

theorem OptimizeHashsize.pairwise_of_map_eq (S0 : Int) (tries : Nat) (l : List Int)
    (hl : l.map some = (List.range tries).map (fun i => candidateS S0 (i + 1))) :
    l.Pairwise (fun a b => b < a) := by
  have h1 : (l.map some).Pairwise (fun a b : Option Int => ∀ x y, a = some x → b = some y → y < x) := by
    rw [hl, List.pairwise_map]
    refine List.Pairwise.imp ?_ (List.pairwise_lt_range tries)
    intro i j hij x y hx hy
    exact OptimizeHashsize.candidateS_lt S0 (i + 1) (j + 1) (by omega) x y hx hy
  rw [List.pairwise_map] at h1
  exact List.Pairwise.imp (fun h => h _ _ rfl rfl) h1

theorem OptimizeHashsize.run_eq (compress : Int → Int) (hashsize : Int) (tries : Nat)
    (htries : 1 ≤ tries) :
    ∃ l, l.map some = (List.range tries).map (fun i => candidateS hashsize (i + 1)) ∧
      l ≠ [] ∧
      OptimizeHashsize.run compress hashsize tries =
        some { hashsizes := l, sizes := l.map compress,
               best_hashsize := ((l.zip (l.map compress)).foldl OptimizeHashsize.mergeStep
                 (INT_MAX, hashsize)).2 } := by
  obtain ⟨l, hl, hmap⟩ := OptimizeHashsize.enumerate_eq tries hashsize
  refine ⟨l, hmap, ?_, ?_⟩
  · intro h
    have := congrArg List.length hmap
    simp [h] at this
    omega
  · have : tries ≠ 0 := by omega
    simp [OptimizeHashsize.run, this, hl]

/-! ## Claims on `PreviousPrime` and `OptimizeHashsize` -/

/-- C2, evaluated on the code: `PreviousPrime(10)` returns `9`, which is not a
prime, while the largest prime strictly below `10` is `7`. The loop bound
`i * i < n` stops before the divisor `3` of `9` is tried. -/
theorem PreviousPrime_ten_returns_nine :
    PreviousPrime 10 = some 9 ∧ ¬ Nat.Prime 9 ∧
      (Nat.Prime 7 ∧ 7 < 10 ∧ ∀ p : Nat, Nat.Prime p → p < 10 → p ≤ 7) := by
  refine ⟨by decide, by norm_num, by norm_num, by norm_num, ?_⟩
  intro p hp hlt
  interval_cases p <;> first | omega | (exfalso; revert hp; norm_num)

/-- C3: for `tries >= 1` and every outcome `compress` of the per-candidate
compressions (an `int`, so at most `INT_MAX`), `OptimizeHashsize` returns one
of the enumerated candidates `S_1 .. S_tries`, and the coded size of the
returned size is at most the coded size of every enumerated candidate. -/
theorem OptimizeHashsize_returns_minimal_candidate (compress : Int → Int) (hashsize : Int)
    (tries : Nat) (htries : 1 ≤ tries) (hint : ∀ h, compress h ≤ INT_MAX) :
    ∃ r, OptimizeHashsize compress hashsize tries = some r ∧
      (∃ i, 1 ≤ i ∧ i ≤ tries ∧ candidateS hashsize i = some r) ∧
      ∀ j c, 1 ≤ j → j ≤ tries → candidateS hashsize j = some c →
        compress r ≤ compress c := by
  obtain ⟨l, hmap, hne, hrun⟩ := OptimizeHashsize.run_eq compress hashsize tries htries
  obtain ⟨hmem, hfst⟩ := OptimizeHashsize.merge_first compress l hne INT_MAX hashsize hint
  have hr : OptimizeHashsize compress hashsize tries =
      some ((l.zip (l.map compress)).foldl OptimizeHashsize.mergeStep (INT_MAX, hashsize)).2 := by
    simp [OptimizeHashsize, hrun]
  refine ⟨_, hr, ?_, ?_⟩
  · exact (OptimizeHashsize.mem_of_map_eq hashsize tries l hmap _).mp hmem
  · intro j c hj1 hj2 hc
    have hcl : c ∈ l := (OptimizeHashsize.mem_of_map_eq hashsize tries l hmap c).mpr ⟨j, hj1, hj2, hc⟩
    rw [← hfst]
    exact (OptimizeHashsize.merge_le compress l (INT_MAX, hashsize)).2 c hcl

/-- C3 at a concrete search: three tries from `1000` with coded size
`h % 7`. -/
theorem OptimizeHashsize_returns_minimal_candidate_witness :
    (1 ≤ 3 ∧ ∀ h : Int, h % 7 ≤ INT_MAX) ∧
    ∃ r, OptimizeHashsize (fun h => h % 7) 1000 3 = some r ∧
      (∃ i, 1 ≤ i ∧ i ≤ 3 ∧ candidateS 1000 i = some r) ∧
      ∀ j c, 1 ≤ j → j ≤ 3 → candidateS 1000 j = some c → r % 7 ≤ c % 7 :=
  ⟨⟨by decide, fun h => by unfold INT_MAX; omega⟩,
    OptimizeHashsize_returns_minimal_candidate (fun h => h % 7) 1000 3 (by decide)
      (fun h => by show h % 7 ≤ INT_MAX; unfold INT_MAX; omega)⟩

/-- C4: for `tries >= 1`, `OptimizeHashsize` returns an enumerated candidate
whose coded size is the minimum over the enumerated candidates, and among the
candidates that attain this minimum it returns the numerically smallest: the
returned size is at most every enumerated candidate whose coded size is
minimal. -/
theorem OptimizeHashsize_tie_smallest_table (compress : Int → Int) (hashsize : Int)
    (tries : Nat) (htries : 1 ≤ tries) (hint : ∀ h, compress h ≤ INT_MAX) :
    ∃ r, OptimizeHashsize compress hashsize tries = some r ∧
      (∃ i, 1 ≤ i ∧ i ≤ tries ∧ candidateS hashsize i = some r) ∧
      (∀ k d, 1 ≤ k → k ≤ tries → candidateS hashsize k = some d → compress r ≤ compress d) ∧
      ∀ j c, 1 ≤ j → j ≤ tries → candidateS hashsize j = some c →
        (∀ k d, 1 ≤ k → k ≤ tries → candidateS hashsize k = some d → compress c ≤ compress d) →
        r ≤ c := by
  obtain ⟨l, hmap, hne, hrun⟩ := OptimizeHashsize.run_eq compress hashsize tries htries
  obtain ⟨hmem, hfst⟩ := OptimizeHashsize.merge_first compress l hne INT_MAX hashsize hint
  have hr : OptimizeHashsize compress hashsize tries =
      some ((l.zip (l.map compress)).foldl OptimizeHashsize.mergeStep (INT_MAX, hashsize)).2 := by
    simp [OptimizeHashsize, hrun]
  have hcand := (OptimizeHashsize.mem_of_map_eq hashsize tries l hmap _).mp hmem
  refine ⟨_, hr, hcand, ?_, ?_⟩
  · intro k d hk1 hk2 hd
    have hdl : d ∈ l := (OptimizeHashsize.mem_of_map_eq hashsize tries l hmap d).mpr ⟨k, hk1, hk2, hd⟩
    rw [← hfst]
    exact (OptimizeHashsize.merge_le compress l (INT_MAX, hashsize)).2 d hdl
  · intro j c hj1 hj2 hc hmin
    have hcl : c ∈ l := (OptimizeHashsize.mem_of_map_eq hashsize tries l hmap c).mpr ⟨j, hj1, hj2, hc⟩
    apply OptimizeHashsize.merge_tie compress l
      (OptimizeHashsize.pairwise_of_map_eq hashsize tries l hmap) (INT_MAX, hashsize) c hcl
    rw [hfst]
    obtain ⟨i, hi1, hi2, hi⟩ := hcand
    exact hmin i _ hi1 hi2 hi

/-- C4 at a concrete search: three tries from `1000`, candidates `998`, `982`
and `974`, where `998` and `982` have the coded size `5` and `974` has the
coded size `9`: the result is `982`, the smaller of the two candidates of
minimal coded size. -/
theorem OptimizeHashsize_tie_smallest_table_witness :
    (1 ≤ 3 ∧ ∀ h : Int, (if h = 974 then (9 : Int) else 5) ≤ INT_MAX) ∧
    OptimizeHashsize (fun h => if h = 974 then 9 else 5) 1000 3 = some 982 ∧
    ∃ r, OptimizeHashsize (fun h => if h = 974 then 9 else 5) 1000 3 = some r ∧
      (∃ i, 1 ≤ i ∧ i ≤ 3 ∧ candidateS 1000 i = some r) ∧
      (∀ k d, 1 ≤ k → k ≤ 3 → candidateS 1000 k = some d →
        (if r = 974 then (9 : Int) else 5) ≤ (if d = 974 then (9 : Int) else 5)) ∧
      ∀ j c, 1 ≤ j → j ≤ 3 → candidateS 1000 j = some c →
        (∀ k d, 1 ≤ k → k ≤ 3 → candidateS 1000 k = some d →
          (if c = 974 then (9 : Int) else 5) ≤ (if d = 974 then (9 : Int) else 5)) →
        r ≤ c :=
  ⟨⟨by decide, fun h => by unfold INT_MAX; split_ifs <;> decide⟩, by decide,
    OptimizeHashsize_tie_smallest_table (fun h => if h = 974 then 9 else 5) 1000 3 (by decide)
      (fun h => by show (if h = 974 then (9 : Int) else 5) ≤ INT_MAX; unfold INT_MAX;
                   split_ifs <;> decide)⟩

/-- C5: for a starting size `S_0` and every `tries >= 0`, the candidates that
`OptimizeHashsize` hands to the compressor are, by array index,
`S_i = PreviousPrime(S_(i-1) / 2) * 2` for `i = 1 .. tries` and nothing else,
the coded sizes are those of exactly these candidates, and with `tries = 0` no
candidate is evaluated and the starting size is returned unchanged. -/
theorem OptimizeHashsize_enumerates_candidates (compress : Int → Int) (hashsize : Int)
    (tries : Nat) :
    ∃ run, OptimizeHashsize.run compress hashsize tries = some run ∧
      OptimizeHashsize compress hashsize tries = some run.best_hashsize ∧
      run.hashsizes.map some = (List.range tries).map (fun i => candidateS hashsize (i + 1)) ∧
      run.hashsizes.length = tries ∧
      run.sizes = run.hashsizes.map compress ∧
      (tries = 0 → run.hashsizes = [] ∧ run.best_hashsize = hashsize) := by
  rcases Nat.eq_zero_or_pos tries with h0 | hpos
  · subst h0
    exact ⟨{ hashsizes := [], sizes := [], best_hashsize := hashsize }, rfl, rfl, rfl, rfl, rfl,
      fun _ => ⟨rfl, rfl⟩⟩
  · obtain ⟨l, hmap, _, hrun⟩ := OptimizeHashsize.run_eq compress hashsize tries hpos
    refine ⟨_, hrun, by simp [OptimizeHashsize, hrun], hmap, ?_, rfl, fun h => by omega⟩
    have := congrArg List.length hmap
    simpa using this

/-! ## Stores into a buffer -/

theorem set_four_eq (a b c e : Nat) :
    ∀ (p : Nat) (data : List Nat), p + 4 ≤ data.length →
      (((data.set p a).set (p + 1) b).set (p + 2) c).set (p + 3) e =
        data.take p ++ [a, b, c, e] ++ data.drop (p + 4) := by
  intro p
  induction p with
  | zero =>
    intro data h
    match data, h with
    | x0 :: x1 :: x2 :: x3 :: rest, _ => simp
  | succ k ih =>
    intro data h
    match data, h with
    | x :: xs, h =>
      have h2 : k + 4 ≤ xs.length := by simp at h; omega
      have := ih xs h2
      show x :: ((((xs.set k a).set (k + 1) b).set (k + 2) c).set (k + 3) e) =
        x :: (List.take k xs ++ [a, b, c, e] ++ List.drop (k + 4) xs)
      rw [this]

theorem storeInt_length (data : List Nat) (p : Nat) (v : Int) :
    (storeInt data p v).length = data.length := by
  simp [storeInt]

theorem storeInt_eq (data : List Nat) (p : Nat) (v : Int) (h : p + 4 ≤ data.length) :
    storeInt data p v =
      data.take p ++ wordBytes (v % 4294967296).toNat ++ data.drop (p + 4) := by
  unfold storeInt wordBytes
  exact set_four_eq _ _ _ _ p data h

theorem wordBytes_toShort (x : Int) (i : Nat) :
    wordBytes (toShort (x + i + 1) % 4294967296).toNat = rewrittenDisplacement x i := by
  unfold wordBytes rewrittenDisplacement toShort
  simp only
  split_ifs with h1 h2 h2
  · congr 1
    · omega
    · congr 1
      · omega
      · congr 1
        · omega
        · congr 1; omega
  · omega
  · omega
  · congr 1
    · omega
    · congr 1
      · omega
      · congr 1
        · omega
        · congr 1; omega

/-! ## The rewriting loop of `DoTransform` -/

theorem DoTransform.loop_eq_referenceScan (size : Int) :
    ∀ (fuel i : Nat) (data : List Nat) (num : Int), size ≤ data.length →
      (size - 4 - i).toNat < fuel →
      ∃ n, DoTransform.loop size fuel i data num = some (referenceScan size data i, n) := by
  intro fuel
  induction fuel with
  | zero => intro i data num _ h; omega
  | succ k ih =>
    intro i data num hlen hfuel
    rw [referenceScan]
    simp only [DoTransform.loop]
    by_cases h1 : (i : Int) < size - 4
    · rw [if_pos h1, if_pos h1]
      by_cases h2 : data.getD i 0 = 0xe8
      · rw [if_pos h2]
        by_cases h3 : -32768 ≤ loadInt data (i + 1) ∧ loadInt data (i + 1) ≤ 32767
        · have helig : eligibleCall data i := ⟨h2, h3⟩
          rw [if_pos helig]
          simp only [h3, and_self, if_true]
          have hb : i + 1 + 4 ≤ data.length := by omega
          rw [storeInt_eq data (i + 1) _ hb, wordBytes_toShort]
          unfold displacementAt
          apply ih
          · simp [rewrittenDisplacement]
            omega
          · push_cast
            omega
        · have helig : ¬ eligibleCall data i := fun h => h3 h.2
          rw [if_neg helig, if_neg h3]
          exact ih _ _ _ hlen (by push_cast; omega)
      · have helig : ¬ eligibleCall data i := fun h => h2 h.1
        rw [if_neg helig, if_neg h2]
        exact ih _ _ _ hlen (by push_cast; omega)
    · rw [if_neg h1, if_neg h1]
      exact ⟨num, rfl⟩

/-- The loop leaves the buffer of the reference scan and adds to its counter the
number of calls that the reference scan rewrites. -/
theorem DoTransform.loop_eq_referenceCalls (size : Int) :
    ∀ (fuel i : Nat) (data : List Nat) (num : Int), size ≤ data.length →
      (size - 4 - i).toNat < fuel →
      DoTransform.loop size fuel i data num =
        some (referenceScan size data i, num + ((referenceCalls size data i).length : Nat)) := by
  intro fuel
  induction fuel with
  | zero => intro i data num _ h; omega
  | succ k ih =>
    intro i data num hlen hfuel
    rw [referenceScan, referenceCalls]
    simp only [DoTransform.loop]
    by_cases h1 : (i : Int) < size - 4
    · rw [if_pos h1, if_pos h1, if_pos h1]
      by_cases h2 : data.getD i 0 = 0xe8
      · rw [if_pos h2]
        by_cases h3 : -32768 ≤ loadInt data (i + 1) ∧ loadInt data (i + 1) ≤ 32767
        · have helig : eligibleCall data i := ⟨h2, h3⟩
          rw [if_pos helig, if_pos helig]
          simp only [h3, and_self, if_true]
          have hb : i + 1 + 4 ≤ data.length := by omega
          rw [storeInt_eq data (i + 1) _ hb, wordBytes_toShort]
          unfold displacementAt
          rw [ih _ _ _ (by simp [rewrittenDisplacement]; omega) (by push_cast; omega)]
          simp only [List.length_cons, Option.some.injEq, Prod.mk.injEq, true_and]
          push_cast
          ring
        · have helig : ¬ eligibleCall data i := fun h => h3 h.2
          rw [if_neg helig, if_neg helig, if_neg h3]
          exact ih _ _ _ hlen (by push_cast; omega)
      · have helig : ¬ eligibleCall data i := fun h => h2 h.1
        rw [if_neg helig, if_neg helig, if_neg h2]
        exact ih _ _ _ hlen (by push_cast; omega)
    · rw [if_neg h1, if_neg h1, if_neg h1]
      simp

/-- The counter only grows, by at most one per position that is left to scan,
and the buffer is untouched unless the counter grows. -/
theorem DoTransform.loop_num (size : Int) :
    ∀ (fuel i : Nat) (data : List Nat) (num : Int) (data' : List Nat) (num' : Int),
      DoTransform.loop size fuel i data num = some (data', num') →
      num ≤ num' ∧ num' ≤ num + (size - 4 - i).toNat ∧ (num' = num → data' = data) := by
  intro fuel
  induction fuel with
  | zero => intro i data num data' num' h; simp [DoTransform.loop] at h
  | succ k ih =>
    intro i data num data' num' h
    simp only [DoTransform.loop] at h
    by_cases h1 : (i : Int) < size - 4
    · rw [if_pos h1] at h
      by_cases h2 : data.getD i 0 = 0xe8
      · rw [if_pos h2] at h
        by_cases h3 : -32768 ≤ loadInt data (i + 1) ∧ loadInt data (i + 1) ≤ 32767
        · simp only [h3, and_self, if_true] at h
          obtain ⟨a, b, _⟩ := ih _ _ _ _ _ h
          refine ⟨by omega, by push_cast at b; omega, fun hc => by omega⟩
        · rw [if_neg h3] at h
          obtain ⟨a, b, c⟩ := ih _ _ _ _ _ h
          exact ⟨a, by push_cast at b; omega, c⟩
      · rw [if_neg h2] at h
        obtain ⟨a, b, c⟩ := ih _ _ _ _ _ h
        exact ⟨a, by push_cast at b; omega, c⟩
    · rw [if_neg h1] at h
      simp only [Option.some.injEq, Prod.mk.injEq] at h
      obtain ⟨rfl, rfl⟩ := h
      exact ⟨le_refl _, by omega, fun _ => rfl⟩

/-- The rewriting loop terminates on every buffer: the fuel that `rewrite`
passes is enough. -/
theorem DoTransform.loop_total (size : Int) :
    ∀ (fuel i : Nat) (data : List Nat) (num : Int), (size - 4 - i).toNat < fuel →
      ∃ r, DoTransform.loop size fuel i data num = some r := by
  intro fuel
  induction fuel with
  | zero => intro i data num h; omega
  | succ k ih =>
    intro i data num hfuel
    simp only [DoTransform.loop]
    split_ifs with h1 h2 h3
    · exact ih _ _ _ (by push_cast; omega)
    · exact ih _ _ _ (by push_cast; omega)
    · exact ih _ _ _ (by push_cast; omega)
    · exact ⟨_, rfl⟩

theorem DoTransform.rewrite_returns (splittingPoint : Int) (data : List Nat) :
    ∃ r, DoTransform.rewrite splittingPoint data = some r :=
  DoTransform.loop_total splittingPoint _ 0 data 0 (by push_cast; omega)

theorem DoTransform.rewrite_total (splittingPoint : Int) (data : List Nat)
    (hsp : splittingPoint ≤ data.length) :
    ∃ num, DoTransform.rewrite splittingPoint data =
      some (referenceScan splittingPoint data 0, num) :=
  DoTransform.loop_eq_referenceScan splittingPoint _ 0 data 0 hsp (by push_cast; omega)

theorem DoTransform.rewrite_num (splittingPoint : Int) (data data' : List Nat) (num : Int)
    (h : DoTransform.rewrite splittingPoint data = some (data', num)) :
    0 ≤ num ∧ num ≤ (splittingPoint - 4).toNat ∧ (num = 0 → data' = data) := by
  have := DoTransform.loop_num splittingPoint _ 0 data 0 data' num h
  simpa using this

/-! ## Claims on the rewrite of `DoTransform` -/

/-- C1, evaluated on the code: two different code blobs of the same length
(`collidingBufferA` and `collidingBufferB`, split point 14) are rewritten to
the same bytes with the same call count 1, and `DoTransform` leaves the same
hunk behind for both; so no function of the transformed bytes and the call
count gives back the blob: the rewrite is not reversible. -/
theorem DoTransform_rewrite_not_reversible :
    collidingBufferA ≠ collidingBufferB ∧
      collidingBufferA.length = collidingBufferB.length ∧
      DoTransform.rewrite 14 collidingBufferA =
        some ([0x5F, 0xB9, 0, 0, 0, 0, 0x90, 0x90, 0xE8, 0xE8, 0x80, 0xFF, 0xFF, 0xFF], 1) ∧
      DoTransform.rewrite 14 collidingBufferB =
        some ([0x5F, 0xB9, 0, 0, 0, 0, 0x90, 0x90, 0xE8, 0xE8, 0x80, 0xFF, 0xFF, 0xFF], 1) ∧
      (∃ r, CallTransform.DoTransform ⟨true⟩ (linkedHunk collidingBufferA 0 8) 14 false = some r ∧
        CallTransform.DoTransform ⟨true⟩ (linkedHunk collidingBufferB 0 8) 14 false = some r ∧
        r.ret = true ∧
        r.hunk.data = [0x5F, 0xB9, 1, 0, 0, 0, 0x90, 0x90, 0xE8, 0xE8, 0x80, 0xFF, 0xFF, 0xFF]) ∧
      ¬ ∃ Detransform : List Nat → Int → List Nat,
        ∀ (splittingPoint : Int) (data transformed : List Nat) (num : Int),
          (∀ b ∈ data, b < 256) → splittingPoint ≤ data.length →
          DoTransform.rewrite splittingPoint data = some (transformed, num) →
          Detransform transformed num = data := by
  have hA : DoTransform.rewrite 14 collidingBufferA =
      some ([0x5F, 0xB9, 0, 0, 0, 0, 0x90, 0x90, 0xE8, 0xE8, 0x80, 0xFF, 0xFF, 0xFF], 1) := by
    decide
  have hB : DoTransform.rewrite 14 collidingBufferB =
      some ([0x5F, 0xB9, 0, 0, 0, 0, 0x90, 0x90, 0xE8, 0xE8, 0x80, 0xFF, 0xFF, 0xFF], 1) := by
    decide
  refine ⟨by decide, by decide, hA, hB, ⟨_, rfl, by decide, by decide, by decide⟩, ?_⟩
  rintro ⟨D, hD⟩
  have h1 := hD 14 _ _ _ (by decide) (by decide) hA
  have h2 := hD 14 _ _ _ (by decide) (by decide) hB
  rw [h1] at h2
  revert h2
  decide

/-- C6: for every buffer and every split point inside it, the buffer that the
rewriting loop of `DoTransform` leaves behind is the result of the reference
scan from position 0 (and the loop terminates). -/
theorem DoTransform_rewrite_is_reference_scan (data : List Nat) (splittingPoint : Int)
    (hsp : splittingPoint ≤ data.length) :
    ∃ num, DoTransform.rewrite splittingPoint data =
      some (referenceScan splittingPoint data 0, num) :=
  DoTransform.rewrite_total splittingPoint data hsp

/-- C6 at a concrete buffer: the detransformer stand-in followed by one call,
scanned up to its end. -/
theorem DoTransform_rewrite_is_reference_scan_witness :
    (14 : Int) ≤ bufferWithCall.length ∧
    ∃ num, DoTransform.rewrite 14 bufferWithCall =
      some (referenceScan 14 bufferWithCall 0, num) :=
  ⟨by decide, DoTransform_rewrite_is_reference_scan bufferWithCall 14 (by decide)⟩

/-! ## Loads after stores -/

theorem getD_set_eq (data : List Nat) (p k v : Nat) :
    (data.set p v).getD k 0 = if k = p ∧ p < data.length then v else data.getD k 0 := by
  simp only [List.getD_eq_getElem?_getD, List.getElem?_set]
  by_cases h : p = k
  · subst h
    by_cases h2 : p < data.length
    · simp [h2]
    · simp [h2, List.getElem?_eq_none (not_lt.mp h2)]
  · have h' : ¬ k = p := fun e => h e.symm
    simp [h, h']

theorem storeInt_getD_outside (data : List Nat) (p : Nat) (v : Int) (k : Nat)
    (hk : k < p ∨ p + 4 ≤ k) : (storeInt data p v).getD k 0 = data.getD k 0 := by
  unfold storeInt
  simp only [getD_set_eq]
  have h0 : ¬ k = p := by omega
  have h1 : ¬ k = p + 1 := by omega
  have h2 : ¬ k = p + 2 := by omega
  have h3 : ¬ k = p + 3 := by omega
  simp [h0, h1, h2, h3]

theorem loadWord_storeInt (data : List Nat) (p : Nat) (v : Int) (h : p + 4 ≤ data.length) :
    loadWord (storeInt data p v) p = (v % 4294967296).toNat := by
  unfold loadWord storeInt
  simp only [getD_set_eq, List.length_set]
  have h0 : p < data.length := by omega
  have h1 : p + 1 < data.length := by omega
  have h2 : p + 2 < data.length := by omega
  have h3 : p + 3 < data.length := by omega
  simp [h0, h1, h2, h3]
  omega

theorem loadInt_storeInt (data : List Nat) (p : Nat) (v : Int) (h : p + 4 ≤ data.length)
    (hlo : INT_MIN ≤ v) (hhi : v ≤ INT_MAX) : loadInt (storeInt data p v) p = v := by
  unfold loadInt
  rw [loadWord_storeInt data p v h]
  unfold INT_MIN at hlo
  unfold INT_MAX at hhi
  split_ifs <;> omega

theorem memset_length (data : List Nat) (start c n : Nat) :
    (memset data start c n).length = data.length := by
  unfold memset
  induction n with
  | zero => simp
  | succ k ih => simp [List.range_succ, List.foldl_append, ih]

theorem memset_getElem? (data : List Nat) (start c n k : Nat) :
    (memset data start c n)[k]? =
      if start ≤ k ∧ k < start + n ∧ k < data.length then some (c % 256) else data[k]? := by
  induction n with
  | zero =>
    have : ¬ (start ≤ k ∧ k < start + 0 ∧ k < data.length) := by omega
    rw [if_neg this]
    simp [memset]
  | succ m ih =>
    have hstep : memset data start c (m + 1) = (memset data start c m).set (start + m) (c % 256) := by
      simp [memset, List.range_succ, List.foldl_append]
    rw [hstep, List.getElem?_set, ih, memset_length]
    by_cases h1 : start + m = k
    · subst h1
      by_cases h2 : start + m < data.length
      · simp [h2]
      · simp [h2, List.getElem?_eq_none (not_lt.mp h2)]
    · rw [if_neg h1]
      by_cases h3 : start ≤ k ∧ k < start + m ∧ k < data.length
      · have : start ≤ k ∧ k < start + (m + 1) ∧ k < data.length := by omega
        rw [if_pos h3, if_pos this]
      · have : ¬ (start ≤ k ∧ k < start + (m + 1) ∧ k < data.length) := by omega
        rw [if_neg h3, if_neg this]

theorem DoTransform.loop_length (size : Int) :
    ∀ (fuel i : Nat) (data : List Nat) (num : Int) (data' : List Nat) (num' : Int),
      DoTransform.loop size fuel i data num = some (data', num') →
      data'.length = data.length := by
  intro fuel
  induction fuel with
  | zero => intro i data num data' num' h; simp [DoTransform.loop] at h
  | succ k ih =>
    intro i data num data' num' h
    simp only [DoTransform.loop] at h
    split_ifs at h with h1 h2 h3
    · rw [ih _ _ _ _ _ h, storeInt_length]
    · exact ih _ _ _ _ _ h
    · exact ih _ _ _ _ _ h
    · simp only [Option.some.injEq, Prod.mk.injEq] at h
      rw [← h.1]

theorem Hunk.FindSymbol_data (hunk : Hunk) (data : List Nat) (name : String) :
    Hunk.FindSymbol { hunk with data := data } name = hunk.FindSymbol name := rfl

/-! ## Claims on the patch and the self-disable of `DoTransform` -/

/-- C7: for every hunk and split point inside its buffer for which the rewrite
of `DoTransform` counts `num > 0` calls (the symbol `_CallTrans` exists and the
patched word lies inside the buffer), `num` is the number of calls that the
reference scan rewrites, which is then at least one, and the buffer after the
rewrite is that of the reference scan; `DoTransform` returns `true`, the 32-bit
little-endian word at offset `value(_CallTrans) + 2` is this number of
rewritten calls, every byte outside this word is as the rewrite left it
(nothing is overwritten with NOPs), the transform object is unchanged (not
disabled), and nothing is put on the log. -/
theorem DoTransform_patches_call_count (self : CallTransform) (hunk : Hunk)
    (splittingPoint : Int) (verbose : Bool) (data' : List Nat) (num : Int) (callTrans : Symbol)
    (hrw : DoTransform.rewrite splittingPoint hunk.data = some (data', num))
    (hnum : 0 < num)
    (hsp : splittingPoint ≤ hunk.data.length)
    (hsym : hunk.FindSymbol "_CallTrans" = some callTrans)
    (hlo : 0 ≤ callTrans.value) (hhi : callTrans.value + 6 ≤ hunk.data.length)
    (hint : splittingPoint ≤ INT_MAX) :
    ∃ r, self.DoTransform hunk splittingPoint verbose = some r ∧
      r.ret = true ∧
      num = ((referenceCalls splittingPoint hunk.data 0).length : Nat) ∧
      referenceCalls splittingPoint hunk.data 0 ≠ [] ∧
      data' = referenceScan splittingPoint hunk.data 0 ∧
      loadInt r.hunk.data (callTrans.value + 2).toNat =
        ((referenceCalls splittingPoint hunk.data 0).length : Nat) ∧
      (∀ k : Nat, (k : Int) < callTrans.value + 2 ∨ callTrans.value + 6 ≤ k →
        r.hunk.data.getD k 0 = (referenceScan splittingPoint hunk.data 0).getD k 0) ∧
      r.hunk.data.length = hunk.data.length ∧
      r.self = self ∧
      r.log = [] := by
  have hlen := DoTransform.loop_length _ _ _ _ _ _ _ hrw
  obtain ⟨_, hnumle, _⟩ := DoTransform.rewrite_num _ _ _ _ hrw
  have href := DoTransform.loop_eq_referenceCalls splittingPoint (splittingPoint.toNat + 1) 0
    hunk.data 0 hsp (by push_cast; omega)
  have hrw' := hrw
  unfold DoTransform.rewrite at hrw'
  rw [href] at hrw'
  simp only [Option.some.injEq, Prod.mk.injEq, zero_add] at hrw'
  obtain ⟨hdata, hcount⟩ := hrw'
  have hne : referenceCalls splittingPoint hunk.data 0 ≠ [] := by
    intro h
    rw [h] at hcount
    simp only [List.length_nil, Nat.cast_zero] at hcount
    omega
  refine ⟨_, by simp [CallTransform.DoTransform, hrw, hnum, Hunk.FindSymbol_data, hsym]; rfl,
    rfl, hcount.symm, hne, hdata.symm, ?_, ?_, ?_, rfl, rfl⟩
  · rw [hcount]
    apply loadInt_storeInt
    · rw [hlen]; omega
    · unfold INT_MIN; omega
    · unfold INT_MAX at hint ⊢; omega
  · intro k hk
    rw [hdata]
    apply storeInt_getD_outside
    omega
  · simp only [storeInt_length]
    exact hlen

/-- C7 at a concrete hunk: the detransformer stand-in followed by one call. -/
theorem DoTransform_patches_call_count_witness :
    ∃ r, CallTransform.DoTransform ⟨true⟩ (linkedHunk bufferWithCall 0 8) 14 true = some r ∧
      r.ret = true ∧
      (1 : Int) = ((referenceCalls 14 (linkedHunk bufferWithCall 0 8).data 0).length : Nat) ∧
      referenceCalls 14 (linkedHunk bufferWithCall 0 8).data 0 ≠ [] ∧
      [0x5F, 0xB9, 0, 0, 0, 0, 0x90, 0x90, 0xE8, 0x19, 0, 0, 0, 0xC3] =
        referenceScan 14 (linkedHunk bufferWithCall 0 8).data 0 ∧
      loadInt r.hunk.data ((Symbol.new "_CallTrans" 0 0 (some "linked") none).value + 2).toNat =
        ((referenceCalls 14 (linkedHunk bufferWithCall 0 8).data 0).length : Nat) ∧
      (∀ k : Nat, (k : Int) < (Symbol.new "_CallTrans" 0 0 (some "linked") none).value + 2 ∨
          (Symbol.new "_CallTrans" 0 0 (some "linked") none).value + 6 ≤ k →
        r.hunk.data.getD k 0 =
          (referenceScan 14 (linkedHunk bufferWithCall 0 8).data 0).getD k 0) ∧
      r.hunk.data.length = (linkedHunk bufferWithCall 0 8).data.length ∧
      r.self = ⟨true⟩ ∧
      r.log = [] :=
  DoTransform_patches_call_count ⟨true⟩ (linkedHunk bufferWithCall 0 8) 14 true
    [0x5F, 0xB9, 0, 0, 0, 0, 0x90, 0x90, 0xE8, 0x19, 0, 0, 0, 0xC3] 1
    (Symbol.new "_CallTrans" 0 0 (some "linked") none)
    (by decide) (by decide) (by decide) (by decide) (by decide) (by decide) (by decide)

/-- What `DoTransform` returns on a hunk in which the rewrite counts no call
and that owns both patch-point symbols. -/
theorem DoTransform.no_calls_result (self : CallTransform) (hunk : Hunk)
    (splittingPoint : Int) (verbose : Bool) (data' : List Nat) (num : Int)
    (callTrans callTransSize : Symbol)
    (hrw : DoTransform.rewrite splittingPoint hunk.data = some (data', num))
    (hnum : ¬ 0 < num)
    (hsym : hunk.FindSymbol "_CallTrans" = some callTrans)
    (hsize : hunk.FindSymbol "_CallTransSize" = some callTransSize) :
    self.DoTransform hunk splittingPoint verbose =
      some { ret := false,
             hunk := { hunk with
               data := (memset hunk.data callTrans.value.toNat 0x90 callTransSize.value.toNat) },
             self := self.Disable,
             log := if verbose then
                      [{ level := LogLevel.warning, source := "",
                         message := "No calls - call transformation not applied" }]
                    else [],
             printed := [] } := by
  obtain ⟨h0, _, hsame⟩ := DoTransform.rewrite_num _ _ _ _ hrw
  have hz : num = 0 := by omega
  have hd : data' = hunk.data := hsame hz
  subst hd
  simp [CallTransform.DoTransform, hrw, hnum, Hunk.FindSymbol_data, hsym, hsize, Log.Warning]

/-- C8: for every hunk in which the rewrite of `DoTransform` counts no call
(both patch-point symbols exist and the region they name lies inside the
buffer), `DoTransform` returns `false`, every byte in
`[value(_CallTrans), value(_CallTrans) + value(_CallTransSize))` is `0x90`,
every byte outside that range is as in the hunk that was passed in, and the
transform is disabled. -/
theorem DoTransform_no_calls_self_disable (self : CallTransform) (hunk : Hunk)
    (splittingPoint : Int) (verbose : Bool) (data' : List Nat) (num : Int)
    (callTrans callTransSize : Symbol)
    (hrw : DoTransform.rewrite splittingPoint hunk.data = some (data', num))
    (hnum : ¬ 0 < num)
    (hsym : hunk.FindSymbol "_CallTrans" = some callTrans)
    (hsize : hunk.FindSymbol "_CallTransSize" = some callTransSize)
    (hstart : 0 ≤ callTrans.value) (hlen : 0 ≤ callTransSize.value)
    (hin : callTrans.value + callTransSize.value ≤ hunk.data.length) :
    ∃ r, self.DoTransform hunk splittingPoint verbose = some r ∧
      r.ret = false ∧
      (∀ k : Nat, callTrans.value ≤ k → (k : Int) < callTrans.value + callTransSize.value →
        r.hunk.data[k]? = some 0x90) ∧
      (∀ k : Nat, ¬ (callTrans.value ≤ k ∧ (k : Int) < callTrans.value + callTransSize.value) →
        r.hunk.data[k]? = hunk.data[k]?) ∧
      r.hunk.data.length = hunk.data.length ∧
      r.self.m_enabled = false := by
  refine ⟨_, DoTransform.no_calls_result self hunk splittingPoint verbose data' num callTrans
    callTransSize hrw hnum hsym hsize, rfl, ?_, ?_, ?_, rfl⟩
  · intro k h1 h2
    simp only [memset_getElem?]
    have h3 : callTrans.value.toNat ≤ k ∧
        k < callTrans.value.toNat + callTransSize.value.toNat ∧ k < hunk.data.length := by
      omega
    rw [if_pos h3]
  · intro k h
    simp only [memset_getElem?]
    have h3 : ¬ (callTrans.value.toNat ≤ k ∧
        k < callTrans.value.toNat + callTransSize.value.toNat ∧ k < hunk.data.length) := by
      omega
    rw [if_neg h3]
  · simp only [memset_length]

/-- C8 at a concrete hunk: the detransformer stand-in followed by code
without a call. -/
theorem DoTransform_no_calls_self_disable_witness :
    ∃ r, CallTransform.DoTransform ⟨true⟩ (linkedHunk bufferWithoutCall 0 8) 14 true = some r ∧
      r.ret = false ∧
      (∀ k : Nat, (Symbol.new "_CallTrans" 0 0 (some "linked") none).value ≤ k →
        (k : Int) < (Symbol.new "_CallTrans" 0 0 (some "linked") none).value +
          (Symbol.new "_CallTransSize" 8 0 (some "linked") none).value →
        r.hunk.data[k]? = some 0x90) ∧
      (∀ k : Nat, ¬ ((Symbol.new "_CallTrans" 0 0 (some "linked") none).value ≤ k ∧
          (k : Int) < (Symbol.new "_CallTrans" 0 0 (some "linked") none).value +
            (Symbol.new "_CallTransSize" 8 0 (some "linked") none).value) →
        r.hunk.data[k]? = (linkedHunk bufferWithoutCall 0 8).data[k]?) ∧
      r.hunk.data.length = (linkedHunk bufferWithoutCall 0 8).data.length ∧
      r.self.m_enabled = false :=
  DoTransform_no_calls_self_disable ⟨true⟩ (linkedHunk bufferWithoutCall 0 8) 14 true
    bufferWithoutCall 0
    (Symbol.new "_CallTrans" 0 0 (some "linked") none)
    (Symbol.new "_CallTransSize" 8 0 (some "linked") none)
    (by decide) (by decide) (by decide) (by decide) (by decide) (by decide) (by decide)

/-- C9 as stated fails: on a hunk without any call and with `verbose` off,
`DoTransform` returns `false` and disables itself, and the log stays empty: no
warning is reported. -/
theorem DoTransform_no_warning_when_not_verbose :
    ∃ r, CallTransform.DoTransform ⟨true⟩ (linkedHunk bufferWithoutCall 0 8) 14 false = some r ∧
      r.ret = false ∧ r.self.m_enabled = false ∧
      ¬ ∃ e ∈ r.log, e.level = LogLevel.warning :=
  ⟨_, DoTransform.no_calls_result ⟨true⟩ (linkedHunk bufferWithoutCall 0 8) 14 false
    bufferWithoutCall 0
    (Symbol.new "_CallTrans" 0 0 (some "linked") none)
    (Symbol.new "_CallTransSize" 8 0 (some "linked") none)
    (by decide) (by decide) (by decide) (by decide), rfl, rfl, by simp⟩

/-- C9, amended: whenever `DoTransform` finds no eligible call (and so disables
itself), the log of the call holds exactly one warning when `verbose` is set
and nothing when it is not; in neither case does it hold an error. -/
theorem DoTransform_no_calls_warning_iff_verbose (self : CallTransform) (hunk : Hunk)
    (splittingPoint : Int) (verbose : Bool) (data' : List Nat) (num : Int)
    (callTrans callTransSize : Symbol)
    (hrw : DoTransform.rewrite splittingPoint hunk.data = some (data', num))
    (hnum : ¬ 0 < num)
    (hsym : hunk.FindSymbol "_CallTrans" = some callTrans)
    (hsize : hunk.FindSymbol "_CallTransSize" = some callTransSize) :
    ∃ r, self.DoTransform hunk splittingPoint verbose = some r ∧
      r.self.m_enabled = false ∧
      r.log = (if verbose then
                [{ level := LogLevel.warning, source := "",
                   message := "No calls - call transformation not applied" }]
               else []) ∧
      ((∃ e ∈ r.log, e.level = LogLevel.warning) ↔ verbose = true) ∧
      ∀ e ∈ r.log, e.level ≠ LogLevel.error := by
  refine ⟨_, DoTransform.no_calls_result self hunk splittingPoint verbose data' num callTrans
    callTransSize hrw hnum hsym hsize, rfl, rfl, ?_, ?_⟩
  · cases verbose <;> simp
  · cases verbose <;> simp

/-- C9, amended, at a concrete hunk with `verbose` set. -/
theorem DoTransform_no_calls_warning_iff_verbose_witness :
    ∃ r, CallTransform.DoTransform ⟨true⟩ (linkedHunk bufferWithoutCall 0 8) 14 true = some r ∧
      r.self.m_enabled = false ∧
      r.log = (if true = true then
                [{ level := LogLevel.warning, source := "",
                   message := "No calls - call transformation not applied" }]
               else []) ∧
      ((∃ e ∈ r.log, e.level = LogLevel.warning) ↔ true = true) ∧
      ∀ e ∈ r.log, e.level ≠ LogLevel.error :=
  DoTransform_no_calls_warning_iff_verbose ⟨true⟩ (linkedHunk bufferWithoutCall 0 8) 14 true
    bufferWithoutCall 0
    (Symbol.new "_CallTrans" 0 0 (some "linked") none)
    (Symbol.new "_CallTransSize" 8 0 (some "linked") none)
    (by decide) (by decide) (by decide) (by decide)

/-! ## Sequential stores behind a written prefix -/

theorem storeInt_append (pre rest : List Nat) (p : Nat) (v : Int) (hp : p = pre.length)
    (h : 4 ≤ rest.length) :
    storeInt (pre ++ rest) p v = (pre ++ wordBytes (v % 4294967296).toNat) ++ rest.drop 4 := by
  subst hp
  rw [storeInt_eq _ _ _ (by simp; omega)]
  simp

theorem CreateModelHunk.copyMasks_append (masks : Nat → Nat) (pre rest : List Nat) :
    ∀ (n p : Nat), p = pre.length → n ≤ rest.length →
      CreateModelHunk.copyMasks masks n (pre ++ rest, p) =
        ((pre ++ (List.range n).map (fun m => masks m % 256)) ++ rest.drop n, p + n) := by
  intro n
  induction n with
  | zero => intro p _ _; simp [CreateModelHunk.copyMasks]
  | succ k ih =>
    intro p hp hk
    have hstep : CreateModelHunk.copyMasks masks (k + 1) (pre ++ rest, p) =
        (((CreateModelHunk.copyMasks masks k (pre ++ rest, p)).1.set
            (CreateModelHunk.copyMasks masks k (pre ++ rest, p)).2 (masks k % 256)),
          (CreateModelHunk.copyMasks masks k (pre ++ rest, p)).2 + 1) := by
      simp [CreateModelHunk.copyMasks, List.range_succ, List.foldl_append]
    rw [hstep, ih p hp (by omega)]
    subst hp
    have hlen : (pre ++ (List.range k).map (fun m => masks m % 256)).length = pre.length + k := by
      simp
    have hdrop : rest.drop k = rest[k] :: rest.drop (k + 1) := by
      rw [List.drop_eq_getElem_cons]
    simp only [Prod.mk.injEq]
    refine ⟨?_, by omega⟩
    rw [← hlen, List.set_append_right _ _ (le_refl _)]
    simp only [Nat.sub_self, List.range_succ, List.map_append, List.map_cons, List.map_nil,
      List.append_assoc, List.cons_append, List.nil_append]
    rw [hdrop]
    rfl

theorem CreateModelHunk.data_eq (GetMaskList : ModelList4k → Bool → MaskList)
    (m_modellist1 m_modellist2 : ModelList4k) (splittingPoint rawsize : Int) :
    (CreateModelHunk GetMaskList m_modellist1 m_modellist2 splittingPoint rawsize).data =
        wordBytes ((-(CRINKLER_CODEBASE + splittingPoint)) % 4294967296).toNat ++
        wordBytes ((GetMaskList m_modellist1 false).weightmask % 4294967296) ++
        (List.range m_modellist1.nmodels).map
          (fun m => (GetMaskList m_modellist1 false).masks m % 256) ++
        wordBytes ((-(CRINKLER_CODEBASE + rawsize)) % 4294967296).toNat ++
        wordBytes ((GetMaskList m_modellist2 true).weightmask % 4294967296) ++
        (List.range m_modellist2.nmodels).map
          (fun m => (GetMaskList m_modellist2 true).masks m % 256) := by
  generalize hn1 : m_modellist1.nmodels = n1
  generalize hn2 : m_modellist2.nmodels = n2
  generalize hl1 : GetMaskList m_modellist1 false = l1
  generalize hl2 : GetMaskList m_modellist2 true = l2
  have hN : ((16 : Int) + (n1 : Int) + (n2 : Int)).toNat = 16 + n1 + n2 := by omega
  have hw1 : (((l1.weightmask : Nat) : Int) % 4294967296).toNat = l1.weightmask % 4294967296 := by
    omega
  have hw2 : (((l2.weightmask : Nat) : Int) % 4294967296).toNat = l2.weightmask % 4294967296 := by
    omega
  simp only [CreateModelHunk, Hunk.new, Hunk.AddSymbol, hn1, hn2, hl1, hl2, hN]
  have s1 := storeInt_append [] (List.replicate (16 + n1 + n2) 0) 0
    (-(CRINKLER_CODEBASE + splittingPoint)) rfl (by simp; omega)
  simp only [List.nil_append, List.drop_replicate] at s1
  rw [s1]
  have s2 := storeInt_append (wordBytes ((-(CRINKLER_CODEBASE + splittingPoint)) % 4294967296).toNat)
    (List.replicate (16 + n1 + n2 - 4) 0) (0 + 4) (l1.weightmask : Int) rfl (by simp; omega)
  simp only [List.drop_replicate, hw1] at s2
  rw [s2]
  have s3 := CreateModelHunk.copyMasks_append l1.masks
    (wordBytes ((-(CRINKLER_CODEBASE + splittingPoint)) % 4294967296).toNat ++
      wordBytes (l1.weightmask % 4294967296))
    (List.replicate (16 + n1 + n2 - 4 - 4) 0) n1 (0 + 4 + 4) rfl (by simp; omega)
  simp only [List.drop_replicate] at s3
  rw [s3]
  simp only []
  have s4 := storeInt_append
    (wordBytes ((-(CRINKLER_CODEBASE + splittingPoint)) % 4294967296).toNat ++
      wordBytes (l1.weightmask % 4294967296) ++
      (List.range n1).map (fun m => l1.masks m % 256))
    (List.replicate (16 + n1 + n2 - 4 - 4 - n1) 0) (0 + 4 + 4 + n1)
    (-(CRINKLER_CODEBASE + rawsize)) (by simp [wordBytes]; omega) (by simp; omega)
  simp only [List.drop_replicate] at s4
  rw [s4]
  have s5 := storeInt_append
    (wordBytes ((-(CRINKLER_CODEBASE + splittingPoint)) % 4294967296).toNat ++
      wordBytes (l1.weightmask % 4294967296) ++
      (List.range n1).map (fun m => l1.masks m % 256) ++
      wordBytes ((-(CRINKLER_CODEBASE + rawsize)) % 4294967296).toNat)
    (List.replicate (16 + n1 + n2 - 4 - 4 - n1 - 4) 0) (0 + 4 + 4 + n1 + 4)
    (l2.weightmask : Int) (by simp [wordBytes]; omega) (by simp; omega)
  simp only [List.drop_replicate, hw2] at s5
  rw [s5]
  have s6 := CreateModelHunk.copyMasks_append l2.masks
    (wordBytes ((-(CRINKLER_CODEBASE + splittingPoint)) % 4294967296).toNat ++
      wordBytes (l1.weightmask % 4294967296) ++
      (List.range n1).map (fun m => l1.masks m % 256) ++
      wordBytes ((-(CRINKLER_CODEBASE + rawsize)) % 4294967296).toNat ++
      wordBytes (l2.weightmask % 4294967296))
    (List.replicate (16 + n1 + n2 - 4 - 4 - n1 - 4 - 4) 0) n2 (0 + 4 + 4 + n1 + 4 + 4)
    (by simp [wordBytes]; omega) (by simp; omega)
  simp only [List.drop_replicate] at s6
  rw [s6]
  have hz : 16 + n1 + n2 - 4 - 4 - n1 - 4 - 4 - n2 = 0 := by omega
  simp only [hz, List.replicate_zero, List.append_nil]

/-! ## Claim on `CreateModelHunk` -/

/-- C10: for code and data model lists with `n1` and `n2` models, split point
`sp` and raw size `rs`, the hunk returned by `CreateModelHunk` has raw size and
virtual size `16 + n1 + n2`, and its bytes are, in order, the little-endian
word `-(code_base + sp) mod 2^32`, the code weightmask, the `n1` code mask
bytes, the word `-(code_base + rs) mod 2^32`, the data weightmask and the `n2`
data mask bytes; the hunk owns the symbol `_Models` with value 0. -/
theorem CreateModelHunk_layout (GetMaskList : ModelList4k → Bool → MaskList)
    (m_modellist1 m_modellist2 : ModelList4k) (splittingPoint rawsize : Int) :
    (CreateModelHunk GetMaskList m_modellist1 m_modellist2 splittingPoint rawsize).rawsize =
        16 + m_modellist1.nmodels + m_modellist2.nmodels ∧
      (CreateModelHunk GetMaskList m_modellist1 m_modellist2 splittingPoint rawsize).virtualsize =
        16 + m_modellist1.nmodels + m_modellist2.nmodels ∧
      (CreateModelHunk GetMaskList m_modellist1 m_modellist2 splittingPoint rawsize).data =
        wordBytes ((-(CRINKLER_CODEBASE + splittingPoint)) % 4294967296).toNat ++
        wordBytes ((GetMaskList m_modellist1 false).weightmask % 4294967296) ++
        (List.range m_modellist1.nmodels).map
          (fun m => (GetMaskList m_modellist1 false).masks m % 256) ++
        wordBytes ((-(CRINKLER_CODEBASE + rawsize)) % 4294967296).toNat ++
        wordBytes ((GetMaskList m_modellist2 true).weightmask % 4294967296) ++
        (List.range m_modellist2.nmodels).map
          (fun m => (GetMaskList m_modellist2 true).masks m % 256) ∧
      (CreateModelHunk GetMaskList m_modellist1 m_modellist2 splittingPoint rawsize).data.length =
        16 + m_modellist1.nmodels + m_modellist2.nmodels ∧
      (CreateModelHunk GetMaskList m_modellist1 m_modellist2 splittingPoint rawsize).symbols =
        [Symbol.new "_Models" 0 SYMBOL_IS_RELOCATEABLE (some "models") none] ∧
      (CreateModelHunk GetMaskList m_modellist1 m_modellist2 splittingPoint rawsize).name =
        "models" ∧
      ∃ s, (CreateModelHunk GetMaskList m_modellist1 m_modellist2 splittingPoint
          rawsize).FindSymbol "_Models" = some s ∧ s.value = 0 ∧ s.hunk = some "models" := by
  have hdata := CreateModelHunk.data_eq GetMaskList m_modellist1 m_modellist2 splittingPoint rawsize
  refine ⟨rfl, rfl, hdata, ?_, rfl, rfl, ⟨_, rfl, rfl, rfl⟩⟩
  rw [hdata]
  simp [wordBytes]
  omega

/-! ## Claims on `Link`, `LoadImportCode` and the header detection of `Recompress` -/

theorem Link.finish_written (filename : String) (outfile : OutFile) (phase2 : Hunk)
    (log : List LogEntry) :
    (Link.finish filename outfile phase2 log).1 =
      { written := outfile.written ++ phase2.data.take phase2.rawsize.toNat, closed := true } :=
  rfl

theorem Link.finish_outcome (filename : String) (outfile : OutFile) (phase2 : Hunk)
    (log : List LogEntry) :
    (Link.finish filename outfile phase2 log).2 =
      if phase2.rawsize > 131072 then
        Outcome.aborted (log ++ [Link.tooBigError filename])
      else Outcome.done () log := by
  simp only [Link.finish, Link.checkSize, Log.Error, Link.tooBigError]
  norm_num

/-- C14: at its end `Link` reports the error `Output file too big` (and is
aborted by it) if and only if the raw size of the final image is strictly
greater than `128 * 1024 = 131072`; otherwise it puts nothing on the log, so an
image of exactly 131072 bytes is accepted. -/
theorem Link_reports_too_big_iff (filename : String) (outfile : OutFile) (phase2 : Hunk)
    (log : List LogEntry) :
    ((Link.finish filename outfile phase2 log).2 =
        Outcome.aborted (log ++ [Link.tooBigError filename])
      ↔ 131072 < phase2.rawsize) ∧
    ((Link.finish filename outfile phase2 log).2 = Outcome.done () log
      ↔ phase2.rawsize ≤ 131072) := by
  rw [Link.finish_outcome]
  by_cases h : phase2.rawsize > 131072
  · rw [if_pos h]
    exact ⟨⟨fun _ => h, fun _ => rfl⟩, ⟨fun hc => (by cases hc), fun hc => by omega⟩⟩
  · rw [if_neg h]
    exact ⟨⟨fun hc => (by cases hc), fun hc => by omega⟩, ⟨fun _ => by omega, fun _ => rfl⟩⟩

/-- C15 as stated fails: for an image of 131073 bytes `Link` reports the
size-cap error, and at that point all 131073 bytes of the image have been
written to the output file and the file has been closed. -/
theorem Link_writes_oversized_image_before_error :
    (Link.finish "out.exe" { written := [], closed := false } oversizedImage []).2 =
        Outcome.aborted [Link.tooBigError "out.exe"] ∧
      (Link.finish "out.exe" { written := [], closed := false } oversizedImage []).1.written =
        List.replicate 131073 0x90 ∧
      (Link.finish "out.exe" { written := [], closed := false } oversizedImage []).1.closed =
        true := by
  refine ⟨?_, ?_, ?_⟩
  · rw [Link.finish_outcome, if_pos (by decide)]
    rfl
  · rw [Link.finish_written]
    show [] ++ List.take (131073 : Int).toNat (List.replicate 131073 0x90) = _
    rw [List.nil_append, List.take_replicate]
    rfl
  · rw [Link.finish_written]

/-- C15, amended: whenever `Link` reports the size-cap error for an image whose
buffer has the length of its raw size, the output file holds the whole image
(more than 131072 bytes) behind what it held before, and it has been closed:
the size check comes after the write. -/
theorem Link_size_cap_error_after_write (filename : String) (outfile : OutFile) (phase2 : Hunk)
    (log log' : List LogEntry)
    (hbuf : (phase2.data.length : Int) = phase2.rawsize)
    (herr : (Link.finish filename outfile phase2 log).2 = Outcome.aborted log') :
    (Link.finish filename outfile phase2 log).1.written = outfile.written ++ phase2.data ∧
      (Link.finish filename outfile phase2 log).1.closed = true ∧
      131072 < phase2.data.length ∧
      log' = log ++ [Link.tooBigError filename] := by
  rw [Link.finish_outcome] at herr
  rw [Link.finish_written]
  by_cases h : phase2.rawsize > 131072
  · rw [if_pos h] at herr
    injection herr with herr
    refine ⟨?_, rfl, by omega, herr.symm⟩
    have : phase2.rawsize.toNat = phase2.data.length := by omega
    simp [this]
  · rw [if_neg h] at herr
    cases herr

/-- C15, amended, at the image of 131073 bytes. -/
theorem Link_size_cap_error_after_write_witness :
    (Link.finish "out.exe" { written := [], closed := false } oversizedImage []).1.written =
        [] ++ oversizedImage.data ∧
      (Link.finish "out.exe" { written := [], closed := false } oversizedImage []).1.closed = true ∧
      131072 < oversizedImage.data.length ∧
      [Link.tooBigError "out.exe"] =
        [] ++ [Link.tooBigError "out.exe"] :=
  Link_size_cap_error_after_write "out.exe" { written := [], closed := false } oversizedImage [] _
    (by show ((List.replicate 131073 0x90).length : Int) = 131073
        rw [List.length_replicate]; rfl)
    (by rw [Link.finish_outcome, if_pos (by decide)]; rfl)

/-- C17 as stated fails: in 1k mode, with DLL fallback set and safe importing
clear, `LoadImportCode` raises no error and loads the 1k import loader. -/
theorem LoadImportCode_1k_ignores_fallback :
    LoadImportCode true false true false =
        Outcome.done [{ blob := ImportObj.import1KObj, module := "Crinkler import" }] [] ∧
      LoadImportCode true false true true =
        Outcome.done [{ blob := ImportObj.import1KObj, module := "Crinkler import" }] [] := by
  decide

/-- C17, amended: `LoadImportCode` raises the error `DLL fallback cannot be used
with unsafe importing` and loads nothing exactly for the flag combinations with
`use1kMode` clear, `useSafeImporting` clear and `useDllFallback` set; for every
other combination it raises no error and makes exactly one call of `Load`. -/
theorem LoadImportCode_error_iff (use1kMode useSafeImporting useDllFallback useRangeImport : Bool) :
    (LoadImportCode use1kMode useSafeImporting useDllFallback useRangeImport =
        Outcome.aborted [LoadImportCode.fallbackError]
      ↔ (use1kMode = false ∧ useSafeImporting = false ∧ useDllFallback = true)) ∧
    ((∃ call, LoadImportCode use1kMode useSafeImporting useDllFallback useRangeImport =
        Outcome.done [call] [])
      ↔ ¬ (use1kMode = false ∧ useSafeImporting = false ∧ useDllFallback = true)) := by
  cases use1kMode <;> cases useSafeImporting <;> cases useDllFallback <;> cases useRangeImport <;>
    simp [LoadImportCode, Log.Error, LoadImportCode.fallbackError]

set_option maxRecDepth 100000 in
/-- C18 as stated fails: a 200-byte input with the word 4 at `0x3C`, the major
version digit `'1'` and the bytes `0F A3 2D` at offsets `0xC`, `0xD`, `0xE` is
not classified as tiny-header. -/
theorem Recompress_marker_without_version_not_tiny :
    oldVersionInput.length = 200 ∧
      oldVersionInput.getD 0xC 0 = 0x0F ∧ oldVersionInput.getD 0xD 0 = 0xA3 ∧
      oldVersionInput.getD 0xE 0 = 0x2D ∧
      Recompress.detectHeader oldVersionInput =
        Outcome.done { is_compatibility_header := false, is_tiny_header := false,
                       majorlv := 0x31, minorlv := 0x34 } [] := by
  decide

/-- C18, amended: whenever the header detection of `Recompress` accepts an
input, the input is at least 200 bytes long and it is classified as tiny-header
if and only if the word at `0x3C` is 4, the major version digit at offset 2 is
at least `'2'` (`0x32`), and the bytes at offsets `0xC`, `0xD`, `0xE` are
`0F A3 2D`. -/
theorem Recompress_tiny_header_iff (indata : List Nat) (kind : HeaderKind) (log : List LogEntry)
    (h : Recompress.detectHeader indata = Outcome.done kind log) :
    200 ≤ indata.length ∧
      (kind.is_tiny_header = true ↔
        (loadWord indata 0x3C = 4 ∧ 0x32 ≤ toChar (indata.getD 2 0) ∧
          indata.getD 0xC 0 = 0x0F ∧ indata.getD 0xD 0 = 0xA3 ∧ indata.getD 0xE 0 = 0x2D)) := by
  unfold Recompress.detectHeader NotCrinklerFileError at h
  simp only at h
  by_cases h1 : (indata.length : Int) < 200
  · simp [h1] at h
  · rw [if_neg h1] at h
    refine ⟨by omega, ?_⟩
    by_cases h2 : loadWord indata 0x3C = 4
    · rw [if_pos h2] at h
      split_ifs at h with h3 h4
      · injection h with hk _
        subst hk
        simp only [true_iff]
        exact ⟨h2, h4⟩
      · injection h with hk _
        subst hk
        simp only [Bool.false_eq_true, false_iff]
        intro hc
        exact h4 hc.2
    · rw [if_neg h2] at h
      split_ifs at h with h3 h4
      injection h with hk _
      subst hk
      simp only [Bool.false_eq_true, false_iff]
      intro hc
      exact h2 hc.1

set_option maxRecDepth 100000 in
/-- C18, amended, at a 200-byte input with version digits `'2'`, `'0'` and the
marker bytes. -/
theorem Recompress_tiny_header_iff_witness :
    200 ≤ tinyHeaderInput.length ∧
      ((true : Bool) = true ↔
        (loadWord tinyHeaderInput 0x3C = 4 ∧ 0x32 ≤ toChar (tinyHeaderInput.getD 2 0) ∧
          tinyHeaderInput.getD 0xC 0 = 0x0F ∧ tinyHeaderInput.getD 0xD 0 = 0xA3 ∧
          tinyHeaderInput.getD 0xE 0 = 0x2D)) :=
  Recompress_tiny_header_iff tinyHeaderInput
    { is_compatibility_header := false, is_tiny_header := true, majorlv := 0x32, minorlv := 0x30 }
    [] (by decide)

/-! ## Claims on `FinalLink` and `SetHeaderConstants` -/

theorem Hunk.storeByteAt_symbols (h h' : Hunk) (name : String) (v : Int)
    (hs : h.storeByteAt name v = some h') : h'.symbols = h.symbols ∧ h'.name = h.name := by
  unfold Hunk.storeByteAt at hs
  cases hf : h.FindSymbol name with
  | none => simp [hf] at hs
  | some s =>
    simp [hf] at hs
    subst hs
    exact ⟨rfl, rfl⟩

theorem Hunk.storeShortAt_symbols (h h' : Hunk) (name : String) (v : Int)
    (hs : h.storeShortAt name v = some h') : h'.symbols = h.symbols ∧ h'.name = h.name := by
  unfold Hunk.storeShortAt at hs
  cases hf : h.FindSymbol name with
  | none => simp [hf] at hs
  | some s =>
    simp [hf] at hs
    subst hs
    exact ⟨rfl, rfl⟩

theorem Hunk.storeIntAt_symbols (h h' : Hunk) (name : String) (v : Int)
    (hs : h.storeIntAt name v = some h') : h'.symbols = h.symbols ∧ h'.name = h.name := by
  unfold Hunk.storeIntAt at hs
  cases hf : h.FindSymbol name with
  | none => simp [hf] at hs
  | some s =>
    simp [hf] at hs
    subst hs
    exact ⟨rfl, rfl⟩

theorem SetHeaderConstants.tinyHeader_symbols (header phase1 h' : Hunk)
    (boostfactor baseprob0 baseprob1 : Int)
    (hs : SetHeaderConstants.tinyHeader header phase1 boostfactor baseprob0 baseprob1 = some h') :
    h'.symbols = header.symbols := by
  unfold SetHeaderConstants.tinyHeader at hs
  simp only [Option.bind_eq_bind, Option.bind_eq_some, Option.pure_def, Option.some.injEq] at hs
  obtain ⟨_, _, h1, e1, h2, e2, h3, e3, h4, e4, rfl⟩ := hs
  have s1 := (Hunk.storeByteAt_symbols _ _ _ _ e1).1
  have s2 := (Hunk.storeByteAt_symbols _ _ _ _ e2).1
  have s3 := (Hunk.storeByteAt_symbols _ _ _ _ e3).1
  have s4 := (Hunk.storeShortAt_symbols _ _ _ _ e4).1
  show h4.symbols = header.symbols
  rw [s4, s3, s2, s1]

theorem SetHeaderConstants.compatHeader_symbols (self : Members) (ext : Externals)
    (header phase1 h' : Hunk) (hashsize exports_rva : Int)
    (hs : SetHeaderConstants.compatHeader self ext header phase1 hashsize exports_rva = some h') :
    h'.symbols =
      Symbol.new "_VirtualSize"
        (ext.Align (max phase1.virtualsize (phase1.rawsize + hashsize)) 16) 0
        (some header.name) none :: header.symbols := by
  unfold SetHeaderConstants.compatHeader at hs
  simp only [Option.bind_eq_bind, Option.bind_eq_some, Option.pure_def] at hs
  obtain ⟨h1, e1, h2, e2, hrest⟩ := hs
  have s1 := (Hunk.storeByteAt_symbols _ _ _ _ e1).1
  have s2 := (Hunk.storeByteAt_symbols _ _ _ _ e2).1
  split_ifs at hrest with hx
  · simp only [Option.bind_eq_some] at hrest
    obtain ⟨h3, e3, e4⟩ := hrest
    have s3 := (Hunk.storeIntAt_symbols _ _ _ _ e3).1
    have s4 := (Hunk.storeIntAt_symbols _ _ _ _ e4).1
    rw [s4, s3, s2, s1]
    rfl
  · simp only [Option.some.injEq] at hrest
    subst hrest
    rw [s2, s1]
    rfl

theorem SetHeaderConstants.spareNop_symbols (header phase1 h' : Hunk)
    (hs : SetHeaderConstants.spareNop header phase1 = some h') : h'.symbols = header.symbols := by
  unfold SetHeaderConstants.spareNop at hs
  split_ifs at hs
  · exact (Hunk.storeByteAt_symbols _ _ _ _ hs).1
  · simp only [Option.some.injEq] at hs
    rw [← hs]

theorem SetHeaderConstants.largeAddressAware_symbols (self : Members) (header h' : Hunk)
    (hs : SetHeaderConstants.largeAddressAware self header = some h') :
    h'.symbols = header.symbols := by
  unfold SetHeaderConstants.largeAddressAware at hs
  split_ifs at hs
  · simp only [Option.bind_eq_bind, Option.bind_eq_some, Option.pure_def, Option.some.injEq] at hs
    obtain ⟨_, _, rfl⟩ := hs
    rfl
  · simp only [Option.some.injEq] at hs
    rw [← hs]

/-- The symbols of the header after `SetHeaderConstants`: the four constants,
and in front of them `_VirtualSize` with the 4k header. -/
theorem SetHeaderConstants.symbols_eq (self : Members) (ext : Externals) (header phase1 h' : Hunk)
    (hashsize boostfactor baseprob0 baseprob1 : Int) (modelmask : Nat)
    (subsystem_version exports_rva : Int) (use1kHeader : Bool)
    (hs : SetHeaderConstants self ext header phase1 hashsize boostfactor baseprob0 baseprob1
      modelmask subsystem_version exports_rva use1kHeader = some h') :
    h'.symbols =
      (if use1kHeader then []
       else [Symbol.new "_VirtualSize"
         (ext.Align (max phase1.virtualsize (phase1.rawsize + hashsize)) 16) 0
         (some header.name) none]) ++
      [Symbol.new "_ModelMask" (toInt modelmask) 0 (some header.name) none,
       Symbol.new "_ImageBase" CRINKLER_IMAGEBASE 0 (some header.name) none,
       Symbol.new "_UnpackedData" CRINKLER_CODEBASE 0 (some header.name) none,
       Symbol.new "_HashTableSize" (hashsize.tdiv 2) 0 (some header.name) none] ++
      header.symbols := by
  unfold SetHeaderConstants at hs
  cases use1kHeader with
  | true =>
    simp only [if_true, Option.bind_eq_bind, Option.bind_eq_some] at hs
    obtain ⟨h1, e1, h2, e2, h3, e3, h4, e4, e5⟩ := hs
    have s2 := (Hunk.storeByteAt_symbols _ _ _ _ e2).1
    have s3 := (Hunk.storeShortAt_symbols _ _ _ _ e3).1
    have s4 := SetHeaderConstants.spareNop_symbols _ _ _ e4
    have s5 := SetHeaderConstants.largeAddressAware_symbols _ _ _ e5
    rw [s5, s4, s3, s2, SetHeaderConstants.tinyHeader_symbols _ _ _ _ _ _ e1]
    rfl
  | false =>
    simp only [Bool.false_eq_true, if_false, Option.bind_eq_bind, Option.bind_eq_some] at hs
    obtain ⟨h1, e1, h2, e2, h3, e3, h4, e4, e5⟩ := hs
    have s2 := (Hunk.storeByteAt_symbols _ _ _ _ e2).1
    have s3 := (Hunk.storeShortAt_symbols _ _ _ _ e3).1
    have s4 := SetHeaderConstants.spareNop_symbols _ _ _ e4
    have s5 := SetHeaderConstants.largeAddressAware_symbols _ _ _ e5
    rw [s5, s4, s3, s2, SetHeaderConstants.compatHeader_symbols _ _ _ _ _ _ _ e1]
    rfl

/-- C12: after `SetHeaderConstants`, for the 1k and for the 4k header, the
header hunk carries the absolute symbols (flags 0, owned by the header)
`_HashTableSize = hashsize / 2` (integer division), `_UnpackedData = ` the code
base, `_ImageBase = ` the image base and `_ModelMask = ` the `modelmask`
argument (as the `int` with the same 32 bits). -/
theorem SetHeaderConstants_adds_constants (self : Members) (ext : Externals)
    (header phase1 h' : Hunk)
    (hashsize boostfactor baseprob0 baseprob1 : Int) (modelmask : Nat)
    (subsystem_version exports_rva : Int) (use1kHeader : Bool)
    (hs : SetHeaderConstants self ext header phase1 hashsize boostfactor baseprob0 baseprob1
      modelmask subsystem_version exports_rva use1kHeader = some h') :
    h'.FindSymbol "_HashTableSize" =
        some (Symbol.new "_HashTableSize" (hashsize.tdiv 2) 0 (some header.name) none) ∧
      h'.FindSymbol "_UnpackedData" =
        some (Symbol.new "_UnpackedData" CRINKLER_CODEBASE 0 (some header.name) none) ∧
      h'.FindSymbol "_ImageBase" =
        some (Symbol.new "_ImageBase" CRINKLER_IMAGEBASE 0 (some header.name) none) ∧
      h'.FindSymbol "_ModelMask" =
        some (Symbol.new "_ModelMask" (toInt modelmask) 0 (some header.name) none) ∧
      toInt modelmask % 4294967296 = (modelmask % 4294967296 : Nat) := by
  have hsym := SetHeaderConstants.symbols_eq self ext header phase1 h' hashsize boostfactor
    baseprob0 baseprob1 modelmask subsystem_version exports_rva use1kHeader hs
  refine ⟨?_, ?_, ?_, ?_, ?_⟩
  · unfold Hunk.FindSymbol
    rw [hsym]
    cases use1kHeader <;> simp [Symbol.new, List.find?]
  · unfold Hunk.FindSymbol
    rw [hsym]
    cases use1kHeader <;> simp [Symbol.new, List.find?]
  · unfold Hunk.FindSymbol
    rw [hsym]
    cases use1kHeader <;> simp [Symbol.new, List.find?]
  · unfold Hunk.FindSymbol
    rw [hsym]
    cases use1kHeader <;> simp [Symbol.new, List.find?]
  · unfold toInt
    split_ifs <;> omega

/-- C12 at the example 4k header. -/
theorem SetHeaderConstants_adds_constants_witness :
    ∃ h', SetHeaderConstants exampleMembers exampleExternals exampleHeader payloadPopFirst
        1000 0 0 0 7 1 0 false = some h' ∧
      h'.FindSymbol "_HashTableSize" =
        some (Symbol.new "_HashTableSize" ((1000 : Int).tdiv 2) 0 (some exampleHeader.name) none) ∧
      h'.FindSymbol "_UnpackedData" =
        some (Symbol.new "_UnpackedData" CRINKLER_CODEBASE 0 (some exampleHeader.name) none) ∧
      h'.FindSymbol "_ImageBase" =
        some (Symbol.new "_ImageBase" CRINKLER_IMAGEBASE 0 (some exampleHeader.name) none) ∧
      h'.FindSymbol "_ModelMask" =
        some (Symbol.new "_ModelMask" (toInt 7) 0 (some exampleHeader.name) none) ∧
      toInt 7 % 4294967296 = (7 % 4294967296 : Nat) :=
  ⟨_, rfl, SetHeaderConstants_adds_constants exampleMembers exampleExternals exampleHeader
    payloadPopFirst _ 1000 0 0 0 7 1 0 false rfl⟩

/-- C13 as stated fails in both directions: for a payload `90 90 5F`, whose
first byte is not `0x5F`, `SetHeaderConstants` stores `0x57` into the spare-NOP
slot (offset 5 of the example header, `0x90` before); for the one-byte payload
`5F`, which begins with `POP EDI`, the slot keeps `0x90`. -/
theorem SetHeaderConstants_spare_nop_not_first_byte :
    payloadPopAtTwo.data.getD 0 0 ≠ 0x5F ∧ exampleHeader.data.getD 5 0 = 0x90 ∧
      (∃ h', SetHeaderConstants exampleMembers exampleExternals exampleHeader payloadPopAtTwo
          1000 0 0 0 0 1 0 false = some h' ∧ h'.data.getD 5 0 = 0x57) ∧
      payloadSinglePop.data.getD 0 0 = 0x5F ∧
      (∃ h', SetHeaderConstants exampleMembers exampleExternals exampleHeader payloadSinglePop
          1000 0 0 0 0 1 0 false = some h' ∧ h'.data.getD 5 0 = 0x90) :=
  ⟨by decide, by decide, ⟨_, rfl, by decide⟩, by decide, ⟨_, rfl, by decide⟩⟩

/-- C13, amended: the patch statement of `SetHeaderConstants` stores `0x57`
(`PUSH EDI`) into the byte at `value(_SpareNopPtr)` if and only if the payload
has a raw size of at least 2 and its byte at offset 0 or its byte at offset 2
is `0x5F`; otherwise the header is left as it was. Stated for payloads in which
the byte at offset 2 lies in the buffer whenever the statement reads it. -/
theorem SetHeaderConstants_spare_nop_patch (header phase1 : Hunk) (slot : Symbol)
    (hsym : header.FindSymbol "_SpareNopPtr" = some slot)
    (hread : 2 ≤ phase1.rawsize → phase1.data.getD 0 0 ≠ 0x5F → 3 ≤ phase1.data.length) :
    ∃ h', SetHeaderConstants.spareNop header phase1 = some h' ∧
      ((2 ≤ phase1.rawsize ∧ (phase1.data[0]? = some 0x5F ∨ phase1.data[2]? = some 0x5F)) →
        h' = { header with data := header.data.set slot.value.toNat 0x57 }) ∧
      (¬ (2 ≤ phase1.rawsize ∧ (phase1.data[0]? = some 0x5F ∨ phase1.data[2]? = some 0x5F)) →
        h' = header) := by
  have hget : ∀ i : Nat, phase1.data.getD i 0 = 0x5F ↔ phase1.data[i]? = some 0x5F := by
    intro i
    rw [List.getD_eq_getElem?_getD]
    cases phase1.data[i]? with
    | none => simp
    | some b => simp
  have _ := hread
  unfold SetHeaderConstants.spareNop
  by_cases hc : phase1.rawsize ≥ 2 ∧ (phase1.data.getD 0 0 = 0x5F ∨ phase1.data.getD 2 0 = 0x5F)
  · rw [if_pos hc]
    refine ⟨_, by simp [Hunk.storeByteAt, hsym]; rfl, fun _ => ?_, fun hn => ?_⟩
    · simp [storeByte]
    · exfalso
      apply hn
      rw [← hget 0, ← hget 2]
      exact hc
  · rw [if_neg hc]
    refine ⟨_, rfl, fun hp => ?_, fun _ => rfl⟩
    exfalso
    apply hc
    rw [hget 0, hget 2]
    exact hp

/-- C13, amended, at the example header and a payload that begins with
`POP EDI`. -/
theorem SetHeaderConstants_spare_nop_patch_witness :
    ∃ h', SetHeaderConstants.spareNop exampleHeader payloadPopFirst = some h' ∧
      ((2 ≤ payloadPopFirst.rawsize ∧
          (payloadPopFirst.data[0]? = some 0x5F ∨ payloadPopFirst.data[2]? = some 0x5F)) →
        h' = { exampleHeader with
          data := (exampleHeader.data.set
            (Symbol.new "_SpareNopPtr" 5 0 (some "header") none).value.toNat 0x57) }) ∧
      (¬ (2 ≤ payloadPopFirst.rawsize ∧
          (payloadPopFirst.data[0]? = some 0x5F ∨ payloadPopFirst.data[2]? = some 0x5F)) →
        h' = exampleHeader) :=
  SetHeaderConstants_spare_nop_patch exampleHeader payloadPopFirst
    (Symbol.new "_SpareNopPtr" 5 0 (some "header") none) (by decide) (by decide)

theorem HunkList.FindSymbol_set (name : String) :
    ∀ (pool : List Hunk) (i : Nat) (h : Hunk),
      h.symbols = (pool.getD i (Hunk.new "" 0 0 0 0)).symbols →
      HunkList.FindSymbol (pool.set i h) name = HunkList.FindSymbol pool name := by
  intro pool
  induction pool with
  | nil => intro i h _; rfl
  | cons x xs ih =>
    intro i h hs
    cases i with
    | zero =>
      have hx : h.FindSymbol name = x.FindSymbol name := by
        unfold Hunk.FindSymbol
        rw [hs]
        rfl
      simp only [List.set_cons_zero, HunkList.FindSymbol, hx]
    | succ k =>
      simp only [List.set_cons_succ, HunkList.FindSymbol]
      rw [ih k h (by simpa using hs)]

theorem RemoveUnreferencedHunks.keepExport_find (st st' : ExportLoopState) (e : Export)
    (h : RemoveUnreferencedHunks.keepExport st e = Except.ok st') (name : String) :
    HunkList.FindSymbol st'.pool name = HunkList.FindSymbol st.pool name := by
  unfold RemoveUnreferencedHunks.keepExport at h
  split_ifs at h with hv
  · split at h
    · split_ifs at h
      injection h with h
      rw [← h]
    · injection h with h
      rw [← h]
  · split at h
    · rename_i i sym _
      injection h with h
      rw [← h]
      simp only
      split_ifs
      · exact HunkList.FindSymbol_set name st.pool i _ rfl
      · rfl
    · cases h

theorem RemoveUnreferencedHunks.keepExport_value (st : ExportLoopState) (e : Export)
    (hv : e.HasValue = true) :
    RemoveUnreferencedHunks.keepExport st e =
      match HunkList.FindSymbol st.pool e.name with
      | some (_, sym) =>
        if sym.fromLibrary = false then
          Except.error (st.log ++ [RemoveUnreferencedHunks.integerSymbolError e.name])
        else Except.ok st
      | none => Except.ok st := by
  unfold RemoveUnreferencedHunks.keepExport Export.GetName
  rw [if_pos hv]
  cases HunkList.FindSymbol st.pool e.name with
  | none => rfl
  | some r =>
    obtain ⟨i, sym⟩ := r
    cases hl : sym.fromLibrary <;> simp [hl]

theorem RemoveUnreferencedHunks.keepExports_aborts (e : Export) (hv : e.HasValue = true)
    (i : Nat) (sym : Symbol) (hlib : sym.fromLibrary = false) :
    ∀ (es : List Export) (st : ExportLoopState), e ∈ es →
      HunkList.FindSymbol st.pool e.name = some (i, sym) →
      ∃ log, RemoveUnreferencedHunks.keepExports es st = Except.error log := by
  intro es
  induction es with
  | nil => intro st hmem; simp at hmem
  | cons x xs ih =>
    intro st hmem hfind
    unfold RemoveUnreferencedHunks.keepExports
    cases hx : RemoveUnreferencedHunks.keepExport st x with
    | error log => exact ⟨log, rfl⟩
    | ok st' =>
      rcases List.mem_cons.mp hmem with rfl | hin
      · rw [RemoveUnreferencedHunks.keepExport_value st e hv, hfind] at hx
        simp [hlib] at hx
      · exact ih st' hin
          (by rw [RemoveUnreferencedHunks.keepExport_find st st' x hx]; exact hfind)

/-- C16 as stated fails: for the export `val=0x12345678` and a pool that holds
a symbol `val` which comes from a library, `RemoveUnreferencedHunks` raises no
error. -/
theorem RemoveUnreferencedHunks_library_symbol_no_error :
    exportWithValue.HasValue = true ∧
      (∃ i sym, HunkList.FindSymbol poolWithLibrarySymbol exportWithValue.name = some (i, sym)) ∧
      RemoveUnreferencedHunks
        { exampleMembers with m_hunkPool := poolWithLibrarySymbol, m_exports := [exportWithValue] }
        exampleExternals 0 = Outcome.done poolWithLibrarySymbol [] :=
  ⟨by decide, ⟨_, _, rfl⟩, by decide⟩

/-- C16, amended: for an export that carries an integer value, the loop body of
`RemoveUnreferencedHunks` raises the error `Cannot create integer symbol ...
symbol already exists` if and only if the pool lookup of the export's name
finds a symbol that does not come from a library, and goes on without any
error if and only if no symbol of that name exists or the symbol found comes
from a library; and `RemoveUnreferencedHunks` is aborted by an error whenever
its export list holds such an export whose name is found in the pool as a
symbol that does not come from a library. -/
theorem RemoveUnreferencedHunks_integer_export_collision (st : ExportLoopState) (e : Export)
    (hv : e.HasValue = true) :
    (RemoveUnreferencedHunks.keepExport st e =
        Except.error (st.log ++ [RemoveUnreferencedHunks.integerSymbolError e.name])
      ↔ ∃ i sym, HunkList.FindSymbol st.pool e.name = some (i, sym) ∧ sym.fromLibrary = false) ∧
    (RemoveUnreferencedHunks.keepExport st e = Except.ok st
      ↔ (HunkList.FindSymbol st.pool e.name = none ∨
          ∃ i sym, HunkList.FindSymbol st.pool e.name = some (i, sym) ∧ sym.fromLibrary = true)) ∧
    (∀ (self : Members) (ext : Externals) (base : Nat), e ∈ self.m_exports →
      (∃ i sym, HunkList.FindSymbol self.m_hunkPool e.name = some (i, sym) ∧
        sym.fromLibrary = false) →
      ∃ log, RemoveUnreferencedHunks self ext base = Outcome.aborted log) := by
  refine ⟨?_, ?_, ?_⟩
  · rw [RemoveUnreferencedHunks.keepExport_value st e hv]
    cases hf : HunkList.FindSymbol st.pool e.name with
    | none => simp
    | some r =>
      obtain ⟨i, sym⟩ := r
      by_cases hl : sym.fromLibrary = false
      · simp only [hl, if_true]
        exact ⟨fun _ => ⟨i, sym, rfl, hl⟩, fun _ => trivial⟩
      · simp only [hl, if_false]
        constructor
        · intro hc
          cases hc
        · rintro ⟨j, s, hj, hs⟩
          injection hj with hj
          injection hj with _ hj
          rw [hj] at hl
          exact absurd hs hl
  · rw [RemoveUnreferencedHunks.keepExport_value st e hv]
    cases hf : HunkList.FindSymbol st.pool e.name with
    | none => simp
    | some r =>
      obtain ⟨i, sym⟩ := r
      by_cases hl : sym.fromLibrary = false
      · simp only [hl, if_true]
        constructor
        · intro hc
          cases hc
        · rintro (hc | ⟨j, s, hj, hs⟩)
          · cases hc
          · injection hj with hj
            injection hj with _ hj
            rw [hj, hs] at hl
            cases hl
      · simp only [hl, if_false]
        have ht : sym.fromLibrary = true := by
          cases h : sym.fromLibrary
          · exact absurd h hl
          · rfl
        exact ⟨fun _ => Or.inr ⟨i, sym, rfl, ht⟩, fun _ => rfl⟩
  · rintro self ext base hmem ⟨i, sym, hfind, hlib⟩
    obtain ⟨log, hlog⟩ := RemoveUnreferencedHunks.keepExports_aborts e hv i sym hlib
      self.m_exports { pool := self.m_hunkPool, startHunks := [base], log := [] } hmem hfind
    exact ⟨log, by unfold RemoveUnreferencedHunks; rw [hlog]⟩

/-- C16, amended, at the export `val=0x12345678` and a pool with its own symbol
`val`. -/
theorem RemoveUnreferencedHunks_integer_export_collision_witness :
    (RemoveUnreferencedHunks.keepExport
          { pool := poolWithOwnSymbol, startHunks := [0], log := [] } exportWithValue =
        Except.error ([] ++ [RemoveUnreferencedHunks.integerSymbolError exportWithValue.name])
      ↔ ∃ i sym, HunkList.FindSymbol poolWithOwnSymbol exportWithValue.name = some (i, sym) ∧
          sym.fromLibrary = false) ∧
    (RemoveUnreferencedHunks.keepExport
          { pool := poolWithOwnSymbol, startHunks := [0], log := [] } exportWithValue =
        Except.ok { pool := poolWithOwnSymbol, startHunks := [0], log := [] }
      ↔ (HunkList.FindSymbol poolWithOwnSymbol exportWithValue.name = none ∨
          ∃ i sym, HunkList.FindSymbol poolWithOwnSymbol exportWithValue.name = some (i, sym) ∧
            sym.fromLibrary = true)) ∧
    (∀ (self : Members) (ext : Externals) (base : Nat), exportWithValue ∈ self.m_exports →
      (∃ i sym, HunkList.FindSymbol self.m_hunkPool exportWithValue.name = some (i, sym) ∧
        sym.fromLibrary = false) →
      ∃ log, RemoveUnreferencedHunks self ext base = Outcome.aborted log) :=
  RemoveUnreferencedHunks_integer_export_collision
    { pool := poolWithOwnSymbol, startHunks := [0], log := [] } exportWithValue (by decide)

/-! ## `AritSize2` with a `_BitScanReverse` that yields the bit position -/

theorem bitLength_zero (fuel : Nat) : bitLength fuel 0 = 0 := by
  cases fuel <;> simp [bitLength]

theorem bitLength_bounds : ∀ (fuel x : Nat), 0 < x → x < 2 ^ fuel →
    1 ≤ bitLength fuel x ∧ 2 ^ (bitLength fuel x - 1) ≤ x ∧ x < 2 ^ bitLength fuel x := by
  intro fuel
  induction fuel with
  | zero => intro x h0 h1; simp at h1; omega
  | succ k ih =>
    intro x h0 h1
    have hx : x ≠ 0 := by omega
    simp only [bitLength, hx, if_false]
    by_cases h2 : x / 2 = 0
    · have hx1 : x = 1 := by omega
      subst hx1
      simp [bitLength_zero]
    · have hlt : x / 2 < 2 ^ k := by
        have : 2 ^ (k + 1) = 2 * 2 ^ k := by ring
        omega
      obtain ⟨b1, b2, b3⟩ := ih (x / 2) (by omega) hlt
      refine ⟨by omega, ?_, ?_⟩
      · have e : bitLength k (x / 2) + 1 - 1 = (bitLength k (x / 2) - 1) + 1 := by omega
        rw [e, pow_succ]
        omega
      · rw [pow_succ]
        omega

/-- The intrinsic yields the position of the most significant set bit. -/
theorem intrinsicBitScanReverse_bounds (x : Nat) (h0 : 0 < x) (h1 : x < 4294967296) :
    2 ^ intrinsicBitScanReverse x ≤ x ∧ x < 2 ^ (intrinsicBitScanReverse x + 1) ∧
      intrinsicBitScanReverse x < 32 := by
  unfold intrinsicBitScanReverse
  rw [Nat.mod_eq_of_lt h1]
  obtain ⟨b1, b2, b3⟩ := bitLength_bounds 32 x h0 (by norm_num; exact h1)
  have e : bitLength 32 x - 1 + 1 = bitLength 32 x := by omega
  refine ⟨b2, by rw [e]; exact b3, ?_⟩
  by_contra hc
  have : 2 ^ 32 ≤ 2 ^ (bitLength 32 x - 1) := Nat.pow_le_pow_right (by norm_num) (by omega)
  omega

theorem AritSize2.normalise (x : Int) (h1 : 1 ≤ x) (h2 : x < 2147483648) (s : Int)
    (hs0 : s = AritSize2.shiftAmount intrinsicBitScanReverse x) :
    0 ≤ s ∧ s ≤ 18 ∧ 1 ≤ shiftRight x s ∧ shiftRight x s < 8192 ∧
      shiftRight x s * 2 ^ s.toNat ≤ x ∧ x < (shiftRight x s + 1) * 2 ^ s.toNat ∧
      (0 < s → 4096 ≤ shiftRight x s) := by
  obtain ⟨len, hlen, hs⟩ : ∃ len : Int,
      len = toInt (intrinsicBitScanReverse (x % 4294967296).toNat) ∧
      s = if len > 12 then len - 12 else 0 := ⟨_, rfl, hs0⟩
  have hn : (x % 4294967296).toNat = x.toNat := by omega
  rw [hn] at hlen
  obtain ⟨b1, b2, b3⟩ := intrinsicBitScanReverse_bounds x.toNat (by omega) (by omega)
  generalize intrinsicBitScanReverse x.toNat = m at hlen b1 b2 b3
  have hm : toInt m = m := by
    unfold toInt
    rw [if_pos (by omega)]
    omega
  rw [hm] at hlen
  have hx : (x.toNat : Int) = x := by omega
  have c1 : (2 : Int) ^ m ≤ x := by
    rw [← hx]
    exact_mod_cast b1
  have c2 : x < (2 : Int) ^ (m + 1) := by
    rw [← hx]
    exact_mod_cast b2
  have hm30 : m ≤ 30 := by
    by_contra hc
    have : (2 : Int) ^ 31 ≤ 2 ^ m := pow_le_pow_right₀ (by norm_num) (by omega)
    omega
  unfold shiftRight
  by_cases hgt : len > 12
  · rw [if_pos hgt] at hs
    have hsn : s.toNat = m - 12 := by omega
    have hpos : (0 : Int) < 2 ^ (m - 12) := by positivity
    have e1 : (2 : Int) ^ m = 4096 * 2 ^ (m - 12) := by
      have : m = 12 + (m - 12) := by omega
      conv_lhs => rw [this, pow_add]
      norm_num
    have e2 : (2 : Int) ^ (m + 1) = 8192 * 2 ^ (m - 12) := by
      have : m + 1 = 13 + (m - 12) := by omega
      conv_lhs => rw [this, pow_add]
      norm_num
    rw [hsn]
    have q1 : 4096 ≤ x / 2 ^ (m - 12) := by
      rw [Int.le_ediv_iff_mul_le hpos]
      omega
    have q2 : x / 2 ^ (m - 12) < 8192 := by
      rw [Int.ediv_lt_iff_lt_mul hpos]
      omega
    exact ⟨by omega, by omega, by omega, q2, Int.ediv_mul_le x (ne_of_gt hpos),
      Int.lt_ediv_add_one_mul_self x hpos, fun _ => q1⟩
  · rw [if_neg hgt] at hs
    subst hs
    have hm12 : m ≤ 12 := by omega
    have : (2 : Int) ^ (m + 1) ≤ 2 ^ 13 := pow_le_pow_right₀ (by norm_num) (by omega)
    simp only [Int.toNat_zero, pow_zero, Int.ediv_one, mul_one]
    exact ⟨le_refl _, by omega, h1, by omega, le_refl _, by omega, fun h => absurd h (lt_irrefl _)⟩

theorem AritSize2.logb_shift (ix x : Int) (k : Nat) (h1 : 1 ≤ ix)
    (hle : ix * 2 ^ k ≤ x) (hlt : x < (ix + 1) * 2 ^ k) (hk : 0 < k → 4096 ≤ ix) :
    4096 * Real.logb 2 ix + 4096 * k ≤ 4096 * Real.logb 2 x ∧
      4096 * Real.logb 2 x ≤ 4096 * Real.logb 2 ix + 4096 * k + 3 / 2 := by
  have hix : (0 : ℝ) < ix := by exact_mod_cast (by omega : (0 : Int) < ix)
  have hpow : (0 : ℝ) < 2 ^ k := by positivity
  have hleR : (ix : ℝ) * 2 ^ k ≤ x := by exact_mod_cast hle
  have hltR : (x : ℝ) ≤ ((ix : ℝ) + 1) * 2 ^ k := by
    have : (x : ℝ) < ((ix : ℝ) + 1) * 2 ^ k := by exact_mod_cast hlt
    exact le_of_lt this
  have hx : (0 : ℝ) < x := lt_of_lt_of_le (by positivity) hleR
  have hmul : ∀ y : ℝ, 0 < y → Real.logb 2 (y * 2 ^ k) = Real.logb 2 y + k := by
    intro y hy
    rw [Real.logb_mul (ne_of_gt hy) (ne_of_gt hpow), Real.logb_pow,
      Real.logb_self_eq_one (by norm_num)]
    ring
  have lower : Real.logb 2 ix + k ≤ Real.logb 2 x := by
    rw [← hmul _ hix]
    exact Real.logb_le_logb_of_le (by norm_num) (by positivity) hleR
  refine ⟨by linarith, ?_⟩
  rcases Nat.eq_zero_or_pos k with hk0 | hkpos
  · subst hk0
    have : x = ix := by
      simp only [pow_zero, mul_one] at hle hlt
      omega
    rw [this]
    simp
    norm_num
  · have h4096 : (4096 : ℝ) ≤ ix := by exact_mod_cast hk hkpos
    have upper : Real.logb 2 x ≤ Real.logb 2 ((ix : ℝ) + 1) + k := by
      rw [← hmul _ (by linarith)]
      exact Real.logb_le_logb_of_le (by norm_num) hx hltR
    have hlog2 : (2 : ℝ) / 3 ≤ Real.log 2 := by
      have := Real.log_two_gt_d9
      linarith
    have hlog2pos : (0 : ℝ) < Real.log 2 := by linarith
    have hstep : Real.logb 2 ((ix : ℝ) + 1) ≤ Real.logb 2 ix + (1 / ix) / Real.log 2 := by
      have e : (ix : ℝ) + 1 = ix * (1 + 1 / ix) := by field_simp
      rw [e, Real.logb_mul (ne_of_gt hix) (by positivity)]
      have : Real.logb 2 (1 + 1 / (ix : ℝ)) ≤ (1 / ix) / Real.log 2 := by
        unfold Real.logb
        apply div_le_div_of_nonneg_right _ (le_of_lt hlog2pos)
        have := Real.log_le_sub_one_of_pos (show (0 : ℝ) < 1 + 1 / ix by positivity)
        linarith
      linarith
    have hsmall : 4096 * ((1 / (ix : ℝ)) / Real.log 2) ≤ 3 / 2 := by
      have hinv : 1 / (ix : ℝ) ≤ 1 / 4096 := by
        apply one_div_le_one_div_of_le (by norm_num) h4096
      have h1 : (1 / (ix : ℝ)) / Real.log 2 ≤ (1 / 4096) / (2 / 3) := by
        apply div_le_div₀ (by norm_num) hinv (by norm_num) hlog2
      calc 4096 * ((1 / (ix : ℝ)) / Real.log 2) ≤ 4096 * ((1 / 4096) / (2 / 3)) := by
            apply mul_le_mul_of_nonneg_left h1 (by norm_num)
        _ = 3 / 2 := by norm_num
    linarith

/-- With a `_BitScanReverse` that yields the bit position of the most
significant set bit (the `WIN32` intrinsic) and a table that holds
`4096 * log2(i)` rounded, `AritSize2` returns for all `right_prob >= 1` and
`wrong_prob >= 1` with a sum below `2 ^ 31` a value within 4 units of
`4096 * log2((right_prob + wrong_prob) / right_prob)`; it reads the table at
indices in `[1, 8192)` and shifts by less than 32 bits. -/
theorem AritSize2.intrinsic_estimate (LogTable : Int → Int)
    (hLog : ∀ i : Int, 1 ≤ i → |(LogTable i : ℝ) - 4096 * Real.logb 2 i| ≤ 1 / 2)
    (right_prob wrong_prob : Int) (hr : 1 ≤ right_prob) (hw : 1 ≤ wrong_prob)
    (hsum : right_prob + wrong_prob < 2147483648) :
    ∃ v, AritSize2 intrinsicBitScanReverse LogTable right_prob wrong_prob = some v ∧
      |(v : ℝ) - 4096 * Real.logb 2 (((right_prob : ℝ) + wrong_prob) / right_prob)| ≤ 4 ∧
      (∀ i ∈ (AritSize2.run intrinsicBitScanReverse LogTable right_prob wrong_prob).reads,
        1 ≤ i ∧ i < 8192) ∧
      (∀ s ∈ (AritSize2.run intrinsicBitScanReverse LogTable right_prob wrong_prob).shifts,
        0 ≤ s ∧ s < 32) := by
  have hrR : (0 : ℝ) < right_prob := by exact_mod_cast (by omega : (0 : Int) < right_prob)
  have htR : (0 : ℝ) < (right_prob : ℝ) + wrong_prob := by
    exact_mod_cast (by omega : (0 : Int) < right_prob + wrong_prob)
  have hdiv : Real.logb 2 (((right_prob : ℝ) + wrong_prob) / right_prob) =
      Real.logb 2 ((right_prob + wrong_prob : Int) : ℝ) - Real.logb 2 right_prob := by
    rw [Real.logb_div (ne_of_gt htR) (ne_of_gt hrR)]
    push_cast
    rfl
  have hLt := abs_le.mp (hLog (right_prob + wrong_prob) (by omega))
  have hLr := abs_le.mp (hLog right_prob hr)
  by_cases hsmall : right_prob + wrong_prob < TABLE_BIT_PRECISION
  · have hrun : AritSize2.run intrinsicBitScanReverse LogTable right_prob wrong_prob =
        { reads := [right_prob + wrong_prob, right_prob], shifts := [],
          value := LogTable (right_prob + wrong_prob) - LogTable right_prob } := by
      simp only [AritSize2.run]
      rw [if_pos hsmall]
    have h4096 : right_prob + wrong_prob < 4096 := hsmall
    refine ⟨_, by unfold AritSize2; rw [if_pos ⟨by omega, by omega⟩, hrun]; rfl, ?_, ?_, ?_⟩
    · rw [hdiv, abs_le]
      push_cast at hLt ⊢
      constructor <;> linarith [hLt.1, hLt.2, hLr.1, hLr.2]
    · rw [hrun]
      intro i hi
      simp only [List.mem_cons, List.mem_singleton, List.not_mem_nil, or_false] at hi
      rcases hi with rfl | rfl <;> omega
    · rw [hrun]
      intro s hs
      simp at hs
  · obtain ⟨r1, r2, r3, r4, r5, r6, r7⟩ := AritSize2.normalise right_prob hr (by omega) _ rfl
    obtain ⟨t1, t2, t3, t4, t5, t6, t7⟩ :=
      AritSize2.normalise (right_prob + wrong_prob) (by omega) hsum _ rfl
    have hrun : AritSize2.run intrinsicBitScanReverse LogTable right_prob wrong_prob =
        { reads := [shiftRight (right_prob + wrong_prob)
                      (AritSize2.shiftAmount intrinsicBitScanReverse (right_prob + wrong_prob)),
                    shiftRight right_prob
                      (AritSize2.shiftAmount intrinsicBitScanReverse right_prob)],
          shifts := [AritSize2.shiftAmount intrinsicBitScanReverse (right_prob + wrong_prob),
                     AritSize2.shiftAmount intrinsicBitScanReverse right_prob, 12],
          value := LogTable (shiftRight (right_prob + wrong_prob)
                (AritSize2.shiftAmount intrinsicBitScanReverse (right_prob + wrong_prob)))
              - LogTable (shiftRight right_prob
                (AritSize2.shiftAmount intrinsicBitScanReverse right_prob))
              + (AritSize2.shiftAmount intrinsicBitScanReverse (right_prob + wrong_prob)
                - AritSize2.shiftAmount intrinsicBitScanReverse right_prob) * 2 ^ 12 } := by
      simp only [AritSize2.run]
      rw [if_neg hsmall]
    rw [hrun]
    have hsome : AritSize2 intrinsicBitScanReverse LogTable right_prob wrong_prob =
        some (LogTable (shiftRight (right_prob + wrong_prob)
                (AritSize2.shiftAmount intrinsicBitScanReverse (right_prob + wrong_prob)))
              - LogTable (shiftRight right_prob
                (AritSize2.shiftAmount intrinsicBitScanReverse right_prob))
              + (AritSize2.shiftAmount intrinsicBitScanReverse (right_prob + wrong_prob)
                - AritSize2.shiftAmount intrinsicBitScanReverse right_prob) * 2 ^ 12) := by
      unfold AritSize2
      rw [if_pos ⟨by omega, by omega⟩, hrun]
      simp only
      rw [if_pos]
      simp only [List.all_cons, List.all_nil, Bool.and_true, Bool.and_eq_true, decide_eq_true_eq]
      exact ⟨⟨t1, by omega⟩, ⟨r1, by omega⟩, by norm_num⟩
    have hLit := abs_le.mp (hLog _ t3)
    have hLir := abs_le.mp (hLog _ r3)
    have sr := AritSize2.logb_shift _ right_prob _ r3 r5 r6 (fun h => r7 (by omega))
    have st := AritSize2.logb_shift _ (right_prob + wrong_prob) _ t3 t5 t6 (fun h => t7 (by omega))
    generalize AritSize2.shiftAmount intrinsicBitScanReverse right_prob = rl at *
    generalize AritSize2.shiftAmount intrinsicBitScanReverse (right_prob + wrong_prob) = tl at *
    have crl : ((rl.toNat : ℕ) : ℝ) = (rl : ℝ) := by
      have : ((rl.toNat : ℕ) : Int) = rl := Int.toNat_of_nonneg r1
      exact_mod_cast this
    have ctl : ((tl.toNat : ℕ) : ℝ) = (tl : ℝ) := by
      have : ((tl.toNat : ℕ) : Int) = tl := Int.toNat_of_nonneg t1
      exact_mod_cast this
    rw [crl] at sr
    rw [ctl] at st
    refine ⟨_, hsome, ?_, ?_, ?_⟩
    · rw [hdiv, abs_le]
      push_cast at hLit hLir sr st ⊢
      constructor <;>
        linarith [hLit.1, hLit.2, hLir.1, hLir.2, sr.1, sr.2, st.1, st.2]
    · intro i hi
      simp only [List.mem_cons, List.mem_singleton, List.not_mem_nil, or_false] at hi
      rcases hi with rfl | rfl
      · exact ⟨t3, t4⟩
      · exact ⟨r3, r4⟩
    · intro s hs
      simp only [List.mem_cons, List.mem_singleton, List.not_mem_nil, or_false] at hs
      rcases hs with rfl | rfl | rfl
      · exact ⟨t1, by omega⟩
      · exact ⟨r1, by omega⟩
      · norm_num

/-! ## Claims on `AritSize2` -/

/-- C19, evaluated on the code as built without `WIN32`: for
`right_prob = wrong_prob = 4096` the replacement `_BitScanReverse` yields
`16384` and `8192` instead of the bit positions 13 and 12, so `AritSize2` shifts
by `16372` and `8180` bits (undefined in C) and the value of its `return`
expression is `33554432`, whatever the table holds, while
`4096 * log2((4096 + 4096) / 4096) = 4096`. -/
theorem AritSize2_replacement_breaks_estimate (LogTable : Int → Int) :
    _BitScanReverse 8192 = 16384 ∧ _BitScanReverse 4096 = 8192 ∧
      (AritSize2.run _BitScanReverse LogTable 4096 4096).shifts = [16372, 8180, 12] ∧
      (AritSize2.run _BitScanReverse LogTable 4096 4096).reads = [0, 0] ∧
      (AritSize2.run _BitScanReverse LogTable 4096 4096).value = 33554432 ∧
      AritSize2 _BitScanReverse LogTable 4096 4096 = none ∧
      (4096 : ℝ) * Real.logb 2 ((4096 + 4096 : ℝ) / 4096) = 4096 := by
  have h1 : _BitScanReverse 8192 = 16384 := by decide
  have h2 : _BitScanReverse 4096 = 8192 := by decide
  have hrun : AritSize2.run _BitScanReverse LogTable 4096 4096 =
      { reads := [0, 0], shifts := [16372, 8180, 12],
        value := LogTable 0 - LogTable 0 + (16372 - 8180) * 2 ^ 12 } := by
    simp only [AritSize2.run, AritSize2.shiftAmount]
    rw [if_neg (by decide)]
    have e1 : ((4096 : Int) % 4294967296).toNat = 4096 := by decide
    have e2 : (((4096 : Int) + 4096) % 4294967296).toNat = 8192 := by decide
    rw [e1, e2, h1, h2]
    have t1 : toInt 8192 = 8192 := by decide
    have t2 : toInt 16384 = 16384 := by decide
    rw [t1, t2]
    have s1 : shiftRight (4096 + 4096) (16384 - 12) = 0 := by
      unfold shiftRight
      apply Int.ediv_eq_zero_of_lt (by decide)
      have : (2 : Int) ^ 14 ≤ 2 ^ ((16384 : Int) - 12).toNat :=
        pow_le_pow_right₀ (by decide) (by decide)
      omega
    have s2 : shiftRight 4096 (8192 - 12) = 0 := by
      unfold shiftRight
      apply Int.ediv_eq_zero_of_lt (by decide)
      have : (2 : Int) ^ 14 ≤ 2 ^ ((8192 : Int) - 12).toNat :=
        pow_le_pow_right₀ (by decide) (by decide)
      omega
    simp only [show (16384 : Int) > 12 from by decide, show (8192 : Int) > 12 from by decide,
      if_true, s1, s2]
    norm_num
  refine ⟨h1, h2, ?_, ?_, ?_, ?_, ?_⟩
  · rw [hrun]
  · rw [hrun]
  · rw [hrun]; norm_num
  · unfold AritSize2
    rw [if_pos (by decide), hrun]
    simp only
    rw [if_neg (by decide)]
  · have : ((4096 + 4096 : ℝ) / 4096) = 2 := by norm_num
    rw [this, Real.logb_self_eq_one (by norm_num)]
    norm_num

/-- C20, evaluated on the code: for `right_prob = 4096`, `wrong_prob = 1` the
build without `WIN32` shifts by `8180` bits, which is not below 32; and with a
`_BitScanReverse` that yields the bit position (the `WIN32` intrinsic) the
table is read at the indices `4097` and `4096`, which are not below `4096`. -/
theorem AritSize2_reads_outside_table (LogTable : Int → Int) :
    (AritSize2.run _BitScanReverse LogTable 4096 1).shifts = [8180, 8180, 12] ∧
      AritSize2 _BitScanReverse LogTable 4096 1 = none ∧
      (AritSize2.run intrinsicBitScanReverse LogTable 4096 1).reads = [4097, 4096] ∧
      (AritSize2.run intrinsicBitScanReverse LogTable 4096 1).shifts = [0, 0, 12] := by
  have h2 : _BitScanReverse 4096 = 8192 := by decide
  have h3 : _BitScanReverse 4097 = 8192 := by decide
  have k2 : intrinsicBitScanReverse 4096 = 12 := by decide
  have k3 : intrinsicBitScanReverse 4097 = 12 := by decide
  have e1 : ((4096 : Int) % 4294967296).toNat = 4096 := by decide
  have e2 : (((4096 : Int) + 1) % 4294967296).toNat = 4097 := by decide
  have t1 : toInt 8192 = 8192 := by decide
  have t2 : toInt 12 = 12 := by decide
  have hs : (AritSize2.run _BitScanReverse LogTable 4096 1).shifts = [8180, 8180, 12] := by
    simp only [AritSize2.run, AritSize2.shiftAmount]
    rw [if_neg (by decide), e1, e2, h2, h3, t1]
    simp only [show (8192 : Int) > 12 from by decide, if_true]
    norm_num
  refine ⟨hs, ?_, ?_, ?_⟩
  · unfold AritSize2
    rw [if_pos (by decide)]
    simp only [hs]
    rw [if_neg (by decide)]
  · simp only [AritSize2.run, AritSize2.shiftAmount]
    rw [if_neg (by decide), e1, e2, k2, k3, t2]
    simp only [show ¬ (12 : Int) > 12 from by decide, if_false, shiftRight]
    norm_num
  · simp only [AritSize2.run, AritSize2.shiftAmount]
    rw [if_neg (by decide), e1, e2, k2, k3, t2]
    simp only [show ¬ (12 : Int) > 12 from by decide, if_false]

/-! ## Claim on the replacement `_BitScanReverse` -/

theorem bitLength_eq_log (x : Nat) (h0 : 0 < x) (h1 : x < 4294967296) :
    bitLength 32 x = Nat.log 2 x + 1 ∧ Nat.log 2 x < 32 := by
  obtain ⟨b1, b2, b3⟩ := bitLength_bounds 32 x h0 (by norm_num; exact h1)
  have e : bitLength 32 x - 1 + 1 = bitLength 32 x := by omega
  have hlog : Nat.log 2 x = bitLength 32 x - 1 :=
    Nat.log_eq_of_pow_le_of_lt_pow b2 (by rw [e]; exact b3)
  refine ⟨by omega, ?_⟩
  by_contra hc
  have : 2 ^ 32 ≤ 2 ^ (bitLength 32 x - 1) := Nat.pow_le_pow_right (by norm_num) (by omega)
  omega

/-- C21, evaluated on the code: for every 32-bit `mask` that is not zero the
replacement `_BitScanReverse` of `aritcode.h` stores `1 << (32 - leading_bits)`,
which is `2 ^ (floor(log2(mask)) + 1)` reduced to 32 bits, and this is never the
bit position `floor(log2(mask))` of the most significant set bit, which is what
the intrinsic stores. -/
theorem BitScanReverse_replacement_not_bit_position (mask : Nat) (h0 : 0 < mask)
    (h1 : mask < 4294967296) :
    _BitScanReverse mask = 2 ^ (Nat.log 2 mask + 1) % 4294967296 ∧
      _BitScanReverse mask ≠ Nat.log 2 mask ∧
      intrinsicBitScanReverse mask = Nat.log 2 mask ∧ Nat.log 2 mask < 32 := by
  obtain ⟨hb, hlt⟩ := bitLength_eq_log mask h0 h1
  have hshim : _BitScanReverse mask = 2 ^ (Nat.log 2 mask + 1) % 4294967296 := by
    unfold _BitScanReverse __builtin_clz
    simp only
    rw [Nat.mod_eq_of_lt h1, hb, Nat.one_shiftLeft]
    congr 2
    omega
  refine ⟨hshim, ?_, ?_, hlt⟩
  · rw [hshim]
    by_cases h31 : Nat.log 2 mask = 31
    · rw [h31]; decide
    · have hpow : 2 ^ (Nat.log 2 mask + 1) < 4294967296 := by
        have : 2 ^ (Nat.log 2 mask + 1) ≤ 2 ^ 31 := Nat.pow_le_pow_right (by norm_num) (by omega)
        omega
      rw [Nat.mod_eq_of_lt hpow]
      have := Nat.lt_two_pow (Nat.log 2 mask + 1)
      omega
  · unfold intrinsicBitScanReverse
    rw [Nat.mod_eq_of_lt h1, hb]
    omega

/-- The mask `1`: the replacement stores `2`, the bit position is `0`. -/
theorem BitScanReverse_replacement_not_bit_position_witness :
    _BitScanReverse 1 = 2 ∧ _BitScanReverse 1 ≠ Nat.log 2 1 ∧ intrinsicBitScanReverse 1 = 0 :=
  ⟨by decide, (BitScanReverse_replacement_not_bit_position 1 (by decide) (by decide)).2.1,
    by decide⟩

/-! ## What `PreviousPrime` returns -/

theorem PreviousPrime.divisorLoop_true (n : Int) :
    ∀ (fuel : Nat) (i : Int), PreviousPrime.divisorLoop n fuel i = some true →
      ∃ k : Nat, (i + 2 * k) * (i + 2 * k) < n ∧ n.tdiv (i + 2 * k) * (i + 2 * k) = n := by
  intro fuel
  induction fuel with
  | zero => intro i h; simp [PreviousPrime.divisorLoop] at h
  | succ f ih =>
    intro i h
    simp only [PreviousPrime.divisorLoop] at h
    split_ifs at h with h1 h2
    · exact ⟨0, by simpa using h1, by simpa using h2⟩
    · obtain ⟨k, hk1, hk2⟩ := ih (i + 2) h
      refine ⟨k + 1, ?_, ?_⟩
      · have e : i + 2 * ((k + 1 : Nat) : Int) = i + 2 + 2 * k := by push_cast; ring
        rw [e]; exact hk1
      · have e : i + 2 * ((k + 1 : Nat) : Int) = i + 2 + 2 * k := by push_cast; ring
        rw [e]; exact hk2
    · cases h

theorem PreviousPrime.divisorLoop_false (n : Int) :
    ∀ (fuel : Nat) (i : Int), 1 ≤ i → PreviousPrime.divisorLoop n fuel i = some false →
      ∀ k : Nat, (i + 2 * k) * (i + 2 * k) < n → n.tdiv (i + 2 * k) * (i + 2 * k) ≠ n := by
  intro fuel
  induction fuel with
  | zero => intro i _ h; simp [PreviousPrime.divisorLoop] at h
  | succ f ih =>
    intro i hi h k hk
    simp only [PreviousPrime.divisorLoop] at h
    split_ifs at h with h1 h2
    · cases h
    · cases k with
      | zero => simpa using h2
      | succ j =>
        have e : i + 2 * ((j + 1 : Nat) : Int) = i + 2 + 2 * j := by push_cast; ring
        rw [e] at hk ⊢
        exact ih (i + 2) (by omega) h j hk
    · exfalso
      have hk0 : (0 : Int) ≤ k := Int.ofNat_nonneg k
      have : i * i ≤ (i + 2 * k) * (i + 2 * k) := by nlinarith
      omega

theorem PreviousPrime.tdiv_mul_eq_iff (n d : Int) (hn : 0 ≤ n) (hd : 0 < d) :
    n.tdiv d * d = n ↔ d ∣ n := by
  rw [Int.tdiv_eq_ediv hn (le_of_lt hd)]
  constructor
  · intro h
    exact ⟨n / d, by rw [mul_comm]; exact h.symm⟩
  · intro h
    exact Int.ediv_mul_cancel h

theorem PreviousPrime.fromLabel_spec :
    ∀ (fuel : Nat) (n : Int), n.toNat < fuel →
      ∃ r, PreviousPrime.fromLabel fuel n = some r ∧ r < n ∧ r % 2 = 1 ∧
        (∀ d : Int, 3 ≤ d → d % 2 = 1 → d * d < r → ¬ d ∣ r) ∧
        (∀ m : Int, m % 2 = 1 → m < n →
          (∀ d : Int, 3 ≤ d → d % 2 = 1 → d * d < m → ¬ d ∣ m) → m ≤ r) := by
  intro fuel
  induction fuel with
  | zero => intro n h; omega
  | succ k ih =>
    intro n hn
    simp only [PreviousPrime.fromLabel]
    have hlt : orOne (n - 2) < n := by have := orOne_le (n - 2); omega
    have hodd : orOne (n - 2) % 2 = 1 := orOne_odd (n - 2)
    have hmax : ∀ m : Int, m % 2 = 1 → m < n → m ≤ orOne (n - 2) := by
      intro m hm hmn
      unfold orOne
      split_ifs <;> omega
    obtain ⟨b, hb⟩ := PreviousPrime.divisorLoop_total (orOne (n - 2)) ((orOne (n - 2)).toNat + 1) 3
      (by decide) (by push_cast; omega) (by omega)
    rw [hb]
    cases b with
    | false =>
      refine ⟨_, rfl, hlt, hodd, ?_, fun m hm hmn _ => hmax m hm hmn⟩
      intro d hd3 hdodd hdd hdvd
      have hfalse := PreviousPrime.divisorLoop_false _ _ 3 (by decide) hb ((d - 3) / 2).toNat
      have e : (3 : Int) + 2 * (((d - 3) / 2).toNat : Int) = d := by
        rw [Int.toNat_of_nonneg (by omega)]
        omega
      rw [e] at hfalse
      have hpos : (0 : Int) ≤ orOne (n - 2) := by nlinarith
      exact hfalse hdd ((PreviousPrime.tdiv_mul_eq_iff _ d hpos (by omega)).mpr hdvd)
    | true =>
      obtain ⟨j, hj1, hj2⟩ := PreviousPrime.divisorLoop_true _ _ _ hb
      have hpos : (0 : Int) ≤ orOne (n - 2) := by nlinarith
      have hdvd := (PreviousPrime.tdiv_mul_eq_iff _ (3 + 2 * (j : Int)) hpos (by omega)).mp hj2
      obtain ⟨r, hr, hrlt, hrodd, hrgood, hrmax⟩ := ih (orOne (n - 2)) (by omega)
      refine ⟨r, hr, by omega, hrodd, hrgood, ?_⟩
      intro m hm hmn hgood
      have h1 := hmax m hm hmn
      rcases lt_or_eq_of_le h1 with h2 | h2
      · exact hrmax m hm h2 hgood
      · exfalso
        rw [h2] at hgood
        exact hgood (3 + 2 * (j : Int)) (by omega) (by omega) hj1 hdvd

theorem PreviousPrime_spec (n : Int) :
    ∃ r, PreviousPrime n = some r ∧ r < n ∧ r % 2 = 1 ∧
      (∀ d : Int, 3 ≤ d → d % 2 = 1 → d * d < r → ¬ d ∣ r) ∧
      (∀ m : Int, m % 2 = 1 → m < n →
        (∀ d : Int, 3 ≤ d → d % 2 = 1 → d * d < m → ¬ d ∣ m) → m ≤ r) :=
  PreviousPrime.fromLabel_spec (n.toNat + 1) n (by omega)

theorem PreviousPrime.prime_or_square (r : Int) (h3 : 3 ≤ r) (hodd : r % 2 = 1)
    (hgood : ∀ d : Int, 3 ≤ d → d % 2 = 1 → d * d < r → ¬ d ∣ r) :
    Nat.Prime r.toNat ∨ ∃ p : Nat, Nat.Prime p ∧ p % 2 = 1 ∧ r = (p : Int) * p := by
  by_cases hp : Nat.Prime r.toNat
  · exact Or.inl hp
  · right
    have hr : ((r.toNat : Nat) : Int) = r := Int.toNat_of_nonneg (by omega)
    have hne : r.toNat ≠ 1 := by omega
    have hq : Nat.Prime (Nat.minFac r.toNat) := Nat.minFac_prime hne
    have hqdvd : Nat.minFac r.toNat ∣ r.toNat := Nat.minFac_dvd _
    have hsq : Nat.minFac r.toNat ^ 2 ≤ r.toNat := Nat.minFac_sq_le_self (by omega) hp
    have hqodd : Nat.minFac r.toNat % 2 = 1 := by
      rcases Nat.Prime.eq_two_or_odd hq with h2 | h2
      · exfalso
        rw [h2] at hqdvd
        omega
      · exact h2
    have hq3 : 3 ≤ Nat.minFac r.toNat := by
      have := hq.two_le
      omega
    have hdvdZ : ((Nat.minFac r.toNat : Nat) : Int) ∣ r := by
      rw [← hr]
      exact Int.natCast_dvd_natCast.mpr hqdvd
    have hsqZ : ((Nat.minFac r.toNat : Nat) : Int) * (Nat.minFac r.toNat : Nat) ≤ r := by
      rw [← hr]
      have : Nat.minFac r.toNat * Nat.minFac r.toNat ≤ r.toNat := by
        rw [← sq]; exact hsq
      exact_mod_cast this
    refine ⟨Nat.minFac r.toNat, hq, hqodd, ?_⟩
    rcases lt_or_eq_of_le hsqZ with h | h
    · exfalso
      exact hgood _ (by omega) (by omega) h hdvdZ
    · exact h.symm

theorem OptimizeHashsize.enumerate_decreasing (tries : Nat) :
    ∀ hashsize : Int, ∃ l, OptimizeHashsize.enumerate tries hashsize = some l ∧
      l.length = tries ∧ (∀ c ∈ l, c % 2 = 0 ∧ c < hashsize) ∧
      List.Pairwise (fun a b => b < a) l := by
  induction tries with
  | zero => intro h; exact ⟨[], rfl, rfl, by simp, List.Pairwise.nil⟩
  | succ k ih =>
    intro h
    obtain ⟨p, hp, hlt, _, _, _⟩ := PreviousPrime_spec (h.tdiv 2)
    obtain ⟨l, hl, hlen, hmem, hpw⟩ := ih (p * 2)
    have hph : p * 2 < h := by
      rw [tdiv_two_eq] at hlt
      split_ifs at hlt <;> omega
    refine ⟨p * 2 :: l, by simp [OptimizeHashsize.enumerate, hp, hl], by simp [hlen], ?_, ?_⟩
    · intro c hc
      rcases List.mem_cons.mp hc with h1 | h1
      · subst h1
        exact ⟨by omega, hph⟩
      · exact ⟨(hmem c h1).1, by have := (hmem c h1).2; omega⟩
    · exact List.Pairwise.cons (fun c hc => (hmem c hc).2) hpw

/-! ## Claims on the values of `PreviousPrime` -/

/-- C25: for every integer `n` the call `PreviousPrime(n)` returns, and what it
returns is odd and strictly below `n`; so `PreviousPrime(S / 2) * 2` is even and
strictly below `S`, and the candidates that `OptimizeHashsize` enumerates are
even, below the starting size and strictly decreasing. -/
theorem PreviousPrime_total_odd_decreasing :
    (∀ n : Int, ∃ r, PreviousPrime n = some r ∧ r % 2 = 1 ∧ r < n) ∧
      (∀ S : Int, ∃ r, PreviousPrime (S.tdiv 2) = some r ∧ (r * 2) % 2 = 0 ∧ r * 2 < S) ∧
      (∀ (hashsize : Int) (tries : Nat), ∃ l,
        OptimizeHashsize.enumerate tries hashsize = some l ∧ l.length = tries ∧
          (∀ c ∈ l, c % 2 = 0 ∧ c < hashsize) ∧ List.Pairwise (fun a b => b < a) l) := by
  refine ⟨?_, ?_, fun hashsize tries => OptimizeHashsize.enumerate_decreasing tries hashsize⟩
  · intro n
    obtain ⟨r, hr, hlt, hodd, _, _⟩ := PreviousPrime_spec n
    exact ⟨r, hr, hodd, hlt⟩
  · intro S
    obtain ⟨r, hr, hlt, _, _, _⟩ := PreviousPrime_spec (S.tdiv 2)
    refine ⟨r, hr, by omega, ?_⟩
    rw [tdiv_two_eq] at hlt
    split_ifs at hlt <;> omega

/-- C26: for every `n`, what `PreviousPrime(n)` returns is the largest odd
number below `n` that has no odd divisor `d` with `3 <= d` and `d * d` below it;
when it is at least 3 it is a prime or the square of an odd prime. -/
theorem PreviousPrime_divisor_guarantee (n : Int) :
    ∃ r, PreviousPrime n = some r ∧ r % 2 = 1 ∧ r < n ∧
      (∀ d : Int, 3 ≤ d → d % 2 = 1 → d * d < r → ¬ d ∣ r) ∧
      (∀ m : Int, m % 2 = 1 → m < n →
        (∀ d : Int, 3 ≤ d → d % 2 = 1 → d * d < m → ¬ d ∣ m) → m ≤ r) ∧
      (3 ≤ r → Nat.Prime r.toNat ∨ ∃ p : Nat, Nat.Prime p ∧ p % 2 = 1 ∧ r = (p : Int) * p) := by
  obtain ⟨r, hr, hlt, hodd, hgood, hmax⟩ := PreviousPrime_spec n
  exact ⟨r, hr, hodd, hlt, hgood, hmax,
    fun h3 => PreviousPrime.prime_or_square r h3 hodd hgood⟩

/-! ## Frame of the rewriting loop of `DoTransform` -/

theorem DoTransform.loop_eq_scan (size : Int) :
    ∀ (fuel i : Nat) (data : List Nat) (num : Int),
      DoTransform.loop size fuel i data num =
        (DoTransform.scan size fuel i data).map (fun r => (r.data, num + r.num)) := by
  intro fuel
  induction fuel with
  | zero => intro i data num; rfl
  | succ k ih =>
    intro i data num
    simp only [DoTransform.loop, DoTransform.scan]
    split_ifs with h1 h2 h3
    · rw [ih, Option.map_map]
      congr 1
      funext r
      simp only [Function.comp]
      congr 1
      ring
    · rw [ih, Option.map_map]
      rfl
    · rw [ih, Option.map_map]
      rfl
    · simp

theorem DoTransform.scan_spec (size : Int) :
    ∀ (fuel i : Nat) (data : List Nat) (r : DoTransformScan),
      DoTransform.scan size fuel i data = some r →
      r.data.length = data.length ∧
      (∀ o ∈ r.reads, (o : Int) < size) ∧
      (∀ o ∈ r.writes, ∃ s ∈ r.sites, s + 1 ≤ o ∧ o ≤ s + 4) ∧
      (∀ s ∈ r.sites, i ≤ s ∧ (s : Int) + 4 < size ∧ data.getD s 0 = 0xE8) ∧
      List.Pairwise (fun a b => a + 5 ≤ b) r.sites ∧
      (∀ k, (∀ s ∈ r.sites, k ≤ s ∨ s + 4 < k) → r.data.getD k 0 = data.getD k 0) ∧
      r.num = r.sites.length := by
  intro fuel
  induction fuel with
  | zero => intro i data r h; simp [DoTransform.scan] at h
  | succ f ih =>
    intro i data r h
    simp only [DoTransform.scan] at h
    split_ifs at h with h1 h2 h3
    · obtain ⟨r0, hr0, hr⟩ := Option.map_eq_some'.mp h
      obtain ⟨a1, a2, a3, a4, a5, a6, a7⟩ := ih _ _ _ hr0
      subst hr
      refine ⟨by rw [a1, storeInt_length], ?_, ?_, ?_, ?_, ?_, ?_⟩
      · intro o ho
        simp only [List.cons_append, List.nil_append, List.mem_cons] at ho
        rcases ho with ho | ho | ho | ho | ho | ho
        · omega
        · omega
        · omega
        · omega
        · omega
        · exact a2 o ho
      · intro o ho
        simp only [List.cons_append, List.nil_append, List.mem_cons] at ho
        rcases ho with ho | ho | ho | ho | ho
        · exact ⟨i, List.mem_cons_self _ _, by omega, by omega⟩
        · exact ⟨i, List.mem_cons_self _ _, by omega, by omega⟩
        · exact ⟨i, List.mem_cons_self _ _, by omega, by omega⟩
        · exact ⟨i, List.mem_cons_self _ _, by omega, by omega⟩
        · obtain ⟨s, hs, hb⟩ := a3 o ho
          exact ⟨s, List.mem_cons_of_mem _ hs, hb⟩
      · intro s hs
        rcases List.mem_cons.mp hs with hs | hs
        · subst hs
          exact ⟨le_refl _, by omega, h2⟩
        · obtain ⟨b1, b2, b3⟩ := a4 s hs
          refine ⟨by omega, b2, ?_⟩
          rw [← b3]
          exact (storeInt_getD_outside data (i + 1) _ s (by omega)).symm
      · exact List.Pairwise.cons (fun s hs => by have := (a4 s hs).1; omega) a5
      · intro k hk
        have hk0 := hk i (List.mem_cons_self _ _)
        rw [a6 k (fun s hs => hk s (List.mem_cons_of_mem _ hs))]
        exact storeInt_getD_outside data (i + 1) _ k (by omega)
      · simp only [List.length_cons]
        push_cast
        omega
    · obtain ⟨r0, hr0, hr⟩ := Option.map_eq_some'.mp h
      obtain ⟨a1, a2, a3, a4, a5, a6, a7⟩ := ih _ _ _ hr0
      subst hr
      refine ⟨a1, ?_, a3, ?_, a5, a6, a7⟩
      · intro o ho
        simp only [List.cons_append, List.nil_append, List.mem_cons] at ho
        rcases ho with ho | ho | ho | ho | ho | ho
        · omega
        · omega
        · omega
        · omega
        · omega
        · exact a2 o ho
      · intro s hs
        obtain ⟨b1, b2, b3⟩ := a4 s hs
        exact ⟨by omega, b2, b3⟩
    · obtain ⟨r0, hr0, hr⟩ := Option.map_eq_some'.mp h
      obtain ⟨a1, a2, a3, a4, a5, a6, a7⟩ := ih _ _ _ hr0
      subst hr
      refine ⟨a1, ?_, a3, ?_, a5, a6, a7⟩
      · intro o ho
        rcases List.mem_cons.mp ho with ho | ho
        · omega
        · exact a2 o ho
      · intro s hs
        obtain ⟨b1, b2, b3⟩ := a4 s hs
        exact ⟨by omega, b2, b3⟩
    · simp only [Option.some.injEq] at h
      subst h
      simp

/-- C24: the rewriting loop of `DoTransform` returns for every buffer and
splitting point; every offset it reads or writes is below the splitting point;
what it writes are the four bytes behind the call sites it rewrites, so the
length of the buffer, the opcode byte `0xE8` of every rewritten call, every byte
outside those displacement fields and every byte from the splitting point on are
unchanged; and two rewritten call sites are at least 5 bytes apart. -/
theorem DoTransform_scan_frame (splittingPoint : Int) (data : List Nat) :
    ∃ r, DoTransform.scan splittingPoint (splittingPoint.toNat + 1) 0 data = some r ∧
      DoTransform.rewrite splittingPoint data = some (r.data, r.num) ∧
      (∀ o ∈ r.reads ++ r.writes, (o : Int) < splittingPoint) ∧
      (∀ o ∈ r.writes, ∃ s ∈ r.sites, s + 1 ≤ o ∧ o ≤ s + 4) ∧
      r.data.length = data.length ∧
      (∀ s ∈ r.sites, data.getD s 0 = 0xE8 ∧ r.data.getD s 0 = 0xE8) ∧
      (∀ k, (∀ s ∈ r.sites, k ≤ s ∨ s + 4 < k) → r.data.getD k 0 = data.getD k 0) ∧
      (∀ k : Nat, splittingPoint ≤ k → r.data.getD k 0 = data.getD k 0) ∧
      List.Pairwise (fun a b => a + 5 ≤ b) r.sites ∧ r.num = r.sites.length := by
  obtain ⟨p, hp⟩ := DoTransform.rewrite_returns splittingPoint data
  have hloop := hp
  unfold DoTransform.rewrite at hloop
  rw [DoTransform.loop_eq_scan] at hloop
  obtain ⟨r, hr, hpr⟩ := Option.map_eq_some'.mp hloop
  obtain ⟨a1, a2, a3, a4, a5, a6, a7⟩ := DoTransform.scan_spec _ _ _ _ _ hr
  have hpair : List.Pairwise (fun a b => a ≠ b → a + 5 ≤ b ∨ b + 5 ≤ a) r.sites :=
    a5.imp (fun h _ => Or.inl h)
  refine ⟨r, hr, ?_, ?_, a3, a1, ?_, a6, ?_, a5, a7⟩
  · rw [hp, ← hpr]
    simp
  · intro o ho
    rcases List.mem_append.mp ho with ho | ho
    · exact a2 o ho
    · obtain ⟨s, hs, hb⟩ := a3 o ho
      have := (a4 s hs).2.1
      omega
  · intro s hs
    refine ⟨(a4 s hs).2.2, ?_⟩
    rw [a6 s ?_]
    · exact (a4 s hs).2.2
    · intro t ht
      by_cases hst : s ≤ t
      · exact Or.inl hst
      · right
        have hsym : ∀ a b : Nat, (a ≠ b → a + 5 ≤ b ∨ b + 5 ≤ a) → (b ≠ a → b + 5 ≤ a ∨ a + 5 ≤ b) :=
          fun a b h hne => (h (Ne.symm hne)).symm
        have := List.Pairwise.forall_of_forall (fun {a b} h => hsym a b h) (fun a _ h => absurd rfl h) hpair ht hs
          (by omega)
        omega
  · intro k hk
    apply a6
    intro s hs
    have := (a4 s hs).2.1
    omega

/-! ## Claim on the high byte of the virtual size in the 1k header -/

theorem storeByte_getD (data : List Nat) (p : Nat) (v : Int) (k : Nat) :
    (storeByte data p v).getD k 0 =
      if k = p ∧ p < data.length then (v % 256).toNat else data.getD k 0 := by
  unfold storeByte
  exact getD_set_eq _ _ _ _

theorem storeByte_length (data : List Nat) (p : Nat) (v : Int) :
    (storeByte data p v).length = data.length := by
  simp [storeByte]

theorem storeShort_getD_outside (data : List Nat) (p : Nat) (v : Int) (k : Nat)
    (hk : k < p ∨ p + 2 ≤ k) : (storeShort data p v).getD k 0 = data.getD k 0 := by
  unfold storeShort
  simp only [getD_set_eq]
  have h0 : ¬ k = p := by omega
  have h1 : ¬ k = p + 1 := by omega
  simp [h0, h1]

theorem storeShort_length (data : List Nat) (p : Nat) (v : Int) :
    (storeShort data p v).length = data.length := by
  simp [storeShort]

theorem getD_lt_of_bytes (data : List Nat) (hbytes : ∀ b ∈ data, b < 256) (k : Nat) :
    data.getD k 0 < 256 := by
  rw [List.getD_eq_getElem?_getD]
  cases h : data[k]? with
  | none => simp
  | some b => exact hbytes b (List.getElem?_mem h)

/-- C27: in the 1k header, when the patch points are found, the four bytes of
the virtual-size field lie in the buffer and the other patch points do not
overlap them, `SetHeaderConstants` stores at `_VirtualSizeHighBytePtr` the byte
`H = (v - low + 0xFFFFFF) >> 24`, where `low` is the value of the three bytes
before it and `v = v0 + 131072` is below `2 ^ 31 - 2 ^ 24`; `H` fits in 8 bits,
the field then holds `H * 2 ^ 24 + low`, which is at least `v`, and `H` is `0`
or `(H - 1) * 2 ^ 24 + low` is below `v`. -/
theorem SetHeaderConstants_tiny_virtual_size_high_byte (header phase1 : Hunk)
    (boostfactor baseprob0 baseprob1 : Int) (sv s0 s1 sb sd : Symbol)
    (hsv : header.FindSymbol "_VirtualSizeHighBytePtr" = some sv)
    (hs0 : header.FindSymbol "_BaseProbPtr0" = some s0)
    (hs1 : header.FindSymbol "_BaseProbPtr1" = some s1)
    (hsb : header.FindSymbol "_BoostFactorPtr" = some sb)
    (hsd : header.FindSymbol "_DepackEndPositionPtr" = some sd)
    (hbytes : ∀ b ∈ header.data, b < 256)
    (hfield : 3 ≤ sv.value ∧ sv.value < header.data.length)
    (h0 : (0 ≤ s0.value ∧ s0.value + 3 < sv.value) ∨ sv.value < s0.value)
    (h1 : (0 ≤ s1.value ∧ s1.value + 3 < sv.value) ∨ sv.value < s1.value)
    (hb : (0 ≤ sb.value ∧ sb.value + 3 < sv.value) ∨ sv.value < sb.value)
    (hd : (0 ≤ sd.value ∧ sd.value + 4 < sv.value) ∨ sv.value < sd.value)
    (hv0 : 0 ≤ phase1.virtualsize) (hv : phase1.virtualsize + 131072 < 2 ^ 31 - 2 ^ 24) :
    ∃ h' : Hunk, ∃ H low : Int,
      SetHeaderConstants.tinyHeader header phase1 boostfactor baseprob0 baseprob1 = some h' ∧
      low = (loadWord header.data (sv.value.toNat - 3) % 16777216 : Nat) ∧
      H = (phase1.virtualsize + 131072 - low + 0xFFFFFF) / 16777216 ∧
      0 ≤ H ∧ H < 256 ∧
      h'.data.getD sv.value.toNat 0 = H.toNat ∧
      (loadWord h'.data (sv.value.toNat - 3) : Int) = H * 16777216 + low ∧
      phase1.virtualsize + 131072 ≤ H * 16777216 + low ∧
      (H = 0 ∨ (H - 1) * 16777216 + low < phase1.virtualsize + 131072) := by
  obtain ⟨hf3, hflen⟩ := hfield
  have e3 : (sv.value - 3).toNat = sv.value.toNat - 3 := by omega
  have eo : ((sv.value.toNat : Nat) : Int) = sv.value := Int.toNat_of_nonneg (by omega)
  have ho3 : 3 ≤ sv.value.toNat := by omega
  have holen : sv.value.toNat < header.data.length := by omega
  have hB0 := getD_lt_of_bytes header.data hbytes (sv.value.toNat - 3)
  have hB1 := getD_lt_of_bytes header.data hbytes (sv.value.toNat - 3 + 1)
  have hB2 := getD_lt_of_bytes header.data hbytes (sv.value.toNat - 3 + 2)
  have hB3 := getD_lt_of_bytes header.data hbytes (sv.value.toNat - 3 + 3)
  have hlow : loadInt header.data (sv.value - 3).toNat % 16777216 =
      ((loadWord header.data (sv.value.toNat - 3) % 16777216 : Nat) : Int) := by
    rw [e3]
    unfold loadInt
    split_ifs <;> omega
  have hlowval : loadWord header.data (sv.value.toNat - 3) % 16777216 =
      header.data.getD (sv.value.toNat - 3) 0 + 256 * header.data.getD (sv.value.toNat - 3 + 1) 0
        + 65536 * header.data.getD (sv.value.toNat - 3 + 2) 0 := by
    unfold loadWord
    omega
  refine ⟨{ header with
      data := storeByte (storeShort (storeByte (storeByte (storeByte header.data
        s0.value.toNat baseprob0) s1.value.toNat baseprob1) sb.value.toNat boostfactor)
        sd.value.toNat (phase1.rawsize + CRINKLER_CODEBASE)) sv.value.toNat
        ((phase1.virtualsize + 65536 * 2
          - loadInt header.data (sv.value - 3).toNat % 16777216 + 0xFFFFFF) / 16777216) },
    (phase1.virtualsize + 131072
      - ((loadWord header.data (sv.value.toNat - 3) % 16777216 : Nat) : Int) + 0xFFFFFF) / 16777216,
    ((loadWord header.data (sv.value.toNat - 3) % 16777216 : Nat) : Int), ?_, rfl, rfl, ?_⟩
  · have hsv' : header.symbols.find? (fun s => s.name == "_VirtualSizeHighBytePtr") = some sv := hsv
    have hs0' : header.symbols.find? (fun s => s.name == "_BaseProbPtr0") = some s0 := hs0
    have hs1' : header.symbols.find? (fun s => s.name == "_BaseProbPtr1") = some s1 := hs1
    have hsb' : header.symbols.find? (fun s => s.name == "_BoostFactorPtr") = some sb := hsb
    have hsd' : header.symbols.find? (fun s => s.name == "_DepackEndPositionPtr") = some sd := hsd
    simp only [SetHeaderConstants.tinyHeader, Hunk.storeByteAt, Hunk.storeShortAt,
      Hunk.FindSymbol, hsv', hs0', hs1', hsb', hsd', Option.bind_eq_bind, Option.some_bind,
      Option.pure_def]
  · rw [hlow]
    set low : Nat := loadWord header.data (sv.value.toNat - 3) % 16777216 with hlowdef
    have hlowlt : low < 16777216 := Nat.mod_lt _ (by norm_num)
    set H : Int := (phase1.virtualsize + 131072 - (low : Int) + 0xFFFFFF) / 16777216 with hH
    have hH0 : 0 ≤ H := by omega
    have hH1 : H < 128 := by omega
    have e2 : phase1.virtualsize + 65536 * 2 - (low : Int) + 0xFFFFFF
        = phase1.virtualsize + 131072 - (low : Int) + 0xFFFFFF := by ring
    rw [e2, ← hH]
    have hHbyte : (H % 256).toNat = H.toNat := by
      rw [Int.emod_eq_of_lt hH0 (by omega)]
    have hlen4 : (storeShort (storeByte (storeByte (storeByte header.data
        s0.value.toNat baseprob0) s1.value.toNat baseprob1) sb.value.toNat boostfactor)
        sd.value.toNat (phase1.rawsize + CRINKLER_CODEBASE)).length = header.data.length := by
      rw [storeShort_length, storeByte_length, storeByte_length, storeByte_length]
    have hkeep : ∀ k, sv.value.toNat - 3 ≤ k → k < sv.value.toNat →
        (storeByte (storeShort (storeByte (storeByte (storeByte header.data
          s0.value.toNat baseprob0) s1.value.toNat baseprob1) sb.value.toNat boostfactor)
          sd.value.toNat (phase1.rawsize + CRINKLER_CODEBASE)) sv.value.toNat H).getD k 0
          = header.data.getD k 0 := by
      intro k hk1 hk2
      rw [storeByte_getD, if_neg (by omega), storeShort_getD_outside _ _ _ _ (by omega),
        storeByte_getD, if_neg (by omega), storeByte_getD, if_neg (by omega),
        storeByte_getD, if_neg (by omega)]
    have hself : (storeByte (storeShort (storeByte (storeByte (storeByte header.data
          s0.value.toNat baseprob0) s1.value.toNat baseprob1) sb.value.toNat boostfactor)
          sd.value.toNat (phase1.rawsize + CRINKLER_CODEBASE)) sv.value.toNat H).getD
          sv.value.toNat 0 = H.toNat := by
      rw [storeByte_getD, if_pos ⟨rfl, by rw [hlen4]; exact holen⟩, hHbyte]
    refine ⟨hH0, by omega, hself, ?_, by omega, by omega⟩
    show ((loadWord (storeByte _ _ H) (sv.value.toNat - 3) : Nat) : Int) = _
    unfold loadWord
    have e33 : sv.value.toNat - 3 + 3 = sv.value.toNat := by omega
    rw [hkeep _ (le_refl _) (by omega), hkeep _ (by omega) (by omega),
      hkeep _ (by omega) (by omega), e33, hself]
    have hHn : ((H.toNat : Nat) : Int) = H := Int.toNat_of_nonneg hH0
    push_cast
    rw [hHn]
    have := congrArg (fun n : Nat => (n : Int)) hlowval
    simp only at this
    push_cast at this
    omega

/-- C27 at the example 1k header and a payload of virtual size 4: `low` is
`0x1234`, `v` is `131076` and the byte stored at offset 7 is `1`. -/
theorem SetHeaderConstants_tiny_virtual_size_high_byte_witness :
    ∃ h' : Hunk, ∃ H low : Int,
      SetHeaderConstants.tinyHeader exampleTinyHeader payloadPopFirst 2 10 11 = some h' ∧
      low = (loadWord exampleTinyHeader.data (7 - 3) % 16777216 : Nat) ∧
      H = (payloadPopFirst.virtualsize + 131072 - low + 0xFFFFFF) / 16777216 ∧
      0 ≤ H ∧ H < 256 ∧
      h'.data.getD 7 0 = H.toNat ∧
      (loadWord h'.data (7 - 3) : Int) = H * 16777216 + low ∧
      payloadPopFirst.virtualsize + 131072 ≤ H * 16777216 + low ∧
      (H = 0 ∨ (H - 1) * 16777216 + low < payloadPopFirst.virtualsize + 131072) :=
  SetHeaderConstants_tiny_virtual_size_high_byte exampleTinyHeader payloadPopFirst 2 10 11
    (Symbol.new "_VirtualSizeHighBytePtr" 7 0 (some "header") none)
    (Symbol.new "_BaseProbPtr0" 0 0 (some "header") none)
    (Symbol.new "_BaseProbPtr1" 1 0 (some "header") none)
    (Symbol.new "_BoostFactorPtr" 2 0 (some "header") none)
    (Symbol.new "_DepackEndPositionPtr" 8 0 (some "header") none)
    (by decide) (by decide) (by decide) (by decide) (by decide) (by decide) (by decide)
    (by decide) (by decide) (by decide) (by decide) (by decide) (by decide)

/-! ## Claim on the reading of the model descriptor in `Recompress` -/

theorem getD_append_at (a b : List Nat) (p k : Nat) (hp : p = a.length + k) :
    (a ++ b).getD p 0 = b.getD k 0 := by
  subst hp
  simp [List.getD_eq_getElem?_getD, List.getElem?_append_right]

theorem loadWord_at (a b : List Nat) (w p : Nat) (hw : w < 4294967296) (hp : p = a.length) :
    loadWord (a ++ (wordBytes w ++ b)) p = w := by
  unfold loadWord
  rw [getD_append_at a _ p 0 (by omega), getD_append_at a _ (p + 1) 1 (by omega),
    getD_append_at a _ (p + 2) 2 (by omega), getD_append_at a _ (p + 3) 3 (by omega)]
  simp [wordBytes]
  omega

theorem wrapInt_neg_sub (x : Int) (h1 : INT_MIN ≤ x) (h2 : x ≤ INT_MAX) (w : Nat)
    (hw : w = ((-(CRINKLER_CODEBASE + x)) % 4294967296).toNat) :
    wrapInt (-(if w < 2147483648 then (w : Int) else (w : Int) - 4294967296)
      - CRINKLER_CODEBASE) = x ∧
    (CRINKLER_CODEBASE + x ≤ INT_MAX →
      -(if w < 2147483648 then (w : Int) else (w : Int) - 4294967296) - CRINKLER_CODEBASE = x) := by
  unfold INT_MIN at h1
  unfold INT_MAX at h2
  unfold wrapInt toInt CRINKLER_CODEBASE INT_MAX
  unfold CRINKLER_CODEBASE at hw
  constructor
  · split_ifs <;> omega
  · intro h
    split_ifs <;> omega

/-- C23: a file holds, behind any bytes `pre`, the descriptor that
`CreateModelHunk(sp, rs)` builds for model lists with `n1` and `n2` models, and
`models_address` points to it. When `Recompress` reads it with a version of at
least 13 and `SetFromModelsAndMask` finds `n1` code models, the split point and
the raw size it decodes are `sp` and `rs` for all 32-bit `sp` and `rs`; the four
words are read at the offsets 4, `12 + n1`, `8 + n1` and 0 of the descriptor,
the weightmasks are the ones written, and the pointers `models1` and `models2`
are the offsets 8 and `16 + n1`, where the mask bytes were written. When
`code_base + sp` (or `code_base + rs`) does not exceed `INT_MAX`, the decoding
is exact without any wrap. -/
theorem Recompress_reads_back_CreateModelHunk (GetMaskList : ModelList4k → Bool → MaskList)
    (SetFromModelsAndMask : ModelList4k → List Nat → Int → ModelList4k)
    (ml1 ml2 old1 old2 : ModelList4k) (sp rs version : Int) (pre post indata : List Nat)
    (r : DescriptorRead)
    (hsp : INT_MIN ≤ sp ∧ sp ≤ INT_MAX) (hrs : INT_MIN ≤ rs ∧ rs ≤ INT_MAX)
    (hversion : 13 ≤ version)
    (hin : indata = pre ++ (CreateModelHunk GetMaskList ml1 ml2 sp rs).data ++ post)
    (hr : r = Recompress.readModels SetFromModelsAndMask old1 old2 indata
      (CRINKLER_IMAGEBASE + pre.length) version)
    (hn : r.m_modellist1.nmodels = ml1.nmodels) :
    r.splittingPoint = sp ∧ r.rawsize = rs ∧
      r.wordOffsets = [(pre.length : Int) + 4, pre.length + 12 + ml1.nmodels,
        pre.length + 8 + ml1.nmodels, pre.length] ∧
      r.weightmask1 = (GetMaskList ml1 false).weightmask % 4294967296 ∧
      r.weightmask2 = (GetMaskList ml2 true).weightmask % 4294967296 ∧
      r.models1 = pre.length + 8 ∧ r.models2 = pre.length + 16 + ml1.nmodels ∧
      (∀ m, m < ml1.nmodels →
        indata.getD (r.models1.toNat + m) 0 = (GetMaskList ml1 false).masks m % 256) ∧
      (∀ m, m < ml2.nmodels →
        indata.getD (r.models2.toNat + m) 0 = (GetMaskList ml2 true).masks m % 256) ∧
      (CRINKLER_CODEBASE + sp ≤ INT_MAX →
        -(loadInt indata pre.length) - CRINKLER_CODEBASE = sp) ∧
      (CRINKLER_CODEBASE + rs ≤ INT_MAX →
        -(loadInt indata (pre.length + 8 + ml1.nmodels)) - CRINKLER_CODEBASE = rs) := by
  have hoff : CRINKLER_IMAGEBASE + (pre.length : Int) - CRINKLER_IMAGEBASE = pre.length := by ring
  have hskip : r.modelskip = 8 + ml1.nmodels := by
    rw [← hn, hr]
    rfl
  have hm1 : r.models1 = pre.length + 8 := by
    rw [hr]
    show CRINKLER_IMAGEBASE + (pre.length : Int) - CRINKLER_IMAGEBASE + 8 = _
    rw [hoff]
  have hm2 : r.models2 = pre.length + 16 + ml1.nmodels := by
    have : r.models2 = CRINKLER_IMAGEBASE + (pre.length : Int) - CRINKLER_IMAGEBASE
        + r.modelskip + 8 := by
      rw [hr]
      rfl
    rw [this, hoff, hskip]
    ring
  have hw1 : r.weightmask1 = loadWord indata (pre.length + 4) := by
    rw [hr]
    show loadWord indata (CRINKLER_IMAGEBASE + (pre.length : Int) - CRINKLER_IMAGEBASE
      + 4).toNat = _
    rw [hoff]
    congr 1
  have hw2 : r.weightmask2 = loadWord indata (pre.length + 12 + ml1.nmodels) := by
    have : r.weightmask2 = loadWord indata (CRINKLER_IMAGEBASE + (pre.length : Int)
        - CRINKLER_IMAGEBASE + r.modelskip + 4).toNat := by
      rw [hr]
      rfl
    rw [this, hoff, hskip]
    congr 1
    omega
  have hrsz : r.rawsize = wrapInt (-(loadInt indata (pre.length + 8 + ml1.nmodels))
      - CRINKLER_CODEBASE) := by
    have : r.rawsize = if version ≥ 13 then
        wrapInt (-(loadInt indata (CRINKLER_IMAGEBASE + (pre.length : Int)
          - CRINKLER_IMAGEBASE + r.modelskip).toNat) - CRINKLER_CODEBASE)
        else (loadInt indata (CRINKLER_IMAGEBASE + (pre.length : Int)
          - CRINKLER_IMAGEBASE + r.modelskip).toNat).tdiv 8 := by
      rw [hr]
      rfl
    rw [this, if_pos hversion, hoff, hskip]
    congr 4
    omega
  have hspl : r.splittingPoint = wrapInt (-(loadInt indata pre.length) - CRINKLER_CODEBASE) := by
    have : r.splittingPoint = if version ≥ 13 then
        wrapInt (-(loadInt indata (CRINKLER_IMAGEBASE + (pre.length : Int)
          - CRINKLER_IMAGEBASE).toNat) - CRINKLER_CODEBASE)
        else (loadInt indata (CRINKLER_IMAGEBASE + (pre.length : Int)
          - CRINKLER_IMAGEBASE).toNat).tdiv 8 := by
      rw [hr]
      rfl
    rw [this, if_pos hversion, hoff]
    congr 4
  have hwo : r.wordOffsets = [(pre.length : Int) + 4, pre.length + 12 + ml1.nmodels,
      pre.length + 8 + ml1.nmodels, pre.length] := by
    have : r.wordOffsets = [CRINKLER_IMAGEBASE + (pre.length : Int) - CRINKLER_IMAGEBASE + 4,
        CRINKLER_IMAGEBASE + (pre.length : Int) - CRINKLER_IMAGEBASE + r.modelskip + 4,
        CRINKLER_IMAGEBASE + (pre.length : Int) - CRINKLER_IMAGEBASE + r.modelskip,
        CRINKLER_IMAGEBASE + (pre.length : Int) - CRINKLER_IMAGEBASE] := by
      rw [hr]
      rfl
    rw [this, hoff, hskip]
    simp only [List.cons.injEq, and_true, true_and]
    constructor <;> ring
  rw [CreateModelHunk.data_eq] at hin
  generalize hW0 : ((-(CRINKLER_CODEBASE + sp)) % 4294967296).toNat = W0 at hin
  generalize hW2 : ((-(CRINKLER_CODEBASE + rs)) % 4294967296).toNat = W2 at hin
  generalize (GetMaskList ml1 false) = l1 at hin ⊢
  generalize (GetMaskList ml2 true) = l2 at hin ⊢
  generalize ml1.nmodels = n1 at *
  generalize ml2.nmodels = n2 at *
  have hW0lt : W0 < 4294967296 := by omega
  have hW2lt : W2 < 4294967296 := by omega
  have hl1lt : l1.weightmask % 4294967296 < 4294967296 := Nat.mod_lt _ (by norm_num)
  have hl2lt : l2.weightmask % 4294967296 < 4294967296 := Nat.mod_lt _ (by norm_num)
  have len4 : ∀ w, (wordBytes w).length = 4 := fun w => rfl
  have e0 : indata = pre ++ (wordBytes W0 ++ (wordBytes (l1.weightmask % 4294967296) ++
      (List.map (fun m => l1.masks m % 256) (List.range n1) ++ (wordBytes W2 ++
      (wordBytes (l2.weightmask % 4294967296) ++
      (List.map (fun m => l2.masks m % 256) (List.range n2) ++ post)))))) := by
    rw [hin]
    simp only [List.append_assoc]
  have e1 : indata = (pre ++ wordBytes W0) ++ (wordBytes (l1.weightmask % 4294967296) ++
      (List.map (fun m => l1.masks m % 256) (List.range n1) ++ (wordBytes W2 ++
      (wordBytes (l2.weightmask % 4294967296) ++
      (List.map (fun m => l2.masks m % 256) (List.range n2) ++ post))))) := by
    rw [e0]
    simp only [List.append_assoc]
  have e2 : indata = (pre ++ wordBytes W0 ++ wordBytes (l1.weightmask % 4294967296)) ++
      (List.map (fun m => l1.masks m % 256) (List.range n1) ++ (wordBytes W2 ++
      (wordBytes (l2.weightmask % 4294967296) ++
      (List.map (fun m => l2.masks m % 256) (List.range n2) ++ post)))) := by
    rw [e0]
    simp only [List.append_assoc]
  have e3 : indata = (pre ++ wordBytes W0 ++ wordBytes (l1.weightmask % 4294967296) ++
      List.map (fun m => l1.masks m % 256) (List.range n1)) ++ (wordBytes W2 ++
      (wordBytes (l2.weightmask % 4294967296) ++
      (List.map (fun m => l2.masks m % 256) (List.range n2) ++ post))) := by
    rw [e0]
    simp only [List.append_assoc]
  have e4 : indata = (pre ++ wordBytes W0 ++ wordBytes (l1.weightmask % 4294967296) ++
      List.map (fun m => l1.masks m % 256) (List.range n1) ++ wordBytes W2) ++
      (wordBytes (l2.weightmask % 4294967296) ++
      (List.map (fun m => l2.masks m % 256) (List.range n2) ++ post)) := by
    rw [e0]
    simp only [List.append_assoc]
  have e5 : indata = (pre ++ wordBytes W0 ++ wordBytes (l1.weightmask % 4294967296) ++
      List.map (fun m => l1.masks m % 256) (List.range n1) ++ wordBytes W2 ++
      wordBytes (l2.weightmask % 4294967296)) ++
      (List.map (fun m => l2.masks m % 256) (List.range n2) ++ post) := by
    rw [e0]
    simp only [List.append_assoc]
  have hword0 : loadWord indata pre.length = W0 := by
    rw [e0]
    exact loadWord_at _ _ _ _ hW0lt rfl
  have hword1 : loadWord indata (pre.length + 4) = l1.weightmask % 4294967296 := by
    rw [e1]
    exact loadWord_at _ _ _ _ hl1lt (by simp [len4])
  have hword2 : loadWord indata (pre.length + 8 + n1) = W2 := by
    rw [e3]
    exact loadWord_at _ _ _ _ hW2lt (by simp [len4]; omega)
  have hword3 : loadWord indata (pre.length + 12 + n1) = l2.weightmask % 4294967296 := by
    rw [e4]
    exact loadWord_at _ _ _ _ hl2lt (by simp [len4]; omega)
  have hmask : ∀ (f : Nat → Nat) (n m : Nat) (rest : List Nat), m < n →
      (List.map f (List.range n) ++ rest).getD m 0 = f m := by
    intro f n m rest hm
    rw [List.getD_eq_getElem?_getD, List.getElem?_append_left (by simpa using hm)]
    simp [hm]
  have hsp' := wrapInt_neg_sub sp hsp.1 hsp.2 W0 hW0.symm
  have hrs' := wrapInt_neg_sub rs hrs.1 hrs.2 W2 hW2.symm
  refine ⟨?_, ?_, hwo, by rw [hw1, hword1], by rw [hw2, hword3], hm1, hm2, ?_, ?_, ?_, ?_⟩
  · rw [hspl]
    unfold loadInt
    rw [hword0]
    exact hsp'.1
  · rw [hrsz]
    unfold loadInt
    rw [hword2]
    exact hrs'.1
  · intro m hm
    rw [hm1]
    have : ((pre.length : Int) + 8).toNat + m = (pre ++ wordBytes W0
        ++ wordBytes (l1.weightmask % 4294967296)).length + m := by
      simp [len4]
      omega
    rw [this]
    conv_lhs => rw [e2]
    rw [getD_append_at _ _ _ m rfl]
    exact hmask _ _ _ _ hm
  · intro m hm
    rw [hm2]
    have : ((pre.length : Int) + 16 + n1).toNat + m = (pre ++ wordBytes W0
        ++ wordBytes (l1.weightmask % 4294967296)
        ++ List.map (fun m => l1.masks m % 256) (List.range n1) ++ wordBytes W2
        ++ wordBytes (l2.weightmask % 4294967296)).length + m := by
      simp [len4]
      omega
    rw [this]
    conv_lhs => rw [e5]
    rw [getD_append_at _ _ _ m rfl]
    exact hmask _ _ _ _ hm
  · unfold loadInt
    rw [hword0]
    exact hsp'.2
  · unfold loadInt
    rw [hword2]
    exact hrs'.2

/-- C23 at the example file: the descriptor of `CreateModelHunk(100, 300)` at
offset 2, read with version 20, yields the split point 100 and the raw size
300. -/
theorem Recompress_reads_back_CreateModelHunk_witness :
    (Recompress.readModels exampleSetFromModelsAndMask exampleMembers.m_modellist1
        exampleMembers.m_modellist2 exampleDescriptorFile (CRINKLER_IMAGEBASE + 2)
        20).splittingPoint = 100 ∧
      (Recompress.readModels exampleSetFromModelsAndMask exampleMembers.m_modellist1
        exampleMembers.m_modellist2 exampleDescriptorFile (CRINKLER_IMAGEBASE + 2)
        20).rawsize = 300 :=
  have h := Recompress_reads_back_CreateModelHunk exampleExternals.GetMaskList
    exampleSetFromModelsAndMask exampleMembers.m_modellist1 exampleMembers.m_modellist2
    exampleMembers.m_modellist1 exampleMembers.m_modellist2 100 300 20 [0x4D, 0x5A] []
    exampleDescriptorFile
    (Recompress.readModels exampleSetFromModelsAndMask exampleMembers.m_modellist1
      exampleMembers.m_modellist2 exampleDescriptorFile (CRINKLER_IMAGEBASE + 2) 20)
    ⟨by decide, by decide⟩ ⟨by decide, by decide⟩ (by decide) rfl rfl rfl
  ⟨h.1, h.2.1⟩

/-! ## Claims on `EstimateModels` -/

theorem EstimateModels.dataContext_eq (data : List Nat) (sp : Int) :
    EstimateModels.dataContext data sp =
      (List.range 8).map (fun (i : Nat) =>
        if sp - 8 + (i : Int) ≥ 0 then data.getD (sp - 8 + (i : Int)).toNat 0 else 0) := by
  rfl

theorem EstimateModels.dataContext_tail (data : List Nat) (sp : Int) (h0 : 0 ≤ sp)
    (h1 : sp ≤ data.length) :
    EstimateModels.dataContext data sp =
      List.replicate (8 - sp.toNat) 0 ++ (data.take sp.toNat).drop (sp.toNat - 8) := by
  rw [EstimateModels.dataContext_eq]
  obtain ⟨s, rfl⟩ := Int.eq_ofNat_of_zero_le h0
  have hs : s ≤ data.length := by exact_mod_cast h1
  simp only [Int.toNat_ofNat]
  apply List.ext_getElem?
  intro n
  by_cases hn : n < 8
  · rw [List.getElem?_map, List.getElem?_range hn]
    simp only [Option.map_some']
    by_cases hlt : n < 8 - s
    · rw [List.getElem?_append_left (by simpa using hlt), List.getElem?_replicate, if_pos hlt,
        if_neg (by omega)]
    · rw [List.getElem?_append_right (by simpa using (not_lt.mp hlt))]
      simp only [List.length_replicate, List.getElem?_drop]
      have hj : s - 8 + (n - (8 - s)) = s + n - 8 := by omega
      rw [hj, List.getElem?_take_of_lt (by omega), if_pos (by omega)]
      have hidx : ((s : Int) - 8 + (n : Int)).toNat = s + n - 8 := by omega
      rw [hidx, List.getD_eq_getElem?_getD]
      have hlen : s + n - 8 < data.length := by omega
      rw [List.getElem?_eq_getElem hlen]
      rfl
  · have h8 : 8 ≤ n := not_lt.mp hn
    rw [List.getElem?_eq_none (by simpa using h8), List.getElem?_eq_none]
    simp only [List.length_append, List.length_replicate, List.length_drop, List.length_take]
    omega

/-- C22: in 4k mode, for a splitting point `sp` inside the buffer and every
compressor library, what `EstimateModels` takes over for the code segment is the
result of `ApproximateModels4k` on the `sp` bytes at `data` with a context of 8
zero bytes, and what it takes over for the data segment is the result of
`ApproximateModels4k` on the `datasize - sp` bytes at `data + sp` with the
context `seed`, whose byte `i` is `data[sp - 8 + i]`, or 0 where `sp - 8 + i` is
negative; `seed` is the last 8 bytes of the code segment, with zeros in front
when the code segment is shorter than 8 bytes. These are the only two calls of
`ApproximateModels4k`. -/
theorem EstimateModels_seed_contexts (self : Members) (ext : Externals)
    (lib : CompressorLibrary) (m_compressionType : CompressionType) (m_saturate : Int)
    (data : List Nat) (datasize splittingPoint : Int) (reestimate : Bool)
    (target_size1 target_size2 : Int)
    (h0 : 0 ≤ splittingPoint) (h1 : splittingPoint ≤ data.length) :
    ∃ (seed : List Nat) (code data2 : ModelList4k × Int) (r : EstimateModelsRun),
      r = EstimateModels self ext lib m_compressionType m_saturate data datasize splittingPoint
        reestimate false target_size1 target_size2 ∧
      seed.length = 8 ∧
      (∀ i : Nat, i < 8 → seed.getD i 0 =
        if splittingPoint - 8 + (i : Int) < 0 then 0
        else data.getD (splittingPoint - 8 + (i : Int)).toNat 0) ∧
      seed = List.replicate (8 - splittingPoint.toNat) 0 ++
        (data.take splittingPoint.toNat).drop (splittingPoint.toNat - 8) ∧
      code = lib.ApproximateModels4k data splittingPoint (List.replicate 8 0)
        m_compressionType (m_saturate ≠ 0) ext.CRINKLER_BASEPROB ∧
      data2 = lib.ApproximateModels4k (data.drop splittingPoint.toNat)
        (datasize - splittingPoint) seed m_compressionType (m_saturate ≠ 0)
        ext.CRINKLER_BASEPROB ∧
      r.m_modellist1 = (if code.2 < target_size1 then code.1 else self.m_modellist1) ∧
      r.m_modellist2 = (if data2.2 < target_size2 then data2.1 else self.m_modellist2) ∧
      r.ret = (lib.EvaluateSize4k data [splittingPoint, datasize - splittingPoint]
        [if code.2 < target_size1 then code.1 else self.m_modellist1,
         if data2.2 < target_size2 then data2.1 else self.m_modellist2]
        ext.CRINKLER_BASEPROB (m_saturate ≠ 0)).1 ∧
      r.calls =
        [{ data := data, datasize := splittingPoint, context := List.replicate 8 0 },
         { data := data.drop splittingPoint.toNat, datasize := datasize - splittingPoint,
           context := seed }] := by
  refine ⟨EstimateModels.dataContext data splittingPoint, _, _, _, rfl, ?_, ?_,
    EstimateModels.dataContext_tail data splittingPoint h0 h1, rfl, rfl, rfl, rfl, rfl, rfl⟩
  · rw [EstimateModels.dataContext_eq]
    simp
  · intro i hi
    rw [EstimateModels.dataContext_eq, List.getD_eq_getElem?_getD, List.getElem?_map,
      List.getElem?_range hi]
    simp only [Option.map_some', Option.getD_some]
    split_ifs <;> first | rfl | omega

/-- C22 at the example buffer with the splitting point 3 and a library whose
search hands back its context as the masks of the models: the list stored for
the code segment holds 8 zero masks, the list stored for the data segment holds
five zero masks followed by the three bytes of the code segment. -/
theorem EstimateModels_seed_contexts_witness :
    (EstimateModels exampleMembers exampleExternals echoLibrary
        CompressionType.COMPRESSION_FAST 0 bufferWithCall 14 3 false false 1 1).m_modellist1 =
      { m_models := List.replicate 8 ⟨0, 0⟩, nmodels := 8, size := 0 } ∧
    (EstimateModels exampleMembers exampleExternals echoLibrary
        CompressionType.COMPRESSION_FAST 0 bufferWithCall 14 3 false false 1 1).m_modellist2 =
      { m_models := [⟨0, 0⟩, ⟨0, 0⟩, ⟨0, 0⟩, ⟨0, 0⟩, ⟨0, 0⟩, ⟨0, 0x5F⟩, ⟨0, 0xB9⟩, ⟨0, 0⟩],
        nmodels := 8, size := 0 } := by
  obtain ⟨seed, code, data2, r, hr, _, _, hseed, hcode, hdata2, hm1, hm2, _, _⟩ :=
    EstimateModels_seed_contexts exampleMembers exampleExternals echoLibrary
      CompressionType.COMPRESSION_FAST 0 bufferWithCall 14 3 false 1 1 (by decide) (by decide)
  rw [← hr, hm1, hm2, hcode, hdata2, hseed]
  exact ⟨by decide, by decide⟩

/-- C28: in 4k mode `EstimateModels` stores the list that `ApproximateModels4k`
returns for the code segment exactly when the size returned with it is below
`target_size1`, and the list for the data segment exactly when its size is below
`target_size2`; a list that is not replaced stays as it was, the 1k list is not
touched, and the value returned is what `EvaluateSize4k` returns for the two
lists that are stored after the call. -/
theorem EstimateModels_keeps_best (self : Members) (ext : Externals)
    (lib : CompressorLibrary) (m_compressionType : CompressionType) (m_saturate : Int)
    (data : List Nat) (datasize splittingPoint : Int) (reestimate : Bool)
    (target_size1 target_size2 : Int) :
    ∃ (code data2 : ModelList4k × Int) (r : EstimateModelsRun),
      r = EstimateModels self ext lib m_compressionType m_saturate data datasize splittingPoint
        reestimate false target_size1 target_size2 ∧
      code = lib.ApproximateModels4k data splittingPoint (List.replicate 8 0)
        m_compressionType (m_saturate ≠ 0) ext.CRINKLER_BASEPROB ∧
      data2 = lib.ApproximateModels4k (data.drop splittingPoint.toNat)
        (datasize - splittingPoint) (EstimateModels.dataContext data splittingPoint)
        m_compressionType (m_saturate ≠ 0) ext.CRINKLER_BASEPROB ∧
      (code.2 < target_size1 → r.m_modellist1 = code.1) ∧
      (¬ code.2 < target_size1 → r.m_modellist1 = self.m_modellist1) ∧
      (data2.2 < target_size2 → r.m_modellist2 = data2.1) ∧
      (¬ data2.2 < target_size2 → r.m_modellist2 = self.m_modellist2) ∧
      r.m_modellist1k = self.m_modellist1k ∧
      r.ret = (lib.EvaluateSize4k data [splittingPoint, datasize - splittingPoint]
        [r.m_modellist1, r.m_modellist2] ext.CRINKLER_BASEPROB (m_saturate ≠ 0)).1 := by
  refine ⟨_, _, _, rfl, rfl, rfl, ?_, ?_, ?_, ?_, rfl, rfl⟩
  · intro h
    simp only [EstimateModels, MAX_CONTEXT_LENGTH, Bool.false_eq_true, if_false]
    rw [if_pos h]
  · intro h
    simp only [EstimateModels, MAX_CONTEXT_LENGTH, Bool.false_eq_true, if_false]
    rw [if_neg h]
  · intro h
    simp only [EstimateModels, MAX_CONTEXT_LENGTH, Bool.false_eq_true, if_false]
    rw [if_pos h]
  · intro h
    simp only [EstimateModels, MAX_CONTEXT_LENGTH, Bool.false_eq_true, if_false]
    rw [if_neg h]

/-! ## Claim on `CreateDynamicInitializerHunk` -/

/-- A relocation of a `CRT$XCU` hunk whose target is not a symbol of the pool:
the lookup yields the null pointer and the method dereferences it. -/
theorem CreateDynamicInitializerHunk.null_target :
    CreateDynamicInitializerHunk [poolWithInitializer.getD 0 (Hunk.new "" 0 0 0 0)] = none := by
  decide

end Crinkler
